import Mathlib

/-!
# Dragster: a verification development for `dragster.c`

A shallow embedding of the single source file `src/dragster.c`: the physics
step `game_step`, the dense key `hash_state`, the seed constructor
`init_state`, and the generational search of `main`, followed by theorems
about them.

Modelling conventions.

* The physics step is embedded twice.  `game_step` computes over the integers:
  C `int` values are `Int`, nothing wraps around, and the speed limit is the
  exact value.  `game_step_int32` computes as the machine does: every `int`
  operation wraps around at 32 bits and the speed limit is computed in `double`.
  The two produce the same state along every run of at most 168 steps from a
  state within the ranges of the data model whose distance leaves room
  (`run_inputs_int32_eq`), which covers every state the program reaches from a
  seed; theorems about arbitrary states whose content is the size of a distance
  or the exactness of the `double` computation are stated for `game_step_int32`.
* `unsigned char inputs[MAX_FRAMES + 1]` is the record `Inputs`: a list of
  bytes together with the fact that it has `MAX_FRAMES + 1` entries.  Indexing
  outside the array is undefined in C; the model reads `0` and ignores the
  write there, and the theorems that depend on an index carry the bound as a
  hypothesis.
* `clutch` and `shift` are `int` parameters in C, but every caller passes only
  `0` or `1`; they are `Bool` here.
* `pow(2, e)` is evaluated in double precision in C.  In `game_step` the
  conversion back to `int` is the truncation of the exact value, computed in
  integers.  In `game_step_int32` a finite double is a pair `(r, u)` standing
  for `r * 2^u`, every operation is rounded to the nearest double with ties to
  even, and `pow(2, e)` is the double nearest to `2^e`; `speed_limit_double_eq`
  shows that the two computations agree for every tachometer below `2^51` in
  the gears `0 .. 900` whenever the result is an `int`.
* Signed overflow and the conversion of an out-of-range double are undefined in
  C.  `game_step_int32` takes what the usual x86-64 build delivers: the wrapped
  result, and `INT_MIN` for the conversion.
* C `%` and the double-to-int conversion truncate toward zero: `Int.tmod` and
  `Int.tdiv`.
-/

namespace Dragster

/-! ## Constants (lines 12-27) -/

abbrev MAX_FRAMES : Int := 167
abbrev INITIAL_GEAR : Int := 0
abbrev INITIAL_SPEED : Int := 0
abbrev INPUT_CLUTCH : Nat := 1
abbrev INPUT_SHIFT : Nat := 2
abbrev MIN_WINNING_DISTANCE : Int := 97 * 256
abbrev MAX_TACHOMETER : Int := 32
abbrev MAX_FRAME_COUNTER : Int := 16
abbrev MAX_GEAR : Int := 4
abbrev MAX_SPEED : Int := 256
abbrev MAX_STATES : Int := MAX_TACHOMETER * MAX_SPEED * (MAX_GEAR + 1) * 2 * 2

/-- Number of slots of the `inputs` array, `MAX_FRAMES + 1`. -/
abbrev INPUTS_LEN : Nat := 168

/-! ## The state record (lines 32-44) -/

/-- The array `unsigned char inputs[MAX_FRAMES + 1]`. -/
structure Inputs where
  bytes : List Nat
  size_eq : bytes.length = INPUTS_LEN
deriving DecidableEq

/-- A zeroed `inputs` array. -/
def zero_inputs : Inputs := ⟨List.replicate INPUTS_LEN 0, List.length_replicate _ _⟩

/-- The C struct `GameState`. -/
structure GameState where
  timer : Int
  frame_counter : Int
  tachometer : Int
  tachometer_diff : Int
  distance : Int
  speed : Int
  gear : Int
  initial_tachometer : Int
  initial_frame_counter : Int
  inputs : Inputs
deriving DecidableEq

/-- A zeroed record, what `bzero` leaves behind. -/
def zero_state : GameState :=
  { timer := 0, frame_counter := 0, tachometer := 0, tachometer_diff := 0,
    distance := 0, speed := 0, gear := 0, initial_tachometer := 0,
    initial_frame_counter := 0, inputs := zero_inputs }

/-! ## Input bytes -/

/-- The byte `(clutch * INPUT_CLUTCH) | (shift * INPUT_SHIFT)`. -/
def input_byte (clutch shift : Bool) : Nat :=
  (clutch.toNat * INPUT_CLUTCH) ||| (shift.toNat * INPUT_SHIFT)

/-- The test `b & INPUT_CLUTCH`. -/
def clutch_bit (b : Nat) : Bool := decide (b &&& INPUT_CLUTCH ≠ 0)

/-- The test `b & INPUT_SHIFT`. -/
def shift_bit (b : Nat) : Bool := decide (b &&& INPUT_SHIFT ≠ 0)

/-- The read `inputs[i]`. -/
def read_input (inputs : Inputs) (i : Int) : Nat :=
  if 0 ≤ i then inputs.bytes.getD i.toNat 0 else 0

/-- The write `inputs[i] = b`. -/
def write_input (inputs : Inputs) (i : Int) (b : Nat) : Inputs :=
  if 0 ≤ i then
    ⟨inputs.bytes.set i.toNat b, (List.length_set _ _ _).trans inputs.size_eq⟩
  else inputs

/-! ## init_state (lines 54-64) -/

/-- The C function `init_state`. -/
def init_state (tachometer frame_counter : Int) (clutch shift : Bool) : GameState :=
  { zero_state with
    frame_counter := frame_counter
    initial_frame_counter := frame_counter
    tachometer := tachometer
    initial_tachometer := tachometer
    inputs := write_input zero_state.inputs 0 (input_byte clutch shift)
    timer := 1
    gear := INITIAL_GEAR
    speed := INITIAL_SPEED }

/-! ## hash_state (lines 76-84) -/

/-- The shift bit of the last recorded input slot, `inputs[timer - 1] & INPUT_SHIFT`. -/
def last_shift (state : GameState) : Bool :=
  shift_bit (read_input state.inputs (state.timer - 1))

/-- The C function `hash_state`. -/
def hash_state (state : GameState) : Int :=
  (if last_shift state then 1 else 0)
  + 2 * state.gear
  + 2 * (MAX_GEAR + 1) * state.speed
  + 2 * (MAX_GEAR + 1) * MAX_SPEED * state.tachometer
  + 2 * (MAX_GEAR + 1) * MAX_SPEED * MAX_TACHOMETER * state.tachometer_diff

/-! ## game_step (lines 96-157) -/

/-- The value `(int) pow(2, e)`: the power of two for `0 ≤ e`, and the
truncation `0` of a proper fraction for `e < 0`. -/
def pow2 (e : Int) : Int := if 0 ≤ e then 2 ^ e.toNat else 0

/-- The value `(int) (t * pow(2, e))`: the exact product truncated toward zero. -/
def scale_pow2 (t e : Int) : Int :=
  if 0 ≤ e then t * 2 ^ e.toNat else Int.tdiv t (2 ^ (-e).toNat)

/-- Lines 102-103: the gear after the step. -/
def next_gear (prev_shift : Bool) (gear : Int) : Int :=
  if prev_shift then (if gear ≥ MAX_GEAR then MAX_GEAR else gear + 1) else gear

/-- Lines 102-124: the tachometer after the step, from the new frame counter
and the new gear, clamped below at zero. -/
def next_tachometer (prev_shift clutch : Bool) (frame_counter gear tachometer tachometer_diff : Int) : Int :=
  let t :=
    if prev_shift then
      if clutch then tachometer - (tachometer_diff - 3) else tachometer - (tachometer_diff + 3)
    else
      if Int.tmod frame_counter (pow2 gear) = 0 then
        if clutch then tachometer - (tachometer_diff - 1) else tachometer - (tachometer_diff + 1)
      else tachometer - tachometer_diff
  if t < 0 then 0 else t

/-- Lines 127-132: the speed limit, from the new tachometer and the new gear. -/
def speed_limit (tachometer gear : Int) : Int :=
  if tachometer ≥ 20 ∧ gear > 1 then
    scale_pow2 tachometer (gear - 1) + pow2 (gear - 2)
  else
    scale_pow2 tachometer (gear - 1)

/-- Lines 135-143: the tachometer difference after the step. -/
def next_tachometer_diff (prev_shift : Bool) (limit speed : Int) : Int :=
  if prev_shift then 0 else (if limit - speed ≥ 16 then 1 else 0)

/-- Lines 146-153: the speed after the step; the two tests run one after the other. -/
def next_speed (prev_shift : Bool) (gear limit speed : Int) : Int :=
  if gear ≠ 0 ∧ prev_shift = false then
    let speed1 := if speed > limit then speed - 1 else speed
    if speed1 < limit then speed1 + 2 else speed1
  else speed

/-- The C function `game_step`, returning the updated record. -/
def game_step (state : GameState) (clutch shift : Bool) : GameState :=
  let inputs := write_input state.inputs state.timer (input_byte clutch shift)
  let timer := state.timer + 1
  let frame_counter := Int.tmod (state.frame_counter + 2) MAX_FRAME_COUNTER
  let prev_shift := shift_bit (read_input inputs (timer - 2))
  let gear := next_gear prev_shift state.gear
  let tachometer := next_tachometer prev_shift clutch frame_counter gear state.tachometer state.tachometer_diff
  let limit := speed_limit tachometer gear
  let tachometer_diff := next_tachometer_diff prev_shift limit state.speed
  let speed := next_speed prev_shift gear limit state.speed
  { state with
    inputs := inputs
    timer := timer
    frame_counter := frame_counter
    gear := gear
    tachometer := tachometer
    tachometer_diff := tachometer_diff
    speed := speed
    distance := state.distance + speed }

/-- Apply `game_step` along a list of `(clutch, shift)` pairs, first pair first. -/
def run_inputs (state : GameState) (ins : List (Bool × Bool)) : GameState :=
  ins.foldl (fun s i => game_step s i.1 i.2) state

/-! ## game_step on the machine (lines 96-157)

The same function with `int` as a 32-bit two's complement integer and `double`
as IEEE 754 binary64. Every `int` operation delivers the wrapped result, and
the speed limit of lines 127-132 is computed in `double`, each operation
rounded to the nearest double, and converted back to `int`. -/

/-- The largest `int`. -/
abbrev INT_MAX : Int := 2147483647

/-- The smallest `int`. -/
abbrev INT_MIN : Int := -2147483648

/-- The `int` that an operation on `int`s delivers when its exact result is
`x`: the value congruent to `x` modulo `2^32` in `[INT_MIN, INT_MAX]` (two's
complement wrap-around). -/
def wrap_int (x : Int) : Int := (x + 2147483648) % 4294967296 - 2147483648

/-- The number of binary digits of `n`, counted with at most `fuel` halvings. -/
def bit_length_aux : Nat → Nat → Nat
  | 0, _ => 0
  | fuel + 1, n => if n = 0 then 0 else bit_length_aux fuel (n / 2) + 1

/-- The number of binary digits of `n`: the least `k` with `n < 2^k`. -/
def bit_length (n : Nat) : Nat := bit_length_aux n n

/-- The quotient `a / b` for `b > 0`, rounded to the nearest integer, a tie
going to the even neighbour. -/
def div_round_even (a b : Int) : Int :=
  if 2 * (a % b) < b then a / b
  else if b < 2 * (a % b) then a / b + 1
  else if (a / b) % 2 = 0 then a / b else a / b + 1

/-- The `double` nearest to the exact value `m * 2^e`, a tie going to the even
mantissa (IEEE 754 binary64, round to nearest even). A finite double is held as
a pair `(r, u)` that stands for `r * 2^u`; here `u` is the exponent of the unit
in the last place, at least `-1074`, and `|r| ≤ 2^53`. The result is `none`
when the rounded magnitude reaches `2^1024`, where the double is an infinity. -/
def round_double (m e : Int) : Option (Int × Int) :=
  let ulp := max (-1074) ((bit_length m.natAbs : Int) + e - 53)
  let r := if ulp ≤ e then m * 2 ^ (e - ulp).toNat else div_round_even m (2 ^ (ulp - e).toNat)
  if (bit_length r.natAbs : Int) + ulp ≤ 1024 then some (r, ulp) else none

/-- The conversion of an `int` to `double`. -/
def int_to_double (i : Int) : Option (Int × Int) := round_double i 0

/-- The library call `pow(2, e)` for an integer `e`: the double nearest to
`2^e`, which is `2^e` itself whenever that is a double. -/
def pow_double (e : Int) : Option (Int × Int) := round_double 1 e

/-- The product of two doubles; `none` stands for an infinity or a NaN. -/
def double_mul : Option (Int × Int) → Option (Int × Int) → Option (Int × Int)
  | some x, some y => round_double (x.1 * y.1) (x.2 + y.2)
  | _, _ => none

/-- The sum of two doubles; `none` stands for an infinity or a NaN. -/
def double_add : Option (Int × Int) → Option (Int × Int) → Option (Int × Int)
  | some x, some y =>
    round_double (x.1 * 2 ^ (x.2 - min x.2 y.2).toNat + y.1 * 2 ^ (y.2 - min x.2 y.2).toNat)
      (min x.2 y.2)
  | _, _ => none

/-- The finite double `x` with its fraction cut off (truncation toward zero). -/
def trunc_double (x : Int × Int) : Int :=
  if 0 ≤ x.2 then x.1 * 2 ^ x.2.toNat else Int.tdiv x.1 (2 ^ (-x.2).toNat)

/-- The conversion of a `double` to `int`: truncation toward zero. When the
truncated value is no `int`, or the double is not finite, C leaves the result
undefined; the model delivers `INT_MIN`, the value that the conversion
instruction of x86-64 delivers. -/
def double_to_int : Option (Int × Int) → Int
  | some x =>
    if INT_MIN ≤ trunc_double x ∧ trunc_double x ≤ INT_MAX then trunc_double x else INT_MIN
  | none => INT_MIN

/-- Lines 127-132 on the machine: the speed limit computed in `double` and
converted to `int`. -/
def speed_limit_double (tachometer gear : Int) : Int :=
  if tachometer ≥ 20 ∧ gear > 1 then
    double_to_int
      (double_add
        (double_mul (int_to_double tachometer) (pow_double (wrap_int (gear - 1))))
        (pow_double (wrap_int (gear - 2))))
  else
    double_to_int (double_mul (int_to_double tachometer) (pow_double (wrap_int (gear - 1))))

/-- Lines 102-103 on the machine. -/
def next_gear_int32 (prev_shift : Bool) (gear : Int) : Int :=
  if prev_shift then (if gear ≥ MAX_GEAR then MAX_GEAR else wrap_int (gear + 1)) else gear

/-- Lines 102-124 on the machine. -/
def next_tachometer_int32 (prev_shift clutch : Bool)
    (frame_counter gear tachometer tachometer_diff : Int) : Int :=
  let t :=
    if prev_shift then
      if clutch then wrap_int (tachometer - wrap_int (tachometer_diff - 3))
      else wrap_int (tachometer - wrap_int (tachometer_diff + 3))
    else
      if Int.tmod frame_counter (double_to_int (pow_double gear)) = 0 then
        if clutch then wrap_int (tachometer - wrap_int (tachometer_diff - 1))
        else wrap_int (tachometer - wrap_int (tachometer_diff + 1))
      else wrap_int (tachometer - tachometer_diff)
  if t < 0 then 0 else t

/-- Lines 135-143 on the machine. -/
def next_tachometer_diff_int32 (prev_shift : Bool) (limit speed : Int) : Int :=
  if prev_shift then 0 else (if wrap_int (limit - speed) ≥ 16 then 1 else 0)

/-- Lines 146-153 on the machine. -/
def next_speed_int32 (prev_shift : Bool) (gear limit speed : Int) : Int :=
  if gear ≠ 0 ∧ prev_shift = false then
    let speed1 := if speed > limit then wrap_int (speed - 1) else speed
    if speed1 < limit then wrap_int (speed1 + 2) else speed1
  else speed

/-- The C function `game_step` on the machine: every `int` operation wraps
around at 32 bits and the speed limit is computed in `double`. -/
def game_step_int32 (state : GameState) (clutch shift : Bool) : GameState :=
  let inputs := write_input state.inputs state.timer (input_byte clutch shift)
  let timer := wrap_int (state.timer + 1)
  let frame_counter := Int.tmod (wrap_int (state.frame_counter + 2)) MAX_FRAME_COUNTER
  let prev_shift := shift_bit (read_input inputs (wrap_int (timer - 2)))
  let gear := next_gear_int32 prev_shift state.gear
  let tachometer :=
    next_tachometer_int32 prev_shift clutch frame_counter gear state.tachometer
      state.tachometer_diff
  let limit := speed_limit_double tachometer gear
  let tachometer_diff := next_tachometer_diff_int32 prev_shift limit state.speed
  let speed := next_speed_int32 prev_shift gear limit state.speed
  { state with
    inputs := inputs
    timer := timer
    frame_counter := frame_counter
    gear := gear
    tachometer := tachometer
    tachometer_diff := tachometer_diff
    speed := speed
    distance := wrap_int (state.distance + speed) }

/-- Line 101 on the machine: the shift bit that the step consults, read at
`inputs[timer - 2]` after the increment of the timer. -/
def prev_shift_int32 (s : GameState) (clutch shift : Bool) : Bool :=
  shift_bit (read_input (write_input s.inputs s.timer (input_byte clutch shift))
    (wrap_int (wrap_int (s.timer + 1) - 2)))

/-- Apply `game_step_int32` along a list of `(clutch, shift)` pairs, first pair
first. -/
def run_inputs_int32 (state : GameState) (ins : List (Bool × Bool)) : GameState :=
  ins.foldl (fun s i => game_step_int32 s i.1 i.2) state

/-! ## debug_state (lines 159-193) -/

/-- Lines 160-170: the working copy that `debug_state` builds before its loop:
a copy of the state with the listed fields reset. -/
def debug_start (state : GameState) : GameState :=
  { state with
    frame_counter := state.initial_frame_counter
    initial_frame_counter := state.initial_frame_counter
    tachometer := state.initial_tachometer
    initial_tachometer := state.initial_tachometer
    inputs := write_input state.inputs 0 (read_input state.inputs 0)
    timer := 1
    distance := 0
    gear := INITIAL_GEAR
    speed := INITIAL_SPEED }

/-- Lines 176-182: the working copy of `debug_state` after the loop body of
frame `frame`; the inputs of every frame are read from the state passed in. -/
def debug_frame (state : GameState) : Nat → GameState
  | 0 => debug_start state
  | frame + 1 =>
    game_step (debug_frame state frame)
      (clutch_bit (read_input state.inputs (Int.ofNat (frame + 1))))
      (shift_bit (read_input state.inputs (Int.ofNat (frame + 1))))

/-- Line 185: the values printed for frame `frame` in mode 1: frame, clutch,
shift, gear, speed, tachometer, tachometer difference, distance. -/
def debug_line (state : GameState) (frame : Nat) :
    Nat × Bool × Bool × Int × Int × Int × Int × Int :=
  (frame, clutch_bit (read_input state.inputs (Int.ofNat frame)),
    shift_bit (read_input state.inputs (Int.ofNat frame)),
    (debug_frame state frame).gear, (debug_frame state frame).speed,
    (debug_frame state frame).tachometer, (debug_frame state frame).tachometer_diff,
    (debug_frame state frame).distance)

/-- The lines that `debug_state` prints in mode 1, frames `0 .. MAX_FRAMES`. -/
def debug_state (state : GameState) : List (Nat × Bool × Bool × Int × Int × Int × Int × Int) :=
  (List.range (MAX_FRAMES.toNat + 1)).map (debug_line state)

/-! ## The search of `main` (lines 195-309) -/

/-- The feasibility test of line 262. -/
def feasible (frame : Int) (s : GameState) : Prop :=
  s.tachometer < MAX_TACHOMETER ∧
    s.distance + MAX_SPEED * (MAX_FRAMES - frame) ≥ MIN_WINNING_DISTANCE

instance (frame : Int) (s : GameState) : Decidable (feasible frame s) :=
  inferInstanceAs (Decidable (_ ∧ _))

/-- The comparison of line 264: the candidate beats the held champion. -/
def beats (cand best : GameState) : Prop :=
  cand.timer < best.timer ∨ (cand.timer = best.timer ∧ cand.distance > best.distance)

instance (cand best : GameState) : Decidable (beats cand best) :=
  inferInstanceAs (Decidable (_ ∨ _))

/-- Lines 264-266: the champion after a winning candidate has been compared. -/
def champion_update (best cand : GameState) : GameState :=
  if beats cand best then cand else best

/-- Lines 270-278: the next generation table after a candidate has been offered
to the slot of its key. -/
def merge_state (next_states : Int → GameState) (cand : GameState) : Int → GameState :=
  let next_index := hash_state cand
  if cand.distance ≥ (next_states next_index).distance then
    fun i => if i = next_index then cand else next_states i
  else next_states

/-- The variables of `main` that the sweep reads and writes. -/
structure Search where
  states : Int → GameState
  next_states : Int → GameState
  best_state : GameState
  total_simulations : Nat
  stop_configuration : Bool

/-- Lines 254-279: what the sweep does in frame `frame` with one candidate
`nextState` returned by `game_step`: count it, test feasibility, compare a
winner with the champion, and offer it to the next table. -/
def offer (frame : Int) (s : Search) (nextState : GameState) : Search :=
  let s := { s with total_simulations := (s.total_simulations + 1) % 2 ^ 64 }
  if feasible frame nextState then
    let s :=
      if nextState.distance ≥ MIN_WINNING_DISTANCE then
        { s with best_state := champion_update s.best_state nextState
                 stop_configuration := true }
      else s
    { s with next_states := merge_state s.next_states nextState }
  else s

/-- Lines 252-279: one `(clutch, shift)` expansion of the state `cur` in sweep
frame `frame`. -/
def expand_input (frame : Int) (cur : GameState) (s : Search) (clutch shift : Bool) : Search :=
  offer frame s (game_step cur clutch shift)

/-- The `(clutch, shift)` pairs in the order of the two nested loops of lines 250-251. -/
def input_pairs : List (Bool × Bool) :=
  [(false, false), (false, true), (true, false), (true, true)]

/-- Lines 249-282: the slot `index` of the current table, expanded when its
state is due in this frame. -/
def expand_slot (frame : Int) (s : Search) (index : Int) : Search :=
  let cur := s.states index
  if cur.timer = frame then
    input_pairs.foldl (fun acc i => expand_input frame cur acc i.1 i.2) s
  else s

/-- The slot indices `0 .. MAX_STATES - 1` in the order of the loop of line 248. -/
def slot_indices : List Int := (List.range MAX_STATES.toNat).map Int.ofNat

/-- A zeroed table. -/
def zero_table : Int → GameState := fun _ => zero_state

/-- Lines 246-284: the expansion of one sweep frame, every slot of the current
table in turn. -/
def expand_frame (frame : Int) (s : Search) : Search :=
  slot_indices.foldl (expand_slot frame) s

/-- Lines 285-286: the next table becomes the current one and is zeroed. -/
def swap_tables (s : Search) : Search :=
  { s with states := s.next_states, next_states := zero_table }

/-- Lines 246-286: one sweep frame, then the table swap. -/
def sweep_frame (frame : Int) (s : Search) : Search :=
  swap_tables (expand_frame frame s)

/-- Lines 245-287: the search record when the loop has passed frame `n`
(frames `1 .. n`, each run only while `stop_configuration` is clear). -/
def frame_loop : Nat → Search → Search
  | 0, s => s
  | n + 1, s =>
    let s := frame_loop n s
    if s.stop_configuration then s else sweep_frame (Int.ofNat (n + 1)) s

/-- The initial tachometers of the loop of line 223. -/
def seed_tachometers : List Int := [0, 3, 6, 9, 12, 15, 18, 21, 24, 27, 30]

/-- Lines 226-229: one seed written at the slot of its key. -/
def put_seed (frame_counter : Int) (states : Int → GameState) (tachometer : Int)
    (clutch shift : Bool) : Int → GameState :=
  let initial_state := init_state tachometer frame_counter clutch shift
  let index := hash_state initial_state
  fun i => if i = index then initial_state else states i

/-- Lines 223-232: generation table 0 of a group. -/
def seed_table (frame_counter : Int) : Int → GameState :=
  seed_tachometers.foldl
    (fun states tachometer =>
      [false, true].foldl
        (fun states clutch =>
          [false, true].foldl
            (fun states shift => put_seed frame_counter states tachometer clutch shift)
            states)
        states)
    zero_table

/-- Lines 215-238: the search record of a group before its first sweep frame:
both tables zeroed, generation table 0 seeded, the stop flag clear. -/
def group_start (s : Search) (frame_counter : Int) : Search :=
  { s with states := seed_table frame_counter
           next_states := zero_table
           stop_configuration := false }

/-- The search record of a group when its loop has passed frame `n`; the
record before the group is `s`. -/
def group_at (s : Search) (frame_counter : Int) (n : Nat) : Search :=
  frame_loop n (group_start s frame_counter)

/-- Lines 215-287: one initial frame-counter group. -/
def run_group (s : Search) (frame_counter : Int) : Search :=
  group_at s frame_counter MAX_FRAMES.toNat

/-- The initial frame counters of the loop of line 214. -/
def group_frame_counters : List Int := [0, 2, 4, 6, 8, 10, 12, 14]

/-- Lines 202-204: the sentinel champion. -/
def sentinel : GameState := { zero_state with timer := MAX_FRAMES, distance := 0 }

/-- The search record before the first group. -/
def initial_search : Search :=
  { states := zero_table, next_states := zero_table, best_state := sentinel,
    total_simulations := 0, stop_configuration := false }

/-- The search record after the groups `gs` have been processed in order,
starting from the record `s`. -/
def run_from (s : Search) (gs : List Int) : Search := gs.foldl run_group s

/-- The search record after the groups `gs` have been processed in order. -/
def run_groups (gs : List Int) : Search := run_from initial_search gs

/-- The search record at the end of `main`. -/
def main_search : Search := run_groups group_frame_counters

/-- The test of line 295: `main` exits with failure. -/
def main_fails : Prop := main_search.best_state.distance = 0

/-! ## Vocabulary of the statements

Predicates, derived lists and example states that the theorems below are
stated with. -/

/-- The ranges of the data model: gear, speed, tachometer and tachometer
difference. -/
def InRange (s : GameState) : Prop :=
  0 ≤ s.gear ∧ s.gear ≤ MAX_GEAR ∧ 0 ≤ s.speed ∧ s.speed < MAX_SPEED ∧
    0 ≤ s.tachometer ∧ s.tachometer < MAX_TACHOMETER ∧
    0 ≤ s.tachometer_diff ∧ s.tachometer_diff ≤ 1

instance (s : GameState) : Decidable (InRange s) :=
  inferInstanceAs (Decidable (_ ∧ _))

/-- Agreement of two states on the five fields that `hash_state` packs. -/
def KeyFields (s u : GameState) : Prop :=
  last_shift s = last_shift u ∧ s.gear = u.gear ∧ s.speed = u.speed ∧
    s.tachometer = u.tachometer ∧ s.tachometer_diff = u.tachometer_diff

instance (s u : GameState) : Decidable (KeyFields s u) :=
  inferInstanceAs (Decidable (_ ∧ _))

/-- A state of the group with initial frame counter 0: the seed with
tachometer 30 and shift set, stepped twice. -/
def c2_left : GameState :=
  run_inputs (init_state 30 0 false true) [(false, true), (false, false)]

/-- A state due in sweep frame 119 that has already covered 25000. -/
def c7_current : GameState := { zero_state with timer := 119, distance := 25000 }

/-- A search record whose champion has timer 125. -/
def c7_search : Search := { initial_search with best_state := { sentinel with timer := 125 } }

/-- The `(clutch, shift)` pairs recorded in `inputs[1 .. timer - 1]`, in order. -/
def recorded_inputs (s : GameState) : List (Bool × Bool) :=
  (List.range (s.timer - 1).toNat).map fun i =>
    (clutch_bit (read_input s.inputs (Int.ofNat i + 1)),
      shift_bit (read_input s.inputs (Int.ofNat i + 1)))

/-- The replay of a state: `game_step` applied to the seed rebuilt from the
recorded initial tachometer, initial frame counter and `inputs[0]`, along the
recorded inputs. -/
def replay (s : GameState) : GameState :=
  run_inputs
    (init_state s.initial_tachometer s.initial_frame_counter
      (clutch_bit (read_input s.inputs 0)) (shift_bit (read_input s.inputs 0)))
    (recorded_inputs s)

/-- The tachometer stays below `MAX_TACHOMETER` after every step of the run of
`ins` from `s`. -/
def keeps_tachometer (s : GameState) : List (Bool × Bool) → Prop
  | [] => True
  | x :: xs =>
    (game_step s x.1 x.2).tachometer < MAX_TACHOMETER ∧
      keeps_tachometer (game_step s x.1 x.2) xs

instance keeps_tachometer_decidable (s : GameState) (ins : List (Bool × Bool)) :
    Decidable (keeps_tachometer s ins) :=
  match ins with
  | [] => isTrue trivial
  | x :: xs =>
    @instDecidableAnd _ _ _ (keeps_tachometer_decidable (game_step s x.1 x.2) xs)

/-- A state due in sweep frame 166 that has covered nothing. -/
def c4_current : GameState := { init_state 30 0 false false with timer := 166 }

/-- The candidates that the sweep of frame `frame` produces from slot `index`
of the table `states`, in the order of the loops of lines 250-251. -/
def slot_candidates (frame : Int) (states : Int → GameState) (index : Int) : List GameState :=
  if (states index).timer = frame then
    input_pairs.map fun i => game_step (states index) i.1 i.2
  else []

/-- All candidates of sweep frame `frame` over the table `states`, in the
order in which the sweep produces them. -/
def frame_candidates (frame : Int) (states : Int → GameState) : List GameState :=
  slot_indices.flatMap (slot_candidates frame states)

/-- The candidates of a frame that pass the feasibility test of line 262. -/
def feasible_candidates (frame : Int) (states : Int → GameState) : List GameState :=
  (frame_candidates frame states).filter fun c => decide (feasible frame c)

/-- A candidate that passes the feasibility test and has reached the winning
distance: the condition under which line 264 is executed. -/
def wins (frame : Int) (c : GameState) : Prop :=
  feasible frame c ∧ c.distance ≥ MIN_WINNING_DISTANCE

instance (frame : Int) (c : GameState) : Decidable (wins frame c) :=
  inferInstanceAs (Decidable (_ ∧ _))

/-- The greatest distance among `d0` and the members of `l` whose key is `K`:
what the slot `K` should hold after the members of `l` were offered to a slot
holding distance `d0`. -/
def key_max (K : Int) (d0 : Int) (l : List GameState) : Int :=
  l.foldl (fun d c => if hash_state c = K then max d c.distance else d) d0

/-- The frame counter of a state of the group with initial frame counter `c`
after `n` steps. -/
def group_frame_counter (c : Int) : Nat → Int
  | 0 => c
  | n + 1 => Int.tmod (group_frame_counter c n + 2) MAX_FRAME_COUNTER

/-- What a state `e` stored at slot `i` of the current table looks like when
`n` sweep frames of the group with initial frame counter `c` are done. -/
structure LiveEntry (c : Int) (n : Nat) (i : Int) (e : GameState) : Prop where
  timer_eq : e.timer = (n : Int) + 1
  in_range : InRange e
  speed_le : e.speed ≤ 253
  key_eq : hash_state e = i
  frame_counter_eq : e.frame_counter = group_frame_counter c n
  initial_eq : e.initial_frame_counter = c
  distance_nonneg : 0 ≤ e.distance

/-- Every slot of the table is empty or holds a live entry of generation `n`. -/
def TableOK (c : Int) (n : Nat) (T : Int → GameState) : Prop :=
  ∀ i, T i = zero_state ∨ LiveEntry c n i (T i)

/-- A state within the ranges of the data model whose step leaves the ranges:
speed 255 and tachometer 31 in gear 4. -/
def edge_state : GameState :=
  { zero_state with timer := 72, frame_counter := 14, tachometer := 31, distance := 200,
                    speed := 255, gear := 4 }

/-- The champion order: `a` is at least as good as `b` when its timer is
smaller, or equal with a distance at least as great. -/
def at_least_as_good (a b : GameState) : Prop :=
  a.timer < b.timer ∨ (a.timer = b.timer ∧ a.distance ≥ b.distance)

/-- What a champion is at any point of the run: the sentinel values, or a
winner within the frame ceiling. -/
def ChampionOK (b : GameState) : Prop :=
  (b.timer = MAX_FRAMES ∧ b.distance = 0) ∨
    (b.distance ≥ MIN_WINNING_DISTANCE ∧ b.timer ≤ MAX_FRAMES)

/-- The candidates of sweep frame `n + 1` of a group that reach the comparison
of line 264, in order; none when the loop has stopped before that frame. -/
def frame_winners (s : Search) (c : Int) (n : Nat) : List GameState :=
  if (group_at s c n).stop_configuration then []
  else (frame_candidates ((n : Int) + 1) (group_at s c n).states).filter
    fun x => decide (wins ((n : Int) + 1) x)

/-- The candidates of a whole group that reach the comparison of line 264. -/
def group_winners (s : Search) (c : Int) : List GameState :=
  (List.range MAX_FRAMES.toNat).flatMap (frame_winners s c)

/-- The candidates that reach the comparison of line 264 while the groups `gs`
are processed in order, starting from the record `s`. -/
def winners_from (s : Search) : List Int → List GameState
  | [] => []
  | c :: cs => group_winners s c ++ winners_from (run_group s c) cs

/-- The table `T` holds, at the key of `s`, a state that agrees with `s` on the
five key fields, on timer and frame counter, and has covered at least the
distance of `s`. -/
def Dominates (T : Int → GameState) (s : GameState) : Prop :=
  KeyFields (T (hash_state s)) s ∧ (T (hash_state s)).timer = s.timer ∧
    (T (hash_state s)).frame_counter = s.frame_counter ∧
    s.distance ≤ (T (hash_state s)).distance

/-- A run of 166 inputs that wins from the seed with tachometer 27 of the
group with initial frame counter 0. -/
def winning_inputs : List (Bool × Bool) :=
  [(true, false), (true, false), (true, false), (true, false), (true, false), (true, false),
   (true, false), (true, false), (false, false), (true, false), (true, false), (false, false),
   (true, false), (false, false), (true, false), (false, false), (true, true), (false, false),
   (true, false), (true, false), (true, false), (false, false), (true, false), (true, false),
   (true, false), (true, false), (true, false), (true, false), (true, false), (true, false),
   (true, false), (true, false), (true, false), (true, true), (false, false), (true, false),
   (true, false), (true, false), (true, false), (true, false), (true, false), (true, false),
   (true, false), (true, false), (true, false), (true, false), (true, false), (true, false),
   (true, false), (true, false), (true, false), (true, false), (true, false), (true, true),
   (true, false), (true, false), (true, false), (true, false), (true, false), (true, false),
   (true, false), (true, false), (true, false), (true, false), (true, false), (true, false),
   (true, false), (true, false), (true, false), (true, false), (true, false), (true, false),
   (true, false), (true, false), (true, false), (true, true), (true, false), (true, false),
   (true, false), (true, false), (true, true), (true, false), (true, false), (true, false),
   (true, false), (true, false), (true, false), (true, false), (true, false), (true, false),
   (true, false), (true, true), (true, false), (true, false), (true, false), (true, false),
   (true, false), (true, false), (true, false), (true, false), (true, true), (true, false),
   (true, false), (true, false), (true, false), (true, false), (true, false), (true, false),
   (true, false), (true, true), (true, false), (true, false), (true, false), (true, false),
   (true, false), (true, false), (true, false), (true, false), (true, false), (true, false),
   (true, false), (true, false), (true, true), (true, false), (true, false), (true, false),
   (true, false), (true, false), (true, false), (true, false), (true, false), (true, false),
   (true, true), (false, true), (true, false), (true, false), (true, false), (true, false),
   (true, true), (false, false), (true, true), (true, false), (true, true), (false, true),
   (true, true), (false, true), (false, true), (false, true), (false, true), (true, true),
   (true, true), (true, true), (true, true), (false, true), (false, true), (false, true),
   (false, true), (true, true), (true, true), (true, true), (true, true), (false, true),
   (false, true), (true, true), (true, true), (false, false)]

/-- The candidates that sweep frame `n + 1` of a group produces, feasible or
not, in order; none when the loop has stopped before that frame. -/
def frame_produced (s : Search) (c : Int) (n : Nat) : List GameState :=
  if (group_at s c n).stop_configuration then []
  else frame_candidates ((n : Int) + 1) (group_at s c n).states

/-- The candidates that a whole group produces. -/
def group_produced (s : Search) (c : Int) : List GameState :=
  (List.range MAX_FRAMES.toNat).flatMap (frame_produced s c)

/-- The candidates produced while the groups `gs` are processed in order,
starting from the record `s`. -/
def produced_from (s : Search) : List Int → List GameState
  | [] => []
  | c :: cs => group_produced s c ++ produced_from (run_group s c) cs

/-- Inputs of 95 further steps that keep the shift bit set, so that the speed
is frozen, and alternate the clutch, so that the tachometer stays below 32. -/
def edge_inputs : List (Bool × Bool) :=
  (false, true) :: (List.replicate 47 [(false, true), (true, true)]).flatten

/-- A state reached from the seed with tachometer 30 and shift set by two steps
without clutch or shift; its tachometer difference is 1. -/
def c16_state : GameState :=
  run_inputs (init_state 30 0 false true) [(false, false), (false, false)]

/-- Truncation toward zero of an exact rational, the conversion of a double to
`int`. -/
def trunc_rat (q : ℚ) : Int := if 0 ≤ q then ⌊q⌋ else ⌈q⌉

/-- The speed limit in the words of the specification: `tachometer * 2^(gear-1)`
in exact arithmetic, truncated to an integer, plus `2^(gear-2)` exactly when
`tachometer ≥ 20` and `gear > 1`. -/
def speed_limit_exact (tachometer gear : Int) : Int :=
  trunc_rat ((tachometer : ℚ) * (2 : ℚ) ^ (gear - 1))
    + (if tachometer ≥ 20 ∧ gear > 1 then 2 ^ (gear - 2).toNat else 0)

/-- The keys of the seeds of a group: two per initial tachometer, one for each
shift bit. -/
def seed_keys : List Int := seed_tachometers.flatMap fun t => [2560 * t, 1 + 2560 * t]

/-- The first candidate of frame 1 with tachometer 3 in gear 1: from the seed
with tachometer 0 and shift set, under clutch 1. -/
def c15_first : GameState := game_step (init_state 0 0 true true) true false

/-- A later candidate of frame 1 with the same key and the same distance: from
the seed with tachometer 6 and shift set, under clutch 0. -/
def c15_second : GameState := game_step (init_state 6 0 true true) false false

/-- A state due in frame 166, stored at slot 0, whose candidates win with
distance 24900. -/
def c12_first : GameState := { zero_state with timer := 166, distance := 24900 }

/-- A state due in frame 166, stored at slot 2560, whose candidates win with
distance 25000. -/
def c12_second : GameState :=
  { zero_state with timer := 166, tachometer := 1, distance := 25000 }

/-- A current table for frame 166 with the two states at the slots of their
keys. -/
def c12_table : Int → GameState :=
  fun i => if i = 0 then c12_first else if i = 2560 then c12_second else zero_state

/-- A search record at the start of frame 166 with the sentinel champion. -/
def c12_search : Search := { initial_search with states := c12_table }

/-- The double `x` is finite and its value is `n * 2^E`. -/
def double_is (x : Option (Int × Int)) (n E : Int) : Prop :=
  ∃ u : Int, -1074 ≤ u ∧ u ≤ E ∧ x = some (n * 2 ^ (E - u).toNat, u)

/-- The addition `distance += speed` of the step from `s` stays within the
range of `int`. -/
def distance_fits (s : GameState) (clutch shift : Bool) : Prop :=
  INT_MIN ≤ s.distance + (game_step_int32 s clutch shift).speed ∧
    s.distance + (game_step_int32 s clutch shift).speed ≤ INT_MAX

instance (s : GameState) (clutch shift : Bool) : Decidable (distance_fits s clutch shift) :=
  inferInstanceAs (Decidable (_ ∧ _))

/-- Every addition `distance += speed` along the run of `ins` from `s` stays
within the range of `int`. -/
def run_fits (s : GameState) : List (Bool × Bool) → Prop
  | [] => True
  | x :: xs => distance_fits s x.1 x.2 ∧ run_fits (game_step_int32 s x.1 x.2) xs

instance run_fits_decidable (s : GameState) (ins : List (Bool × Bool)) :
    Decidable (run_fits s ins) :=
  match ins with
  | [] => isTrue trivial
  | x :: xs => @instDecidableAnd _ _ _ (run_fits_decidable (game_step_int32 s x.1 x.2) xs)

/-- A state within the ranges of the data model whose distance is the largest
`int`: gear 1, tachometer 20, speed 10. -/
def c10_state : GameState :=
  { zero_state with timer := 1, gear := 1, tachometer := 20, speed := 10, distance := INT_MAX }

/-- A state in gear 2 with tachometer 24 and speed 40 whose distance is the
largest `int`. -/
def c19_ahead : GameState :=
  { zero_state with timer := 1, gear := 2, tachometer := 24, speed := 40, distance := INT_MAX }

/-- A copy of `c19_ahead` that has covered 1000. -/
def c19_behind : GameState := { c19_ahead with distance := 1000 }

/-! # Theorems -/

/-! ## Input bytes and the input array -/

theorem shift_bit_input_byte (c s : Bool) : shift_bit (input_byte c s) = s := by
  cases c <;> cases s <;> decide

theorem clutch_bit_input_byte (c s : Bool) : clutch_bit (input_byte c s) = c := by
  cases c <;> cases s <;> decide

theorem read_write_same (inp : Inputs) (i : Int) (b : Nat) (h0 : 0 ≤ i)
    (h1 : i < INPUTS_LEN) : read_input (write_input inp i b) i = b := by
  have hlen : i.toNat < inp.bytes.length := by rw [inp.size_eq]; omega
  simp [read_input, write_input, h0, List.getD_eq_getElem?_getD, List.getElem?_set, hlen]

theorem read_write_ne (inp : Inputs) (i j : Int) (b : Nat) (h : i ≠ j) :
    read_input (write_input inp i b) j = read_input inp j := by
  unfold read_input write_input
  by_cases hi : 0 ≤ i <;> by_cases hj : 0 ≤ j <;> simp [hi, hj]
  have hne : i.toNat ≠ j.toNat := by omega
  simp [List.getD_eq_getElem?_getD, List.getElem?_set, hne]

/-! ## The fields of `game_step` -/

theorem prev_shift_eq (state : GameState) (b : Nat) :
    shift_bit (read_input (write_input state.inputs state.timer b) (state.timer + 1 - 2))
      = last_shift state := by
  unfold last_shift
  have h : state.timer + 1 - 2 = state.timer - 1 := by omega
  rw [h, read_write_ne]
  omega

@[simp] theorem game_step_timer (s : GameState) (c sh : Bool) :
    (game_step s c sh).timer = s.timer + 1 := rfl

@[simp] theorem game_step_frame_counter (s : GameState) (c sh : Bool) :
    (game_step s c sh).frame_counter = Int.tmod (s.frame_counter + 2) MAX_FRAME_COUNTER := rfl

@[simp] theorem game_step_inputs (s : GameState) (c sh : Bool) :
    (game_step s c sh).inputs = write_input s.inputs s.timer (input_byte c sh) := rfl

@[simp] theorem game_step_initial_tachometer (s : GameState) (c sh : Bool) :
    (game_step s c sh).initial_tachometer = s.initial_tachometer := rfl

@[simp] theorem game_step_initial_frame_counter (s : GameState) (c sh : Bool) :
    (game_step s c sh).initial_frame_counter = s.initial_frame_counter := rfl

theorem game_step_gear (s : GameState) (c sh : Bool) :
    (game_step s c sh).gear = next_gear (last_shift s) s.gear := by
  simp only [game_step, prev_shift_eq]

theorem game_step_tachometer (s : GameState) (c sh : Bool) :
    (game_step s c sh).tachometer
      = next_tachometer (last_shift s) c (Int.tmod (s.frame_counter + 2) MAX_FRAME_COUNTER)
          (next_gear (last_shift s) s.gear) s.tachometer s.tachometer_diff := by
  simp only [game_step, prev_shift_eq]

theorem game_step_tachometer_diff (s : GameState) (c sh : Bool) :
    (game_step s c sh).tachometer_diff
      = next_tachometer_diff (last_shift s)
          (speed_limit (game_step s c sh).tachometer (game_step s c sh).gear) s.speed := by
  simp only [game_step, prev_shift_eq]

theorem game_step_speed (s : GameState) (c sh : Bool) :
    (game_step s c sh).speed
      = next_speed (last_shift s) (game_step s c sh).gear
          (speed_limit (game_step s c sh).tachometer (game_step s c sh).gear) s.speed := by
  simp only [game_step, prev_shift_eq]

theorem game_step_distance (s : GameState) (c sh : Bool) :
    (game_step s c sh).distance = s.distance + (game_step s c sh).speed := rfl

theorem game_step_last_shift (s : GameState) (c sh : Bool) (h0 : 0 ≤ s.timer)
    (h1 : s.timer ≤ MAX_FRAMES) : last_shift (game_step s c sh) = sh := by
  unfold last_shift
  simp only [game_step_timer, game_step_inputs]
  have h : s.timer + 1 - 1 = s.timer := by omega
  rw [h, read_write_same _ _ _ h0 (by simp only [MAX_FRAMES] at h1; simp only [INPUTS_LEN]; omega),
    shift_bit_input_byte]

/-! ## Ranges of the parts of a step -/

theorem next_gear_bounds (p : Bool) (g : Int) (h0 : 0 ≤ g) (h1 : g ≤ 4) :
    g ≤ next_gear p g ∧ next_gear p g ≤ 4 := by
  unfold next_gear
  simp only [MAX_GEAR]
  split_ifs <;> omega

theorem next_tachometer_nonneg (p c : Bool) (fc g t d : Int) :
    0 ≤ next_tachometer p c fc g t d := by
  unfold next_tachometer
  dsimp only
  split_ifs <;> omega

theorem next_tachometer_le (p c : Bool) (fc g t d : Int) (ht : 0 ≤ t) (hd : 0 ≤ d) :
    next_tachometer p c fc g t d ≤ t + 3 := by
  unfold next_tachometer
  dsimp only
  split_ifs <;> omega

theorem speed_limit_cases (t g : Int) (ht : 0 ≤ t) (h0 : 0 ≤ g) (h1 : g ≤ 4) :
    speed_limit t g =
      if g = 0 then t / 2
      else if g = 1 then t
      else if t ≥ 20 then t * 2 ^ (g - 1).toNat + 2 ^ (g - 2).toNat
      else t * 2 ^ (g - 1).toNat := by
  have hg : g = 0 ∨ g = 1 ∨ g = 2 ∨ g = 3 ∨ g = 4 := by omega
  rcases hg with rfl | rfl | rfl | rfl | rfl
  · simp [speed_limit, scale_pow2, Int.tdiv_eq_ediv ht]
  · simp [speed_limit, scale_pow2]
  · by_cases h : 20 ≤ t <;> simp [speed_limit, scale_pow2, pow2, h]
  · by_cases h : 20 ≤ t <;> simp [speed_limit, scale_pow2, pow2, h]
  · by_cases h : 20 ≤ t <;> simp [speed_limit, scale_pow2, pow2, h]

theorem speed_limit_nonneg (t g : Int) (ht : 0 ≤ t) (h0 : 0 ≤ g) (h1 : g ≤ 4) :
    0 ≤ speed_limit t g := by
  rw [speed_limit_cases t g ht h0 h1]
  have hg : g = 0 ∨ g = 1 ∨ g = 2 ∨ g = 3 ∨ g = 4 := by omega
  rcases hg with rfl | rfl | rfl | rfl | rfl <;> simp <;> (try split_ifs) <;> omega

theorem speed_limit_le (t g : Int) (ht : 0 ≤ t) (ht1 : t < 32) (h0 : 0 ≤ g) (h1 : g ≤ 4) :
    speed_limit t g ≤ 252 := by
  rw [speed_limit_cases t g ht h0 h1]
  have hg : g = 0 ∨ g = 1 ∨ g = 2 ∨ g = 3 ∨ g = 4 := by omega
  rcases hg with rfl | rfl | rfl | rfl | rfl <;> simp <;> (try split_ifs) <;> omega

theorem next_tachometer_diff_bounds (p : Bool) (l s : Int) :
    0 ≤ next_tachometer_diff p l s ∧ next_tachometer_diff p l s ≤ 1 := by
  unfold next_tachometer_diff
  split_ifs <;> omega

theorem next_speed_nonneg (p : Bool) (g l s : Int) (hl : 0 ≤ l) (hs : 0 ≤ s) :
    0 ≤ next_speed p g l s := by
  unfold next_speed
  simp only
  split_ifs <;> omega

theorem next_speed_le (p : Bool) (g l s : Int) :
    next_speed p g l s ≤ max s (l + 1) := by
  unfold next_speed
  simp only
  split_ifs <;> omega

/-! ## One step on states within the ranges -/

theorem game_step_bounds (s : GameState) (c sh : Bool) (h : InRange s) :
    s.gear ≤ (game_step s c sh).gear ∧ (game_step s c sh).gear ≤ 4 ∧
    0 ≤ (game_step s c sh).tachometer ∧
    (game_step s c sh).tachometer ≤ s.tachometer + 3 ∧
    0 ≤ (game_step s c sh).tachometer_diff ∧ (game_step s c sh).tachometer_diff ≤ 1 ∧
    0 ≤ (game_step s c sh).speed ∧
    ((game_step s c sh).tachometer < 32 → (game_step s c sh).speed ≤ max s.speed 253) ∧
    s.distance ≤ (game_step s c sh).distance := by
  obtain ⟨hg0, hg1, hs0, _, ht0, _, hd0, _⟩ := h
  simp only [MAX_GEAR] at hg1
  have hg := next_gear_bounds (last_shift s) s.gear hg0 hg1
  have hgear := game_step_gear s c sh
  have htach := game_step_tachometer s c sh
  have ht := next_tachometer_nonneg (last_shift s) c
    (Int.tmod (s.frame_counter + 2) MAX_FRAME_COUNTER) (next_gear (last_shift s) s.gear)
    s.tachometer s.tachometer_diff
  have ht' := next_tachometer_le (last_shift s) c
    (Int.tmod (s.frame_counter + 2) MAX_FRAME_COUNTER) (next_gear (last_shift s) s.gear)
    s.tachometer s.tachometer_diff ht0 hd0
  rw [← htach] at ht ht'
  rw [← hgear] at hg
  have hl := speed_limit_nonneg _ _ ht (by omega) hg.2
  have hd := next_tachometer_diff_bounds (last_shift s)
    (speed_limit (game_step s c sh).tachometer (game_step s c sh).gear) s.speed
  rw [← game_step_tachometer_diff] at hd
  have hsp := next_speed_nonneg (last_shift s) (game_step s c sh).gear _ s.speed hl hs0
  have hsp' := next_speed_le (last_shift s) (game_step s c sh).gear
    (speed_limit (game_step s c sh).tachometer (game_step s c sh).gear) s.speed
  rw [← game_step_speed] at hsp hsp'
  refine ⟨hg.1, hg.2, ht, ht', hd.1, hd.2, hsp, ?_, ?_⟩
  · intro hlt
    have := speed_limit_le _ _ ht hlt (by omega) hg.2
    omega
  · rw [game_step_distance]; omega

theorem game_step_in_range (s : GameState) (c sh : Bool) (h : InRange s)
    (ht : (game_step s c sh).tachometer < 32) : InRange (game_step s c sh) := by
  have hb := game_step_bounds s c sh h
  obtain ⟨hg0, hg1, hs0, hs1, ht0, _, hd0, _⟩ := h
  simp only [MAX_SPEED] at hs1
  have := hb.2.2.2.2.2.2.2.1 ht
  refine ⟨by omega, hb.2.1, hb.2.2.2.2.2.2.1, ?_, hb.2.2.1, ht, hb.2.2.2.2.1, hb.2.2.2.2.2.1⟩
  simp only [MAX_SPEED]; omega

theorem game_step_speed_le (s : GameState) (c sh : Bool) (h : InRange s)
    (hs : s.speed ≤ 253) (ht : (game_step s c sh).tachometer < 32) :
    (game_step s c sh).speed ≤ 253 := by
  have := (game_step_bounds s c sh h).2.2.2.2.2.2.2.1 ht
  omega

/-! ## The key -/

theorem hash_state_eq (s : GameState) :
    hash_state s = (if last_shift s then 1 else 0) + 2 * s.gear + 10 * s.speed
      + 2560 * s.tachometer + 81920 * s.tachometer_diff := by
  unfold hash_state
  simp only [MAX_GEAR, MAX_SPEED, MAX_TACHOMETER]
  ring

theorem hash_state_range (s : GameState) (h : InRange s) :
    0 ≤ hash_state s ∧ hash_state s < MAX_STATES := by
  rw [hash_state_eq]
  obtain ⟨hg0, hg1, hs0, hs1, ht0, ht1, hd0, hd1⟩ := h
  simp only [MAX_GEAR, MAX_SPEED, MAX_TACHOMETER, MAX_STATES] at *
  split_ifs <;> omega

theorem hash_state_inj (s u : GameState) (hs : InRange s) (hu : InRange u)
    (h : hash_state s = hash_state u) : KeyFields s u := by
  rw [hash_state_eq, hash_state_eq] at h
  obtain ⟨hg0, hg1, hs0, hs1, ht0, ht1, hd0, hd1⟩ := hs
  obtain ⟨ug0, ug1, us0, us1, ut0, ut1, ud0, ud1⟩ := hu
  simp only [MAX_GEAR, MAX_SPEED, MAX_TACHOMETER] at *
  unfold KeyFields
  cases hl : last_shift s <;> cases hl' : last_shift u <;>
    simp only [hl, hl', if_true, if_false, Bool.false_eq_true] at h <;>
    refine ⟨?_, ?_, ?_, ?_, ?_⟩ <;> first | rfl | omega

/-- C6. On states with timer at least 1 and the four numeric fields within
their ranges, `hash_state` is the mixed-radix number
`b + 2*gear + 10*speed + 2560*tachometer + 81920*tachometer_diff`, with `b` the
shift bit of `inputs[timer - 1]`; the key lies in `[0, MAX_STATES)`, the five
fields are decoded back from it by division and remainder, and two such states
with the same key agree on all five fields. -/
theorem hash_state_mixed_radix (s u : GameState) (_hs : 1 ≤ s.timer) (_hu : 1 ≤ u.timer)
    (rs : InRange s) (ru : InRange u) :
    hash_state s = (if last_shift s then 1 else 0) + 2 * s.gear + 10 * s.speed
      + 2560 * s.tachometer + 81920 * s.tachometer_diff
    ∧ (0 ≤ hash_state s ∧ hash_state s < MAX_STATES)
    ∧ (last_shift s = decide (hash_state s % 2 = 1)
        ∧ s.gear = hash_state s / 2 % 5
        ∧ s.speed = hash_state s / 10 % 256
        ∧ s.tachometer = hash_state s / 2560 % 32
        ∧ s.tachometer_diff = hash_state s / 81920)
    ∧ (hash_state s = hash_state u →
        last_shift s = last_shift u ∧ s.gear = u.gear ∧ s.speed = u.speed ∧
        s.tachometer = u.tachometer ∧ s.tachometer_diff = u.tachometer_diff) := by
  refine ⟨hash_state_eq s, hash_state_range s rs, ?_, fun h => hash_state_inj s u rs ru h⟩
  rw [hash_state_eq]
  obtain ⟨hg0, hg1, hs0, hs1, ht0, ht1, hd0, hd1⟩ := rs
  simp only [MAX_GEAR, MAX_SPEED, MAX_TACHOMETER] at *
  cases hl : last_shift s <;> simp <;> omega

/-- Witness for C6: the seed with tachometer 27 stepped once, and the seed
itself. The step has key 76802 = 0 + 2*1 + 10*0 + 2560*30 + 81920*0, and gear 1
is read back from it. -/
theorem hash_state_mixed_radix_witness :
    1 ≤ (game_step (init_state 27 0 true true) true false).timer ∧
    1 ≤ (init_state 27 0 true true).timer ∧
    InRange (game_step (init_state 27 0 true true) true false) ∧
    InRange (init_state 27 0 true true) ∧
    hash_state (game_step (init_state 27 0 true true) true false) = 76802 ∧
    (game_step (init_state 27 0 true true) true false).gear
      = hash_state (game_step (init_state 27 0 true true) true false) / 2 % 5 :=
  ⟨by decide, by decide, by decide, by decide, by decide,
   (hash_state_mixed_radix (game_step (init_state 27 0 true true) true false)
      (init_state 27 0 true true) (by decide) (by decide) (by decide) (by decide)).2.2.1.2.1⟩

/-! ## Congruence of one step -/

theorem step_congruence (s u : GameState) (c sh : Bool)
    (hs0 : 0 ≤ s.timer) (hs1 : s.timer ≤ MAX_FRAMES)
    (hu0 : 0 ≤ u.timer) (hu1 : u.timer ≤ MAX_FRAMES)
    (hk : KeyFields s u) (hfc : s.frame_counter = u.frame_counter) :
    KeyFields (game_step s c sh) (game_step u c sh) ∧
    (game_step s c sh).frame_counter = (game_step u c sh).frame_counter ∧
    (game_step s c sh).distance - s.distance = (game_step u c sh).distance - u.distance := by
  obtain ⟨h1, h2, h3, h4, h5⟩ := hk
  have hg : (game_step s c sh).gear = (game_step u c sh).gear := by
    rw [game_step_gear, game_step_gear, h1, h2]
  have ht : (game_step s c sh).tachometer = (game_step u c sh).tachometer := by
    rw [game_step_tachometer, game_step_tachometer, h1, h2, h4, h5, hfc]
  have hd : (game_step s c sh).tachometer_diff = (game_step u c sh).tachometer_diff := by
    rw [game_step_tachometer_diff, game_step_tachometer_diff, h1, h3, hg, ht]
  have hsp : (game_step s c sh).speed = (game_step u c sh).speed := by
    rw [game_step_speed, game_step_speed, h1, h3, hg, ht]
  refine ⟨⟨?_, hg, hsp, ht, hd⟩, ?_, ?_⟩
  · rw [game_step_last_shift s c sh hs0 hs1, game_step_last_shift u c sh hu0 hu1]
  · rw [game_step_frame_counter, game_step_frame_counter, hfc]
  · rw [game_step_distance, game_step_distance, hsp]; omega

/-- C7. When a candidate has passed the feasibility test and reached the
winning distance, the champion after `expand_input` is the candidate if its
timer is smaller than the champion's, or equal with a greater distance, and the
old champion otherwise. The two instances of the specification hold for the
comparison: (120, 25000) replaces a champion with timer 125, and (125, 24000)
does not replace (125, 25000). -/
theorem champion_update_law (frame : Int) (cur : GameState) (s : Search) (clutch shift : Bool)
    (hf : feasible frame (game_step cur clutch shift))
    (hw : (game_step cur clutch shift).distance ≥ MIN_WINNING_DISTANCE) :
    (expand_input frame cur s clutch shift).best_state =
      (if (game_step cur clutch shift).timer < s.best_state.timer ∨
          ((game_step cur clutch shift).timer = s.best_state.timer ∧
            (game_step cur clutch shift).distance > s.best_state.distance)
        then game_step cur clutch shift else s.best_state)
    ∧ (∀ best cand : GameState, cand.timer = 120 → cand.distance = 25000 →
        best.timer = 125 → champion_update best cand = cand)
    ∧ (∀ best cand : GameState, cand.timer = 125 → cand.distance = 24000 →
        best.timer = 125 → best.distance = 25000 → champion_update best cand = best) := by
  refine ⟨?_, ?_, ?_⟩
  · simp only [expand_input, offer, hf, if_true, hw, champion_update, beats]
  · intro best cand h1 _ h3
    simp [champion_update, beats, h1, h3]
  · intro best cand h1 h2 h3 h4
    simp [champion_update, beats, h1, h2, h3, h4]

/-- Witness for C7: the candidate of `c7_current` has timer 120 and distance
25000 and replaces the champion of `c7_search`, whose timer is 125. -/
theorem champion_update_law_witness :
    feasible 119 (game_step c7_current false false) ∧
    (game_step c7_current false false).distance ≥ MIN_WINNING_DISTANCE ∧
    (game_step c7_current false false).timer = 120 ∧
    (game_step c7_current false false).distance = 25000 ∧
    c7_search.best_state.timer = 125 ∧
    (expand_input 119 c7_current c7_search false false).best_state
      = game_step c7_current false false :=
  ⟨by decide, by decide, by decide, by decide, by decide,
    (champion_update_law 119 c7_current c7_search false false (by decide) (by decide)).1.trans
      (if_pos (by decide))⟩

/-! ## Runs of several steps -/

theorem run_inputs_nil (s : GameState) : run_inputs s [] = s := rfl

theorem run_inputs_cons (s : GameState) (x : Bool × Bool) (xs : List (Bool × Bool)) :
    run_inputs s (x :: xs) = run_inputs (game_step s x.1 x.2) xs := rfl

theorem run_inputs_append (s : GameState) (xs ys : List (Bool × Bool)) :
    run_inputs s (xs ++ ys) = run_inputs (run_inputs s xs) ys := by
  simp [run_inputs, List.foldl_append]

theorem run_inputs_timer (s : GameState) (ins : List (Bool × Bool)) :
    (run_inputs s ins).timer = s.timer + ins.length := by
  induction ins generalizing s with
  | nil => simp [run_inputs_nil]
  | cons x xs ih => rw [run_inputs_cons, ih]; simp; omega

theorem run_inputs_initial (s : GameState) (ins : List (Bool × Bool)) :
    (run_inputs s ins).initial_tachometer = s.initial_tachometer ∧
    (run_inputs s ins).initial_frame_counter = s.initial_frame_counter := by
  induction ins generalizing s with
  | nil => simp [run_inputs_nil]
  | cons x xs ih => rw [run_inputs_cons]; simpa using ih (game_step s x.1 x.2)

theorem run_inputs_read_below (s : GameState) (ins : List (Bool × Bool)) (j : Int)
    (hj : j < s.timer) :
    read_input (run_inputs s ins).inputs j = read_input s.inputs j := by
  induction ins generalizing s with
  | nil => rfl
  | cons x xs ih =>
    rw [run_inputs_cons, ih (game_step s x.1 x.2) (by simp; omega), game_step_inputs,
      read_write_ne]
    omega

theorem run_inputs_read_written (s : GameState) (ins : List (Bool × Bool))
    (h0 : 0 ≤ s.timer) (h1 : s.timer + ins.length ≤ 168) (i : Nat)
    (hi : i < ins.length) :
    read_input (run_inputs s ins).inputs (s.timer + i)
      = input_byte (ins.get ⟨i, hi⟩).1 (ins.get ⟨i, hi⟩).2 := by
  induction ins generalizing s i with
  | nil => simp at hi
  | cons x xs ih =>
    rw [run_inputs_cons]
    simp only [List.length_cons] at h1 hi
    cases i with
    | zero =>
      rw [run_inputs_read_below _ _ _ (by simp), game_step_inputs]
      simp only [Int.ofNat_zero, Nat.cast_zero, add_zero]
      rw [read_write_same _ _ _ h0 (by simp only [INPUTS_LEN]; push_cast at h1 ⊢; omega)]
      rfl
    | succ k =>
      have hk : k < xs.length := by omega
      have := ih (game_step s x.1 x.2) (by simp; omega)
        (by simp only [game_step_timer]; push_cast at h1 ⊢; omega) k hk
      simp only [game_step_timer] at this
      have e : s.timer + ((k + 1 : Nat) : Int) = s.timer + 1 + (k : Int) := by
        push_cast; omega
      rw [e, this]
      rfl

@[simp] theorem init_state_timer (t fc : Int) (c sh : Bool) :
    (init_state t fc c sh).timer = 1 := rfl

theorem init_state_read_zero (t fc : Int) (c sh : Bool) :
    read_input (init_state t fc c sh).inputs 0 = input_byte c sh :=
  read_write_same zero_inputs 0 (input_byte c sh) (le_refl 0) (by decide)

theorem recorded_inputs_run (t fc : Int) (c sh : Bool) (ins : List (Bool × Bool))
    (h : ins.length + 1 ≤ 168) :
    recorded_inputs (run_inputs (init_state t fc c sh) ins) = ins := by
  have htimer : (run_inputs (init_state t fc c sh) ins).timer = 1 + ins.length :=
    run_inputs_timer _ _
  apply List.ext_get
  · simp [recorded_inputs, htimer]
  · intro i h1 h2
    have hr := run_inputs_read_written (init_state t fc c sh) ins
      (by rw [init_state_timer]; omega) (by rw [init_state_timer]; omega) i h2
    have e : (init_state t fc c sh).timer + (i : Int) = Int.ofNat i + 1 := by
      rw [init_state_timer]; simp; omega
    rw [e] at hr
    simp only [recorded_inputs, List.get_eq_getElem, List.getElem_map, List.getElem_range, hr,
      clutch_bit_input_byte, shift_bit_input_byte]

/-- C9. A state reached from a seed `init_state t fc c0 s0` by `n` steps,
`n + 1 ≤ MAX_FRAMES + 1`, records the seed's tachometer and frame counter, the
seed input in `inputs[0]` and timer `n + 1`; replaying the inputs recorded in
`inputs[1 .. timer - 1]` from the seed rebuilt out of those records gives the
same state, in particular the same timer and distance. -/
theorem replay_round_trip (t fc : Int) (c0 s0 : Bool) (ins : List (Bool × Bool))
    (h : (ins.length : Int) + 1 ≤ MAX_FRAMES + 1) :
    (run_inputs (init_state t fc c0 s0) ins).initial_tachometer = t ∧
    (run_inputs (init_state t fc c0 s0) ins).initial_frame_counter = fc ∧
    read_input (run_inputs (init_state t fc c0 s0) ins).inputs 0 = input_byte c0 s0 ∧
    (run_inputs (init_state t fc c0 s0) ins).timer = (ins.length : Int) + 1 ∧
    replay (run_inputs (init_state t fc c0 s0) ins) = run_inputs (init_state t fc c0 s0) ins ∧
    (replay (run_inputs (init_state t fc c0 s0) ins)).timer
      = (run_inputs (init_state t fc c0 s0) ins).timer ∧
    (replay (run_inputs (init_state t fc c0 s0) ins)).distance
      = (run_inputs (init_state t fc c0 s0) ins).distance := by
  have hlen : ins.length + 1 ≤ 168 := by
    simp only [MAX_FRAMES] at h; omega
  have hi := run_inputs_initial (init_state t fc c0 s0) ins
  have h0 : read_input (run_inputs (init_state t fc c0 s0) ins).inputs 0 = input_byte c0 s0 := by
    rw [run_inputs_read_below _ _ _ (by rw [init_state_timer]; omega), init_state_read_zero]
  have hrep : replay (run_inputs (init_state t fc c0 s0) ins)
      = run_inputs (init_state t fc c0 s0) ins := by
    unfold replay
    rw [recorded_inputs_run t fc c0 s0 ins hlen, hi.1, hi.2, h0, clutch_bit_input_byte,
      shift_bit_input_byte]
    rfl
  refine ⟨hi.1, hi.2, h0, ?_, hrep, by rw [hrep], by rw [hrep]⟩
  rw [run_inputs_timer, init_state_timer]
  omega

/-- Witness for C9: the seed with tachometer 30 and three recorded steps. -/
theorem replay_round_trip_witness :
    ((3 : Nat) : Int) + 1 ≤ MAX_FRAMES + 1 ∧
    replay (run_inputs (init_state 30 4 true false) [(true, true), (false, true), (true, false)])
      = run_inputs (init_state 30 4 true false) [(true, true), (false, true), (true, false)] :=
  ⟨by decide,
    (replay_round_trip 30 4 true false [(true, true), (false, true), (true, false)]
      (by decide)).2.2.2.2.1⟩

/-! ## The distance a run can add -/

theorem run_inputs_in_range (s : GameState) (ins : List (Bool × Bool)) (h : InRange s)
    (hk : keeps_tachometer s ins) : InRange (run_inputs s ins) := by
  induction ins generalizing s with
  | nil => exact h
  | cons x xs ih =>
    rw [run_inputs_cons]
    exact ih _ (game_step_in_range s x.1 x.2 h hk.1) hk.2

theorem run_inputs_distance_le (s : GameState) (ins : List (Bool × Bool)) (h : InRange s)
    (hk : keeps_tachometer s ins) :
    (run_inputs s ins).distance ≤ s.distance + MAX_SPEED * ins.length := by
  induction ins generalizing s with
  | nil => simp [run_inputs_nil]
  | cons x xs ih =>
    rw [run_inputs_cons]
    have hr := game_step_in_range s x.1 x.2 h hk.1
    have := ih _ hr hk.2
    have hd := game_step_distance s x.1 x.2
    obtain ⟨_, _, _, hs1, _⟩ := hr
    simp only [MAX_SPEED, List.length_cons] at *
    push_cast
    omega

/-- C4. A candidate produced in sweep frame `frame` from a state within the
ranges, which passes the tachometer test of line 262 and is discarded because
`distance + MAX_SPEED * (MAX_FRAMES - frame) < MIN_WINNING_DISTANCE`, cannot reach
`MIN_WINNING_DISTANCE` by any run of at most `MAX_FRAMES - frame` further steps
that keeps the tachometer below 32 after every step. -/
theorem feasibility_prune_conservative (frame : Int) (cur : GameState) (clutch shift : Bool)
    (ins : List (Bool × Bool))
    (_hframe : 1 ≤ frame ∧ frame ≤ MAX_FRAMES) (hcur : InRange cur)
    (htach : (game_step cur clutch shift).tachometer < MAX_TACHOMETER)
    (hdist : (game_step cur clutch shift).distance + MAX_SPEED * (MAX_FRAMES - frame)
      < MIN_WINNING_DISTANCE)
    (hlen : (ins.length : Int) ≤ MAX_FRAMES - frame)
    (hkeep : keeps_tachometer (game_step cur clutch shift) ins) :
    ¬ feasible frame (game_step cur clutch shift) ∧
    (run_inputs (game_step cur clutch shift) ins).distance < MIN_WINNING_DISTANCE := by
  have hr := game_step_in_range cur clutch shift hcur htach
  have hd := run_inputs_distance_le _ ins hr hkeep
  constructor
  · intro hf
    have := hf.2
    omega
  · simp only [MAX_SPEED, MAX_FRAMES, MIN_WINNING_DISTANCE] at *
    omega

/-- Witness for C4: in frame 166 the candidate of `c4_current` is discarded by
the distance test, and one further step does not win. -/
theorem feasibility_prune_conservative_witness :
    InRange c4_current ∧
    (game_step c4_current true false).tachometer < MAX_TACHOMETER ∧
    (game_step c4_current true false).distance + MAX_SPEED * (MAX_FRAMES - 166)
      < MIN_WINNING_DISTANCE ∧
    keeps_tachometer (game_step c4_current true false) [(false, false)] ∧
    (run_inputs (game_step c4_current true false) [(false, false)]).distance
      < MIN_WINNING_DISTANCE :=
  ⟨by decide, by decide, by decide, by decide,
    (feasibility_prune_conservative 166 c4_current true false [(false, false)]
      (by decide) (by decide) (by decide) (by decide) (by decide) (by decide)).2⟩

/-! ## One candidate -/

@[simp] theorem offer_states (f : Int) (s : Search) (c : GameState) :
    (offer f s c).states = s.states := by
  unfold offer
  dsimp only
  split_ifs <;> rfl

theorem offer_next_states (f : Int) (s : Search) (c : GameState) :
    (offer f s c).next_states
      = if feasible f c then merge_state s.next_states c else s.next_states := by
  unfold offer
  dsimp only
  split_ifs <;> rfl

theorem offer_best_state (f : Int) (s : Search) (c : GameState) :
    (offer f s c).best_state
      = if wins f c then champion_update s.best_state c else s.best_state := by
  unfold offer wins
  dsimp only
  split_ifs with h1 h2 h3 h3 <;> first | rfl | (exfalso; tauto)

theorem offer_stop (f : Int) (s : Search) (c : GameState) :
    (offer f s c).stop_configuration = true ↔ s.stop_configuration = true ∨ wins f c := by
  unfold offer wins
  dsimp only
  split_ifs with h1 h2 <;> simp [h1, *]

/-! ## The candidates of a frame, one after the other -/

theorem foldl_offer_states (f : Int) (l : List GameState) (s : Search) :
    (l.foldl (offer f) s).states = s.states := by
  induction l generalizing s with
  | nil => rfl
  | cons c cs ih => rw [List.foldl_cons, ih, offer_states]

theorem foldl_offer_next_states (f : Int) (l : List GameState) (s : Search) :
    (l.foldl (offer f) s).next_states
      = (l.filter fun c => decide (feasible f c)).foldl merge_state s.next_states := by
  induction l generalizing s with
  | nil => rfl
  | cons c cs ih =>
    rw [List.foldl_cons, ih, offer_next_states]
    by_cases h : feasible f c <;> simp [h, List.filter_cons]

theorem foldl_offer_best_state (f : Int) (l : List GameState) (s : Search) :
    (l.foldl (offer f) s).best_state
      = (l.filter fun c => decide (wins f c)).foldl champion_update s.best_state := by
  induction l generalizing s with
  | nil => rfl
  | cons c cs ih =>
    rw [List.foldl_cons, ih, offer_best_state]
    by_cases h : wins f c <;> simp [h, List.filter_cons]

theorem foldl_offer_stop (f : Int) (l : List GameState) (s : Search) :
    (l.foldl (offer f) s).stop_configuration = true
      ↔ s.stop_configuration = true ∨ ∃ c ∈ l, wins f c := by
  induction l generalizing s with
  | nil => simp
  | cons c cs ih =>
    rw [List.foldl_cons, ih, offer_stop]
    simp only [List.mem_cons, exists_eq_or_imp]
    tauto

theorem expand_slot_eq (f : Int) (s : Search) (index : Int) :
    expand_slot f s index = (slot_candidates f s.states index).foldl (offer f) s := by
  unfold expand_slot slot_candidates
  dsimp only
  split_ifs
  · rw [List.foldl_map]
    rfl
  · rfl

theorem foldl_expand_slot_eq (f : Int) (idxs : List Int) (s : Search) :
    idxs.foldl (expand_slot f) s
      = (idxs.flatMap (slot_candidates f s.states)).foldl (offer f) s := by
  induction idxs generalizing s with
  | nil => rfl
  | cons i is ih =>
    rw [List.foldl_cons, ih, expand_slot_eq, foldl_offer_states, List.flatMap_cons,
      List.foldl_append]

theorem expand_frame_eq (f : Int) (s : Search) :
    expand_frame f s = (frame_candidates f s.states).foldl (offer f) s := by
  unfold expand_frame frame_candidates
  rw [foldl_expand_slot_eq]

theorem expand_frame_next_states (f : Int) (s : Search) :
    (expand_frame f s).next_states
      = (feasible_candidates f s.states).foldl merge_state s.next_states := by
  rw [expand_frame_eq, foldl_offer_next_states]
  unfold feasible_candidates
  rfl

theorem expand_frame_best_state (f : Int) (s : Search) :
    (expand_frame f s).best_state
      = ((frame_candidates f s.states).filter fun c => decide (wins f c)).foldl
          champion_update s.best_state := by
  rw [expand_frame_eq, foldl_offer_best_state]

theorem expand_frame_stop (f : Int) (s : Search) :
    (expand_frame f s).stop_configuration = true
      ↔ s.stop_configuration = true ∨ ∃ c ∈ frame_candidates f s.states, wins f c := by
  rw [expand_frame_eq, foldl_offer_stop]

theorem expand_frame_states (f : Int) (s : Search) :
    (expand_frame f s).states = s.states := by
  rw [expand_frame_eq, foldl_offer_states]

theorem swap_tables_states (s : Search) : (swap_tables s).states = s.next_states := rfl

theorem swap_tables_next_states (s : Search) : (swap_tables s).next_states = zero_table := rfl

theorem swap_tables_best_state (s : Search) : (swap_tables s).best_state = s.best_state := rfl

theorem swap_tables_stop (s : Search) :
    (swap_tables s).stop_configuration = s.stop_configuration := rfl

theorem sweep_frame_states (f : Int) (s : Search) :
    (sweep_frame f s).states = (expand_frame f s).next_states := by
  rw [sweep_frame, swap_tables_states]

theorem sweep_frame_next_states (f : Int) (s : Search) :
    (sweep_frame f s).next_states = zero_table := by
  rw [sweep_frame, swap_tables_next_states]

theorem sweep_frame_best_state (f : Int) (s : Search) :
    (sweep_frame f s).best_state = (expand_frame f s).best_state := by
  rw [sweep_frame, swap_tables_best_state]

theorem sweep_frame_stop (f : Int) (s : Search) :
    (sweep_frame f s).stop_configuration = (expand_frame f s).stop_configuration := by
  rw [sweep_frame, swap_tables_stop]

theorem mem_slot_indices (i : Int) : i ∈ slot_indices ↔ 0 ≤ i ∧ i < MAX_STATES := by
  unfold slot_indices
  simp only [List.mem_map, List.mem_range, MAX_STATES, MAX_TACHOMETER, MAX_SPEED, MAX_GEAR]
  constructor
  · rintro ⟨a, ha, rfl⟩
    simp at ha ⊢
    omega
  · intro h
    refine ⟨i.toNat, ?_, ?_⟩
    · simp; omega
    · simp; omega

theorem mem_frame_candidates (f : Int) (states : Int → GameState) (c : GameState) :
    c ∈ frame_candidates f states ↔
      ∃ index, (0 ≤ index ∧ index < MAX_STATES) ∧ (states index).timer = f ∧
        ∃ clutch shift, c = game_step (states index) clutch shift := by
  unfold frame_candidates slot_candidates
  simp only [List.mem_flatMap, mem_slot_indices]
  constructor
  · rintro ⟨i, hi, hc⟩
    split_ifs at hc with ht
    · simp only [input_pairs, List.map_cons, List.map_nil, List.mem_cons, List.mem_singleton,
        List.not_mem_nil, or_false] at hc
      refine ⟨i, hi, ht, ?_⟩
      rcases hc with h | h | h | h
      · exact ⟨false, false, h⟩
      · exact ⟨false, true, h⟩
      · exact ⟨true, false, h⟩
      · exact ⟨true, true, h⟩
    · simp at hc
  · rintro ⟨i, hi, ht, cl, sh, rfl⟩
    refine ⟨i, hi, ?_⟩
    rw [if_pos ht]
    cases cl <;> cases sh <;> simp [input_pairs]

/-! ## Merging candidates into the next table -/

theorem merge_state_apply (T : Int → GameState) (c : GameState) (K : Int) :
    merge_state T c K
      = if hash_state c = K ∧ c.distance ≥ (T K).distance then c else T K := by
  unfold merge_state
  by_cases hK : hash_state c = K
  · subst hK
    by_cases hd : c.distance ≥ (T (hash_state c)).distance <;> simp [hd]
  · have hK' : K ≠ hash_state c := fun h => hK h.symm
    by_cases hd : c.distance ≥ (T (hash_state c)).distance <;> simp [hd, hK, hK']

theorem merge_state_distance (T : Int → GameState) (c : GameState) (K : Int) :
    (merge_state T c K).distance
      = if hash_state c = K then max (T K).distance c.distance else (T K).distance := by
  rw [merge_state_apply]
  by_cases hK : hash_state c = K
  · by_cases hd : c.distance ≥ (T K).distance
    · simp [hK, hd]
    · simp only [hK, hd, and_false, if_false, if_true]
      rw [max_eq_left (by omega)]
  · simp [hK]

theorem merge_state_distance_ge (T : Int → GameState) (c : GameState) (K : Int) :
    (T K).distance ≤ (merge_state T c K).distance := by
  rw [merge_state_distance]
  split_ifs
  · exact le_max_left _ _
  · exact le_refl _

theorem foldl_merge_distance (l : List GameState) (T : Int → GameState) (K : Int) :
    (l.foldl merge_state T K).distance = key_max K (T K).distance l := by
  induction l generalizing T with
  | nil => rfl
  | cons c cs ih =>
    rw [List.foldl_cons, ih, merge_state_distance]
    rfl

theorem foldl_merge_distance_ge (l : List GameState) (T : Int → GameState) (K : Int) :
    (T K).distance ≤ (l.foldl merge_state T K).distance := by
  induction l generalizing T with
  | nil => exact le_refl _
  | cons c cs ih =>
    rw [List.foldl_cons]
    exact le_trans (merge_state_distance_ge T c K) (ih _)

theorem foldl_merge_origin (l : List GameState) (T : Int → GameState) (K : Int) :
    l.foldl merge_state T K = T K ∨
      (l.foldl merge_state T K ∈ l ∧ hash_state (l.foldl merge_state T K) = K) := by
  induction l generalizing T with
  | nil => exact Or.inl rfl
  | cons c cs ih =>
    rw [List.foldl_cons]
    rcases ih (merge_state T c) with h | ⟨h1, h2⟩
    · rw [h, merge_state_apply]
      split_ifs with hc
      · exact Or.inr ⟨List.mem_cons_self _ _, hc.1⟩
      · exact Or.inl rfl
    · exact Or.inr ⟨List.mem_cons_of_mem _ h1, h2⟩

theorem foldl_merge_member_le (l : List GameState) (T : Int → GameState) (c : GameState)
    (hc : c ∈ l) : c.distance ≤ (l.foldl merge_state T (hash_state c)).distance := by
  induction l generalizing T with
  | nil => simp at hc
  | cons x xs ih =>
    rw [List.foldl_cons]
    rcases List.mem_cons.1 hc with rfl | h
    · refine le_trans ?_ (foldl_merge_distance_ge xs _ _)
      rw [merge_state_distance, if_pos rfl]
      exact le_max_right _ _
    · exact ih _ h

theorem foldl_merge_occupied (l : List GameState) (T : Int → GameState) (K : Int)
    (h : ∃ c ∈ l, hash_state c = K ∧ (T K).distance ≤ c.distance) :
    l.foldl merge_state T K ∈ l ∧ hash_state (l.foldl merge_state T K) = K := by
  induction l generalizing T with
  | nil => simp at h
  | cons x xs ih =>
    rw [List.foldl_cons]
    by_cases hx : hash_state x = K ∧ x.distance ≥ (T K).distance
    · have hm : merge_state T x K = x := by rw [merge_state_apply, if_pos hx]
      rcases foldl_merge_origin xs (merge_state T x) K with h' | ⟨h1, h2⟩
      · rw [h', hm]
        exact ⟨List.mem_cons_self _ _, hx.1⟩
      · exact ⟨List.mem_cons_of_mem _ h1, h2⟩
    · have hm : merge_state T x K = T K := by rw [merge_state_apply, if_neg hx]
      obtain ⟨c, hc, hk, hd⟩ := h
      rcases List.mem_cons.1 hc with rfl | hc'
      · exact absurd ⟨hk, hd⟩ hx
      · have := ih (merge_state T x) ⟨c, hc', hk, by rw [hm]; exact hd⟩
        exact ⟨List.mem_cons_of_mem _ this.1, this.2⟩

theorem key_max_perm (K d0 : Int) (l l' : List GameState) (h : l.Perm l') :
    key_max K d0 l = key_max K d0 l' := by
  unfold key_max
  refine @List.Perm.foldl_eq _ _ _ _ _ ⟨?_⟩ h d0
  intro d a b
  dsimp only
  split_ifs <;> simp [max_comm, max_left_comm, max_assoc]

theorem key_max_ge (K d0 : Int) (l : List GameState) : d0 ≤ key_max K d0 l := by
  unfold key_max
  induction l generalizing d0 with
  | nil => exact le_refl _
  | cons c cs ih =>
    rw [List.foldl_cons]
    refine le_trans ?_ (ih _)
    split_ifs
    · exact le_max_left _ _
    · exact le_refl _

/-! ## The tables of a group -/

theorem foldl_invariant {α β : Type} (P : β → Prop) (f : β → α → β) (l : List α) (b : β)
    (hb : P b) (hf : ∀ b a, a ∈ l → P b → P (f b a)) : P (l.foldl f b) := by
  induction l generalizing b with
  | nil => exact hb
  | cons x xs ih =>
    rw [List.foldl_cons]
    exact ih _ (hf b x (List.mem_cons_self _ _) hb)
      (fun b a ha => hf b a (List.mem_cons_of_mem _ ha))

theorem seed_tachometer_range (t : Int) (h : t ∈ seed_tachometers) : 0 ≤ t ∧ t ≤ 30 := by
  simp only [seed_tachometers, List.mem_cons, List.mem_singleton, List.not_mem_nil,
    or_false] at h
  omega

theorem seed_in_range (t c : Int) (cl sh : Bool) (h : t ∈ seed_tachometers) :
    InRange (init_state t c cl sh) := by
  have := seed_tachometer_range t h
  refine ⟨?_, ?_, ?_, ?_, ?_, ?_, ?_, ?_⟩ <;>
    simp only [init_state, zero_state, INITIAL_GEAR, INITIAL_SPEED, MAX_GEAR, MAX_SPEED,
      MAX_TACHOMETER] <;> omega

theorem seed_live (t c : Int) (cl sh : Bool) (h : t ∈ seed_tachometers) :
    LiveEntry c 0 (hash_state (init_state t c cl sh)) (init_state t c cl sh) where
  timer_eq := rfl
  in_range := seed_in_range t c cl sh h
  speed_le := by simp [init_state, INITIAL_SPEED]
  key_eq := rfl
  frame_counter_eq := rfl
  initial_eq := rfl
  distance_nonneg := by simp [init_state, zero_state]

theorem put_seed_ok (c : Int) (T : Int → GameState) (t : Int) (cl sh : Bool)
    (h : t ∈ seed_tachometers) (hT : TableOK c 0 T) : TableOK c 0 (put_seed c T t cl sh) := by
  intro i
  unfold put_seed
  split_ifs with hi
  · right
    rw [hi]
    exact seed_live t c cl sh h
  · exact hT i

theorem zero_table_ok (c : Int) (n : Nat) : TableOK c n zero_table := fun _ => Or.inl rfl

theorem seed_table_ok (c : Int) : TableOK c 0 (seed_table c) := by
  unfold seed_table
  refine foldl_invariant (TableOK c 0) _ _ _ (zero_table_ok c 0) ?_
  intro T t ht hT
  refine foldl_invariant (TableOK c 0) _ _ _ hT ?_
  intro T cl _ hT
  refine foldl_invariant (TableOK c 0) _ _ _ hT ?_
  intro T sh _ hT
  exact put_seed_ok c T t cl sh ht hT

theorem zero_state_timer : zero_state.timer = 0 := rfl

theorem candidate_live (c : Int) (n : Nat) (i : Int) (e : GameState) (cl sh : Bool)
    (he : LiveEntry c n i e) (hf : feasible ((n : Int) + 1) (game_step e cl sh)) :
    LiveEntry c (n + 1) (hash_state (game_step e cl sh)) (game_step e cl sh) where
  timer_eq := by rw [game_step_timer, he.timer_eq]; push_cast; ring
  in_range := game_step_in_range e cl sh he.in_range hf.1
  speed_le := game_step_speed_le e cl sh he.in_range he.speed_le hf.1
  key_eq := rfl
  frame_counter_eq := by rw [game_step_frame_counter, he.frame_counter_eq]; rfl
  initial_eq := by rw [game_step_initial_frame_counter, he.initial_eq]
  distance_nonneg :=
    le_trans he.distance_nonneg (game_step_bounds e cl sh he.in_range).2.2.2.2.2.2.2.2

theorem feasible_candidate_live (c : Int) (n : Nat) (T : Int → GameState) (hT : TableOK c n T)
    (x : GameState) (hx : x ∈ feasible_candidates ((n : Int) + 1) T) :
    LiveEntry c (n + 1) (hash_state x) x := by
  unfold feasible_candidates at hx
  rw [List.mem_filter, mem_frame_candidates] at hx
  obtain ⟨⟨index, _, ht, cl, sh, rfl⟩, hf⟩ := hx
  rcases hT index with hz | hl
  · rw [hz, zero_state_timer] at ht
    omega
  · exact candidate_live c n index _ cl sh hl (of_decide_eq_true hf)

theorem sweep_frame_table_ok (c : Int) (n : Nat) (s : Search) (hT : TableOK c n s.states)
    (hz : s.next_states = zero_table) :
    TableOK c (n + 1) (sweep_frame ((n : Int) + 1) s).states := by
  intro K
  rw [sweep_frame_states, expand_frame_next_states, hz]
  rcases foldl_merge_origin (feasible_candidates ((n : Int) + 1) s.states) zero_table K with
    h | ⟨h1, h2⟩
  · left
    rw [h]
    rfl
  · right
    have := feasible_candidate_live c n s.states hT _ h1
    rw [h2] at this
    exact this

theorem group_at_zero (s : Search) (c : Int) : group_at s c 0 = group_start s c := rfl

theorem group_at_succ (s : Search) (c : Int) (n : Nat) :
    group_at s c (n + 1) =
      if (group_at s c n).stop_configuration then group_at s c n
      else sweep_frame ((n : Int) + 1) (group_at s c n) := by
  rfl

theorem group_at_tables (s : Search) (c : Int) (n : Nat) :
    (group_at s c n).next_states = zero_table ∧
    ((group_at s c n).stop_configuration = false → TableOK c n (group_at s c n).states) := by
  induction n with
  | zero => exact ⟨rfl, fun _ => seed_table_ok c⟩
  | succ n ih =>
    rw [group_at_succ]
    by_cases hs : (group_at s c n).stop_configuration = true
    · rw [if_pos hs]
      exact ⟨ih.1, fun h => by rw [hs] at h; cases h⟩
    · rw [if_neg hs]
      refine ⟨sweep_frame_next_states _ _, fun _ =>
        sweep_frame_table_ok c n _ (ih.2 (by simpa using hs)) ih.1⟩

/-! ## The key range and the domination rule in the sweep -/

theorem merge_state_comm_distance (T : Int → GameState) (a b : GameState) (K : Int) :
    (merge_state (merge_state T a) b K).distance
      = (merge_state (merge_state T b) a K).distance := by
  simp only [merge_state_distance]
  split_ifs <;> simp [max_comm, max_left_comm, max_assoc]

theorem merge_state_idem_distance (T : Int → GameState) (a : GameState) (K : Int) :
    (merge_state (merge_state T a) a K).distance = (merge_state T a K).distance := by
  simp only [merge_state_distance]
  split_ifs <;> simp

theorem expand_frame_next_group (s0 : Search) (c : Int) (n : Nat) :
    (expand_frame ((n : Int) + 1) (group_at s0 c n)).next_states
      = (feasible_candidates ((n : Int) + 1) (group_at s0 c n).states).foldl merge_state
          zero_table := by
  rw [expand_frame_next_states, (group_at_tables s0 c n).1]

/-- C5. Every state on which the search calls `hash_state` is within the
ranges: every seed `init_state t c c0 sh0` with `t` among the seed tachometers,
and every candidate of a sweep frame that passed the feasibility test, in every
frame (`n + 1`) of every group (`c`, after any search record `s0`); hence the
key is in `[0, MAX_STATES)`. `game_step` alone does not give this: from
`edge_state`, which is within the ranges, it returns speed 257 and tachometer 32. -/
theorem key_range (s0 : Search) (c : Int) (n : Nat) (index : Int) (clutch shift : Bool)
    (t : Int) (c0 sh0 : Bool)
    (ht : t ∈ seed_tachometers)
    (hstop : (group_at s0 c n).stop_configuration = false)
    (hindex : 0 ≤ index ∧ index < MAX_STATES)
    (hdue : ((group_at s0 c n).states index).timer = (n : Int) + 1)
    (hfeas : feasible ((n : Int) + 1) (game_step ((group_at s0 c n).states index) clutch shift)) :
    (InRange (init_state t c c0 sh0) ∧
      0 ≤ hash_state (init_state t c c0 sh0) ∧
      hash_state (init_state t c c0 sh0) < MAX_STATES) ∧
    (InRange (game_step ((group_at s0 c n).states index) clutch shift) ∧
      0 ≤ hash_state (game_step ((group_at s0 c n).states index) clutch shift) ∧
      hash_state (game_step ((group_at s0 c n).states index) clutch shift) < MAX_STATES) ∧
    (InRange edge_state ∧ (game_step edge_state true true).speed = 257 ∧
      (game_step edge_state true true).tachometer = 32) := by
  have hseed := seed_in_range t c c0 sh0 ht
  have hT := (group_at_tables s0 c n).2 hstop
  have hx : game_step ((group_at s0 c n).states index) clutch shift
      ∈ feasible_candidates ((n : Int) + 1) (group_at s0 c n).states := by
    unfold feasible_candidates
    rw [List.mem_filter, mem_frame_candidates]
    exact ⟨⟨index, hindex, hdue, clutch, shift, rfl⟩, decide_eq_true hfeas⟩
  have hl := feasible_candidate_live c n _ hT _ hx
  exact ⟨⟨hseed, hash_state_range _ hseed⟩, ⟨hl.in_range, hash_state_range _ hl.in_range⟩,
    by decide⟩

/-- Witness for C5: the first sweep frame of the first group, at the slot of the
seed with tachometer 27 and shift set. -/
theorem key_range_witness :
    (group_at initial_search 0 0).stop_configuration = false ∧
    ((group_at initial_search 0 0).states 69121).timer = 1 ∧
    feasible 1 (game_step ((group_at initial_search 0 0).states 69121) true false) ∧
    hash_state (game_step ((group_at initial_search 0 0).states 69121) true false)
      < MAX_STATES :=
  ⟨rfl, by decide, by decide,
    (key_range initial_search 0 0 69121 true false 27 true true (by decide) rfl
      (by decide) (by decide) (by decide)).2.1.2.2⟩

/-- C3. When the expansion of a sweep frame is finished, the distance stored
at every key of `next_states` is the greatest distance among the candidates of
the frame that passed the feasibility test and have that key (`key_max`, which
starts from the 0 of an empty slot): it bounds the distance of every such
candidate, the slot of a candidate's key holds one of these candidates with that
key, and a key without candidates is empty. The stored distances are the same
for every order in which the candidates are merged, and merging is commutative
and idempotent on the stored distance. -/
theorem domination (s0 : Search) (c : Int) (n : Nat)
    (hstop : (group_at s0 c n).stop_configuration = false) :
    (∀ K, ((expand_frame ((n : Int) + 1) (group_at s0 c n)).next_states K).distance
        = key_max K 0 (feasible_candidates ((n : Int) + 1) (group_at s0 c n).states)) ∧
    (∀ x ∈ feasible_candidates ((n : Int) + 1) (group_at s0 c n).states,
        x.distance
          ≤ ((expand_frame ((n : Int) + 1) (group_at s0 c n)).next_states
              (hash_state x)).distance ∧
        (expand_frame ((n : Int) + 1) (group_at s0 c n)).next_states (hash_state x)
          ∈ feasible_candidates ((n : Int) + 1) (group_at s0 c n).states ∧
        hash_state
            ((expand_frame ((n : Int) + 1) (group_at s0 c n)).next_states (hash_state x))
          = hash_state x) ∧
    (∀ K, (∀ x ∈ feasible_candidates ((n : Int) + 1) (group_at s0 c n).states,
        hash_state x ≠ K) →
        (expand_frame ((n : Int) + 1) (group_at s0 c n)).next_states K = zero_state) ∧
    (∀ l : List GameState,
        l.Perm (feasible_candidates ((n : Int) + 1) (group_at s0 c n).states) →
        ∀ K, (l.foldl merge_state zero_table K).distance
          = ((expand_frame ((n : Int) + 1) (group_at s0 c n)).next_states K).distance) ∧
    (∀ (T : Int → GameState) (a b : GameState) (K : Int),
        (merge_state (merge_state T a) b K).distance
          = (merge_state (merge_state T b) a K).distance) ∧
    (∀ (T : Int → GameState) (a : GameState) (K : Int),
        (merge_state (merge_state T a) a K).distance = (merge_state T a K).distance) := by
  have hT := (group_at_tables s0 c n).2 hstop
  rw [expand_frame_next_group]
  refine ⟨?_, ?_, ?_, ?_, merge_state_comm_distance, merge_state_idem_distance⟩
  · intro K
    rw [foldl_merge_distance]
    rfl
  · intro x hx
    have hl := feasible_candidate_live c n _ hT x hx
    have ho := foldl_merge_occupied _ zero_table (hash_state x)
      ⟨x, hx, rfl, hl.distance_nonneg⟩
    exact ⟨foldl_merge_member_le _ _ x hx, ho.1, ho.2⟩
  · intro K hK
    rcases foldl_merge_origin (feasible_candidates ((n : Int) + 1) (group_at s0 c n).states)
      zero_table K with h | ⟨h1, h2⟩
    · rw [h]; rfl
    · exact absurd h2 (hK _ h1)
  · intro l hl K
    rw [foldl_merge_distance, foldl_merge_distance]
    exact key_max_perm K _ _ _ hl

/-- Witness for C3: the first sweep frame of the first group. -/
theorem domination_witness :
    (group_at initial_search 0 0).stop_configuration = false ∧
    ∀ K, ((expand_frame (((0 : Nat) : Int) + 1)
            (group_at initial_search 0 0)).next_states K).distance
      = key_max K 0
          (feasible_candidates (((0 : Nat) : Int) + 1) (group_at initial_search 0 0).states) :=
  ⟨rfl, (domination initial_search 0 0 rfl).1⟩

/-! ## The champion -/

theorem at_least_as_good_refl (a : GameState) : at_least_as_good a a :=
  Or.inr ⟨rfl, le_refl _⟩

theorem at_least_as_good_trans (a b c : GameState) (h1 : at_least_as_good a b)
    (h2 : at_least_as_good b c) : at_least_as_good a c := by
  unfold at_least_as_good at *
  omega

theorem champion_update_left (best cand : GameState) :
    at_least_as_good (champion_update best cand) best := by
  unfold champion_update beats at_least_as_good
  split_ifs with h <;> omega

theorem champion_update_right (best cand : GameState) :
    at_least_as_good (champion_update best cand) cand := by
  unfold champion_update beats at_least_as_good
  split_ifs with h <;> omega

theorem foldl_champion_left (l : List GameState) (best : GameState) :
    at_least_as_good (l.foldl champion_update best) best := by
  induction l generalizing best with
  | nil => exact at_least_as_good_refl _
  | cons x xs ih =>
    rw [List.foldl_cons]
    exact at_least_as_good_trans _ _ _ (ih _) (champion_update_left best x)

theorem foldl_champion_member (l : List GameState) (best w : GameState) (hw : w ∈ l) :
    at_least_as_good (l.foldl champion_update best) w := by
  induction l generalizing best with
  | nil => simp at hw
  | cons x xs ih =>
    rw [List.foldl_cons]
    rcases List.mem_cons.1 hw with rfl | h
    · exact at_least_as_good_trans _ _ _ (foldl_champion_left xs _) (champion_update_right best w)
    · exact ih _ h

theorem champion_update_ok (best cand : GameState) (hb : ChampionOK best)
    (hc : cand.distance ≥ MIN_WINNING_DISTANCE) : ChampionOK (champion_update best cand) := by
  unfold champion_update beats
  split_ifs with h
  · right
    unfold ChampionOK at hb
    refine ⟨hc, ?_⟩
    omega
  · exact hb

theorem champion_update_zero (best cand : GameState) (hb : ChampionOK best)
    (hc : cand.distance ≥ MIN_WINNING_DISTANCE) :
    (champion_update best cand).distance = 0
      ↔ best.distance = 0 ∧ MAX_FRAMES < cand.timer := by
  unfold champion_update beats
  unfold ChampionOK at hb
  simp only [MIN_WINNING_DISTANCE, MAX_FRAMES] at *
  split_ifs with h <;> omega

theorem foldl_champion_ok (l : List GameState) (best : GameState) (hb : ChampionOK best)
    (hl : ∀ w ∈ l, w.distance ≥ MIN_WINNING_DISTANCE) :
    ChampionOK (l.foldl champion_update best) ∧
    ((l.foldl champion_update best).distance = 0
      ↔ best.distance = 0 ∧ ∀ w ∈ l, MAX_FRAMES < w.timer) := by
  induction l generalizing best with
  | nil => simp [hb]
  | cons x xs ih =>
    rw [List.foldl_cons]
    have hx := hl x (List.mem_cons_self _ _)
    have := ih (champion_update best x) (champion_update_ok best x hb hx)
      (fun w hw => hl w (List.mem_cons_of_mem _ hw))
    refine ⟨this.1, ?_⟩
    rw [this.2, champion_update_zero best x hb hx]
    simp only [List.mem_cons, forall_eq_or_imp]
    tauto

theorem offer_champion_ok (f : Int) (s : Search) (c : GameState)
    (hb : ChampionOK s.best_state) : ChampionOK (offer f s c).best_state := by
  rw [offer_best_state]
  split_ifs with h
  · exact champion_update_ok _ _ hb h.2
  · exact hb

/-! ## The champion along a group and along the run -/

theorem group_at_best_zero (s : Search) (c : Int) : (group_at s c 0).best_state = s.best_state :=
  rfl

theorem group_at_best_succ (s : Search) (c : Int) (n : Nat) :
    (group_at s c (n + 1)).best_state
      = (frame_winners s c n).foldl champion_update (group_at s c n).best_state := by
  rw [group_at_succ]
  unfold frame_winners
  by_cases hs : (group_at s c n).stop_configuration = true
  · rw [if_pos hs, if_pos hs]
    rfl
  · rw [if_neg hs, if_neg hs, sweep_frame_best_state, expand_frame_best_state]

theorem group_at_best (s : Search) (c : Int) (n : Nat) :
    (group_at s c n).best_state
      = ((List.range n).flatMap (frame_winners s c)).foldl champion_update s.best_state := by
  induction n with
  | zero => rfl
  | succ n ih =>
    rw [group_at_best_succ, ih, List.range_succ, List.flatMap_append, List.foldl_append]
    simp

theorem run_group_best (s : Search) (c : Int) :
    (run_group s c).best_state = (group_winners s c).foldl champion_update s.best_state := by
  unfold run_group group_winners
  rw [group_at_best]

theorem frame_winners_wins (s : Search) (c : Int) (n : Nat) (w : GameState)
    (hw : w ∈ frame_winners s c n) :
    (group_at s c n).stop_configuration = false ∧
    w ∈ frame_candidates ((n : Int) + 1) (group_at s c n).states ∧ wins ((n : Int) + 1) w := by
  unfold frame_winners at hw
  split_ifs at hw with hs
  · simp at hw
  · rw [List.mem_filter] at hw
    exact ⟨by simpa using hs, hw.1, of_decide_eq_true hw.2⟩

theorem group_winners_distance (s : Search) (c : Int) (w : GameState)
    (hw : w ∈ group_winners s c) : w.distance ≥ MIN_WINNING_DISTANCE := by
  unfold group_winners at hw
  rw [List.mem_flatMap] at hw
  obtain ⟨n, _, hn⟩ := hw
  exact (frame_winners_wins s c n w hn).2.2.2

theorem run_from_nil (s : Search) : run_from s [] = s := rfl

theorem run_from_cons (s : Search) (c : Int) (cs : List Int) :
    run_from s (c :: cs) = run_from (run_group s c) cs := by
  unfold run_from
  rw [List.foldl_cons]

theorem run_from_champion (gs : List Int) (s : Search) (hb : ChampionOK s.best_state) :
    ChampionOK (run_from s gs).best_state ∧
    ((run_from s gs).best_state.distance = 0
      ↔ s.best_state.distance = 0 ∧ ∀ w ∈ winners_from s gs, MAX_FRAMES < w.timer) := by
  induction gs generalizing s with
  | nil => simp [run_from_nil, winners_from, hb]
  | cons c cs ih =>
    rw [run_from_cons]
    have h1 := foldl_champion_ok (group_winners s c) s.best_state hb
      (group_winners_distance s c)
    rw [← run_group_best] at h1
    have h2 := ih (run_group s c) h1.1
    refine ⟨h2.1, ?_⟩
    rw [h2.2, h1.2]
    simp only [winners_from, List.mem_append]
    constructor
    · rintro ⟨⟨h0, ha⟩, hb'⟩
      exact ⟨h0, fun w hw => hw.elim (ha w) (hb' w)⟩
    · rintro ⟨h0, ha⟩
      exact ⟨⟨h0, fun w hw => ha w (Or.inl hw)⟩, fun w hw => ha w (Or.inr hw)⟩

theorem sentinel_ok : ChampionOK sentinel := Or.inl ⟨rfl, rfl⟩

theorem run_groups_eq (gs : List Int) : run_groups gs = run_from initial_search gs := rfl

theorem group_at_champion_ok (s : Search) (c : Int) (n : Nat) (hb : ChampionOK s.best_state) :
    ChampionOK (group_at s c n).best_state := by
  rw [group_at_best]
  refine (foldl_champion_ok _ _ hb ?_).1
  intro w hw
  rw [List.mem_flatMap] at hw
  obtain ⟨m, _, hm⟩ := hw
  exact (frame_winners_wins s c m w hm).2.2.2

/-! ## Runs, prefix by prefix -/

theorem hash_state_congr (a b : GameState) (h : KeyFields a b) :
    hash_state a = hash_state b := by
  obtain ⟨h1, h2, h3, h4, h5⟩ := h
  unfold hash_state
  rw [h1, h2, h3, h4, h5]

theorem KeyFields_trans (a b c : GameState) (h1 : KeyFields a b) (h2 : KeyFields b c) :
    KeyFields a c :=
  ⟨h1.1.trans h2.1, h1.2.1.trans h2.2.1, h1.2.2.1.trans h2.2.2.1,
    h1.2.2.2.1.trans h2.2.2.2.1, h1.2.2.2.2.trans h2.2.2.2.2⟩

theorem run_inputs_take_succ (s : GameState) (l : List (Bool × Bool)) (n : Nat)
    (h : n < l.length) :
    run_inputs s (l.take (n + 1))
      = game_step (run_inputs s (l.take n)) (l.get ⟨n, h⟩).1 (l.get ⟨n, h⟩).2 := by
  induction l generalizing s n with
  | nil => simp at h
  | cons x xs ih =>
    cases n with
    | zero => rfl
    | succ m =>
      simp only [List.take_succ_cons, run_inputs_cons]
      exact ih _ m (by simpa using h)

theorem keeps_tachometer_prefix (s : GameState) (l : List (Bool × Bool)) (n : Nat)
    (hk : keeps_tachometer s l) (h : n < l.length) :
    (run_inputs s (l.take (n + 1))).tachometer < MAX_TACHOMETER := by
  induction l generalizing s n with
  | nil => simp at h
  | cons x xs ih =>
    cases n with
    | zero => exact hk.1
    | succ m =>
      simp only [List.take_succ_cons, run_inputs_cons]
      exact ih _ m hk.2 (by simpa using h)

theorem keeps_tachometer_drop (s : GameState) (l : List (Bool × Bool)) (n : Nat)
    (hk : keeps_tachometer s l) :
    keeps_tachometer (run_inputs s (l.take n)) (l.drop n) := by
  induction l generalizing s n with
  | nil => simpa using hk
  | cons x xs ih =>
    cases n with
    | zero => exact hk
    | succ m =>
      simp only [List.take_succ_cons, List.drop_succ_cons, run_inputs_cons]
      exact ih _ m hk.2

theorem keeps_tachometer_take (s : GameState) (l : List (Bool × Bool)) (n : Nat)
    (hk : keeps_tachometer s l) : keeps_tachometer s (l.take n) := by
  induction l generalizing s n with
  | nil => simpa using hk
  | cons x xs ih =>
    cases n with
    | zero => exact trivial
    | succ m =>
      simp only [List.take_succ_cons]
      exact ⟨hk.1, ih _ m hk.2⟩

theorem run_inputs_split (s : GameState) (l : List (Bool × Bool)) (n : Nat) :
    run_inputs s l = run_inputs (run_inputs s (l.take n)) (l.drop n) := by
  rw [← run_inputs_append, List.take_append_drop]

theorem run_inputs_remaining (s : GameState) (l : List (Bool × Bool)) (n : Nat)
    (hs : InRange s) (hk : keeps_tachometer s l) (hn : n ≤ l.length) :
    (run_inputs s l).distance
      ≤ (run_inputs s (l.take n)).distance + MAX_SPEED * ((l.length : Int) - n) := by
  have h1 := run_inputs_in_range s (l.take n) hs (keeps_tachometer_take s l n hk)
  have h2 := run_inputs_distance_le _ (l.drop n) h1 (keeps_tachometer_drop s l n hk)
  rw [← run_inputs_split] at h2
  rw [List.length_drop] at h2
  push_cast [Nat.cast_sub hn] at h2
  exact h2

/-! ## The seeds in generation table 0 -/

theorem foldl_establish {α β : Type} (Q : β → Prop) (f : β → α → β) (l : List α) (b : β)
    (x : α) (hx : x ∈ l) (hest : ∀ b, Q (f b x)) (hpres : ∀ b a, a ∈ l → Q b → Q (f b a)) :
    Q (l.foldl f b) := by
  induction l generalizing b with
  | nil => simp at hx
  | cons y ys ih =>
    rw [List.foldl_cons]
    rcases List.mem_cons.1 hx with rfl | h
    · exact foldl_invariant Q f ys _ (hest b)
        (fun b a ha hb => hpres b a (List.mem_cons_of_mem _ ha) hb)
    · exact ih _ h (fun b a ha hb => hpres b a (List.mem_cons_of_mem _ ha) hb)

theorem init_state_last_shift (t c : Int) (cl sh : Bool) :
    last_shift (init_state t c cl sh) = sh := by
  unfold last_shift
  rw [init_state_timer, show (1 : Int) - 1 = 0 from rfl, init_state_read_zero,
    shift_bit_input_byte]

theorem put_seed_live_at (c : Int) (T : Int → GameState) (t : Int) (cl sh : Bool) (K : Int)
    (ht : t ∈ seed_tachometers) (h : LiveEntry c 0 K (T K)) :
    LiveEntry c 0 K (put_seed c T t cl sh K) := by
  unfold put_seed
  split_ifs with hi
  · rw [hi]
    exact seed_live t c cl sh ht
  · exact h

theorem put_seed_same_key (c : Int) (T : Int → GameState) (t : Int) (c0 cl sh : Bool)
    (ht : t ∈ seed_tachometers) :
    LiveEntry c 0 (hash_state (init_state t c c0 sh))
      (put_seed c T t cl sh (hash_state (init_state t c c0 sh))) := by
  have hk : hash_state (init_state t c c0 sh) = hash_state (init_state t c cl sh) :=
    hash_state_congr _ _
      ⟨by rw [init_state_last_shift, init_state_last_shift], rfl, rfl, rfl, rfl⟩
  rw [hk]
  unfold put_seed
  rw [if_pos rfl]
  exact seed_live t c cl sh ht

theorem seed_slot_live (t c : Int) (c0 sh0 : Bool) (ht : t ∈ seed_tachometers) :
    LiveEntry c 0 (hash_state (init_state t c c0 sh0))
      (seed_table c (hash_state (init_state t c c0 sh0))) := by
  unfold seed_table
  refine foldl_establish
    (fun T : Int → GameState => LiveEntry c 0 (hash_state (init_state t c c0 sh0))
      (T (hash_state (init_state t c c0 sh0)))) _ _ _ t ht ?_ ?_
  · intro T
    refine foldl_establish
      (fun T : Int → GameState => LiveEntry c 0 (hash_state (init_state t c c0 sh0))
        (T (hash_state (init_state t c c0 sh0)))) _ _ _ true (by simp) ?_ ?_
    · intro T
      refine foldl_establish
        (fun T : Int → GameState => LiveEntry c 0 (hash_state (init_state t c c0 sh0))
          (T (hash_state (init_state t c c0 sh0)))) _ _ _ sh0 (by cases sh0 <;> simp) ?_ ?_
      · intro T
        exact put_seed_same_key c T t c0 true sh0 ht
      · intro T sh _ hT
        exact put_seed_live_at c T t true sh _ ht hT
    · intro T cl _ hT
      refine foldl_invariant
        (fun T : Int → GameState => LiveEntry c 0 (hash_state (init_state t c c0 sh0))
          (T (hash_state (init_state t c c0 sh0)))) _ _ _ hT ?_
      intro T sh _ hT
      exact put_seed_live_at c T t cl sh _ ht hT
  · intro T t' ht' hT
    refine foldl_invariant
      (fun T : Int → GameState => LiveEntry c 0 (hash_state (init_state t c c0 sh0))
        (T (hash_state (init_state t c c0 sh0)))) _ _ _ hT ?_
    intro T cl _ hT
    refine foldl_invariant
      (fun T : Int → GameState => LiveEntry c 0 (hash_state (init_state t c c0 sh0))
        (T (hash_state (init_state t c c0 sh0)))) _ _ _ hT ?_
    intro T sh _ hT
    exact put_seed_live_at c T t' cl sh _ ht' hT

theorem seed_dominated (t c : Int) (c0 sh0 : Bool) (ht : t ∈ seed_tachometers) :
    Dominates (seed_table c) (init_state t c c0 sh0) := by
  have hl := seed_slot_live t c c0 sh0 ht
  have hk := hash_state_inj _ _ hl.in_range (seed_in_range t c c0 sh0 ht) hl.key_eq
  exact ⟨hk, hl.timer_eq, hl.frame_counter_eq, hl.distance_nonneg⟩

/-! ## Following one run through the sweep -/

theorem frame_candidate_timer (f : Int) (T : Int → GameState) (w : GameState)
    (hw : w ∈ frame_candidates f T) : w.timer = f + 1 := by
  rw [mem_frame_candidates] at hw
  obtain ⟨i, _, ht, cl, sh, rfl⟩ := hw
  rw [game_step_timer, ht]

theorem dominate_step (s0 : Search) (c : Int) (n : Nat) (a : GameState) (x : Bool × Bool)
    (ha : InRange a) (hat : a.timer = (n : Int) + 1) (hn : (n : Int) + 1 ≤ MAX_FRAMES)
    (hbt : (game_step a x.1 x.2).tachometer < MAX_TACHOMETER)
    (hbd : (game_step a x.1 x.2).distance + MAX_SPEED * (MAX_FRAMES - ((n : Int) + 1))
      ≥ MIN_WINNING_DISTANCE)
    (hstop : (group_at s0 c n).stop_configuration = false)
    (hdom : Dominates (group_at s0 c n).states a) :
    ((group_at s0 c (n + 1)).stop_configuration = false ∧
      Dominates (group_at s0 c (n + 1)).states (game_step a x.1 x.2) ∧
      (game_step a x.1 x.2).distance < MIN_WINNING_DISTANCE) ∨
    ((group_at s0 c (n + 1)).stop_configuration = true ∧
      (group_at s0 c (n + 1)).best_state.timer ≤ (n : Int) + 2 ∧
      ((group_at s0 c (n + 1)).best_state.timer = (n : Int) + 2 →
        (game_step a x.1 x.2).distance ≤ (group_at s0 c (n + 1)).best_state.distance)) := by
  obtain ⟨hk, het, hefc, hed⟩ := hdom
  have hT := (group_at_tables s0 c n).2 hstop
  have hz := (group_at_tables s0 c n).1
  -- the entry that dominates `a`
  have hlive : LiveEntry c n (hash_state a) ((group_at s0 c n).states (hash_state a)) := by
    rcases hT (hash_state a) with h0 | hl
    · rw [h0, zero_state_timer] at het
      omega
    · exact hl
  -- its candidate under the same input
  have hcong := step_congruence ((group_at s0 c n).states (hash_state a)) a x.1 x.2
    (by rw [het, hat]; omega) (by rw [het, hat]; exact hn) (by rw [hat]; omega)
    (by rw [hat]; exact hn) hk hefc
  obtain ⟨hck, hcfc, hcd⟩ := hcong
  have hfeas : feasible ((n : Int) + 1)
      (game_step ((group_at s0 c n).states (hash_state a)) x.1 x.2) := by
    constructor
    · rw [hck.2.2.2.1]; exact hbt
    · omega
  have hx : game_step ((group_at s0 c n).states (hash_state a)) x.1 x.2
      ∈ feasible_candidates ((n : Int) + 1) (group_at s0 c n).states := by
    unfold feasible_candidates
    rw [List.mem_filter, mem_frame_candidates]
    exact ⟨⟨hash_state a, hash_state_range a ha, by rw [het, hat], x.1, x.2, rfl⟩,
      decide_eq_true hfeas⟩
  have hxc : game_step ((group_at s0 c n).states (hash_state a)) x.1 x.2
      ∈ frame_candidates ((n : Int) + 1) (group_at s0 c n).states := by
    unfold feasible_candidates at hx
    exact (List.mem_filter.1 hx).1
  have hcl := feasible_candidate_live c n _ hT _ hx
  have hbtimer : (game_step a x.1 x.2).timer = (n : Int) + 2 := by
    rw [game_step_timer, hat]; ring
  have hns : ¬ (group_at s0 c n).stop_configuration = true := by simp [hstop]
  rw [group_at_succ, if_neg hns, sweep_frame_stop, sweep_frame_best_state,
    sweep_frame_states, expand_frame_best_state, expand_frame_next_states, hz]
  by_cases hs' : (expand_frame ((n : Int) + 1) (group_at s0 c n)).stop_configuration = true
  · right
    refine ⟨hs', ?_⟩
    obtain ⟨w, hw, hww⟩ := ((expand_frame_stop _ _).1 hs').resolve_left hns
    have hwmem : w ∈ (frame_candidates ((n : Int) + 1) (group_at s0 c n).states).filter
        fun y => decide (wins ((n : Int) + 1) y) :=
      List.mem_filter.2 ⟨hw, decide_eq_true hww⟩
    have hbw := foldl_champion_member _ (group_at s0 c n).best_state w hwmem
    have hwt := frame_candidate_timer _ _ w hw
    have hwd := hww.2
    unfold at_least_as_good at hbw
    constructor
    · omega
    · intro hbt2
      by_cases hcw : (game_step ((group_at s0 c n).states (hash_state a)) x.1 x.2).distance
          ≥ MIN_WINNING_DISTANCE
      · have hcmem : game_step ((group_at s0 c n).states (hash_state a)) x.1 x.2
            ∈ (frame_candidates ((n : Int) + 1) (group_at s0 c n).states).filter
              fun y => decide (wins ((n : Int) + 1) y) :=
          List.mem_filter.2 ⟨hxc, decide_eq_true ⟨hfeas, hcw⟩⟩
        have hbc := foldl_champion_member _ (group_at s0 c n).best_state _ hcmem
        have hct := frame_candidate_timer _ _ _ hxc
        unfold at_least_as_good at hbc
        omega
      · omega
  · left
    have hs'' : (expand_frame ((n : Int) + 1) (group_at s0 c n)).stop_configuration = false := by
      simpa using hs'
    have hcw : (game_step ((group_at s0 c n).states (hash_state a)) x.1 x.2).distance
        < MIN_WINNING_DISTANCE := by
      by_contra hge
      exact hs' ((expand_frame_stop _ _).2 (Or.inr ⟨_, hxc, hfeas, by omega⟩))
    refine ⟨hs'', ?_, by omega⟩
    have hkey : hash_state (game_step a x.1 x.2)
        = hash_state (game_step ((group_at s0 c n).states (hash_state a)) x.1 x.2) :=
      (hash_state_congr _ _ hck).symm
    have hocc := foldl_merge_occupied
      (feasible_candidates ((n : Int) + 1) (group_at s0 c n).states) zero_table _
      ⟨_, hx, rfl, hcl.distance_nonneg⟩
    have hsl := feasible_candidate_live c n _ hT _ hocc.1
    have hle := foldl_merge_member_le
      (feasible_candidates ((n : Int) + 1) (group_at s0 c n).states) zero_table _ hx
    have hinj := hash_state_inj _ _ hsl.in_range hcl.in_range hocc.2
    unfold Dominates
    rw [hkey]
    refine ⟨KeyFields_trans _ _ _ hinj hck, ?_, ?_, ?_⟩
    · rw [hsl.timer_eq, hbtimer]; push_cast; ring
    · rw [hsl.frame_counter_eq, ← hcfc, hcl.frame_counter_eq]
    · omega

/-! ## Optimality of the champion of a group -/

theorem group_at_best_mono (s : Search) (c : Int) (n m : Nat) (h : n ≤ m) :
    at_least_as_good (group_at s c m).best_state (group_at s c n).best_state := by
  induction m with
  | zero =>
    have : n = 0 := by omega
    subst this
    exact at_least_as_good_refl _
  | succ m ih =>
    by_cases hnm : n = m + 1
    · subst hnm
      exact at_least_as_good_refl _
    · rw [group_at_best_succ]
      exact at_least_as_good_trans _ _ _ (foldl_champion_left _ _) (ih (by omega))

theorem run_follows (s0 : Search) (c t : Int) (c0 sh0 : Bool) (ins : List (Bool × Bool))
    (ht : t ∈ seed_tachometers) (hlen : (ins.length : Int) + 1 ≤ MAX_FRAMES)
    (hkeep : keeps_tachometer (init_state t c c0 sh0) ins)
    (hwin : (run_inputs (init_state t c c0 sh0) ins).distance ≥ MIN_WINNING_DISTANCE)
    (n : Nat) (hn : n ≤ ins.length) :
    ((group_at s0 c n).stop_configuration = false ∧
      Dominates (group_at s0 c n).states (run_inputs (init_state t c c0 sh0) (ins.take n)) ∧
      (run_inputs (init_state t c c0 sh0) (ins.take n)).distance < MIN_WINNING_DISTANCE) ∨
    ((group_at s0 c n).stop_configuration = true ∧
      (group_at s0 c n).best_state.timer ≤ (n : Int) + 1 ∧
      ((group_at s0 c n).best_state.timer = (n : Int) + 1 →
        (run_inputs (init_state t c c0 sh0) (ins.take n)).distance
          ≤ (group_at s0 c n).best_state.distance)) := by
  have hseed := seed_in_range t c c0 sh0 ht
  induction n with
  | zero =>
    left
    refine ⟨rfl, seed_dominated t c c0 sh0 ht, ?_⟩
    show (0 : Int) < MIN_WINNING_DISTANCE
    decide
  | succ n ih =>
    have hlt : n < ins.length := by omega
    rcases ih (by omega) with ⟨hstop, hdom, _⟩ | ⟨hstop, hbt, _⟩
    · rw [run_inputs_take_succ _ _ _ hlt]
      have ha := run_inputs_in_range _ (ins.take n) hseed (keeps_tachometer_take _ _ n hkeep)
      have hat : (run_inputs (init_state t c c0 sh0) (ins.take n)).timer = (n : Int) + 1 := by
        rw [run_inputs_timer, init_state_timer, List.length_take, min_eq_left (by omega)]
        ring
      have hrem := run_inputs_remaining _ ins (n + 1) hseed hkeep (by omega)
      have hb := keeps_tachometer_prefix _ ins n hkeep hlt
      rw [run_inputs_take_succ _ _ _ hlt] at hrem hb
      have hstep := dominate_step s0 c n _ (ins.get ⟨n, hlt⟩) ha hat
        (by simp only [MAX_FRAMES] at hlen ⊢; omega) hb
        (by
          simp only [MAX_FRAMES, MAX_SPEED, MIN_WINNING_DISTANCE] at *
          push_cast at hrem
          omega)
        hstop hdom
      have e : ((n + 1 : Nat) : Int) + 1 = (n : Int) + 2 := by push_cast; ring
      rw [e]
      exact hstep
    · right
      have hs : (group_at s0 c n).stop_configuration = true := hstop
      rw [group_at_succ, if_pos hs]
      refine ⟨hs, by push_cast; omega, fun h => ?_⟩
      push_cast at h
      omega

theorem group_champion_bound (s0 : Search) (c t : Int) (c0 sh0 : Bool)
    (ins : List (Bool × Bool))
    (ht : t ∈ seed_tachometers) (hlen : (ins.length : Int) + 1 ≤ MAX_FRAMES)
    (hkeep : keeps_tachometer (init_state t c c0 sh0) ins)
    (hwin : (run_inputs (init_state t c c0 sh0) ins).distance ≥ MIN_WINNING_DISTANCE) :
    (run_group s0 c).best_state.timer ≤ (ins.length : Int) + 1 ∧
    ((run_group s0 c).best_state.timer = (ins.length : Int) + 1 →
      (run_group s0 c).best_state.distance
        ≥ (run_inputs (init_state t c c0 sh0) ins).distance) := by
  have h := run_follows s0 c t c0 sh0 ins ht hlen hkeep hwin ins.length (le_refl _)
  rw [List.take_length] at h
  have hmono := group_at_best_mono s0 c ins.length MAX_FRAMES.toNat
    (by simp only [MAX_FRAMES] at hlen ⊢; omega)
  unfold run_group
  unfold at_least_as_good at hmono
  rcases h with ⟨_, _, hlt⟩ | ⟨_, h1, h2⟩
  · omega
  · constructor
    · omega
    · intro heq
      omega

/-! ## The champion at the end of the run -/

theorem run_from_append (s : Search) (a b : List Int) :
    run_from s (a ++ b) = run_from (run_from s a) b := by
  unfold run_from
  rw [List.foldl_append]

theorem run_group_best_mono (s : Search) (c : Int) :
    at_least_as_good (run_group s c).best_state s.best_state := by
  rw [run_group_best]
  exact foldl_champion_left _ _

theorem run_from_best_mono (gs : List Int) (s : Search) :
    at_least_as_good (run_from s gs).best_state s.best_state := by
  induction gs generalizing s with
  | nil => exact at_least_as_good_refl _
  | cons c cs ih =>
    rw [run_from_cons]
    exact at_least_as_good_trans _ _ _ (ih _) (run_group_best_mono s c)

theorem main_champion_bound (c t : Int) (c0 sh0 : Bool) (ins : List (Bool × Bool))
    (hc : c ∈ group_frame_counters)
    (ht : t ∈ seed_tachometers) (hlen : (ins.length : Int) + 1 ≤ MAX_FRAMES)
    (hkeep : keeps_tachometer (init_state t c c0 sh0) ins)
    (hwin : (run_inputs (init_state t c c0 sh0) ins).distance ≥ MIN_WINNING_DISTANCE) :
    main_search.best_state.timer ≤ (ins.length : Int) + 1 ∧
    (main_search.best_state.timer = (ins.length : Int) + 1 →
      main_search.best_state.distance
        ≥ (run_inputs (init_state t c c0 sh0) ins).distance) := by
  obtain ⟨a, b, hab⟩ := List.append_of_mem hc
  unfold main_search
  rw [run_groups_eq, hab, run_from_append, run_from_cons]
  have h := group_champion_bound (run_from initial_search a) c t c0 sh0 ins ht hlen hkeep hwin
  have hmono := run_from_best_mono b (run_group (run_from initial_search a) c)
  unfold at_least_as_good at hmono
  constructor
  · omega
  · intro heq
    omega

set_option maxRecDepth 1000000 in
theorem winning_inputs_win :
    keeps_tachometer (init_state 27 0 true true) winning_inputs ∧
    (run_inputs (init_state 27 0 true true) winning_inputs).distance = 24846 ∧
    (run_inputs (init_state 27 0 true true) winning_inputs).timer = 167 := by
  decide

set_option maxRecDepth 1000000 in
theorem winning_inputs_length : winning_inputs.length = 166 := by decide

theorem main_champion_wins :
    main_search.best_state.timer ≤ 167 ∧ main_search.best_state.distance ≥ MIN_WINNING_DISTANCE := by
  have h := main_champion_bound 0 27 true true winning_inputs (by decide) (by decide)
    (by rw [winning_inputs_length]; decide) winning_inputs_win.1
    (by rw [winning_inputs_win.2.1]; decide)
  rw [winning_inputs_length, winning_inputs_win.2.1] at h
  have hok : ChampionOK main_search.best_state := by
    unfold main_search
    rw [run_groups_eq]
    exact (run_from_champion _ initial_search sentinel_ok).1
  unfold ChampionOK at hok
  simp only [MAX_FRAMES, MIN_WINNING_DISTANCE] at *
  push_cast at h
  omega

theorem main_succeeds : ¬ main_fails := by
  unfold main_fails
  have := main_champion_wins.2
  simp only [MIN_WINNING_DISTANCE] at this
  omega

theorem frame_winners_produced (s : Search) (c : Int) (n : Nat) (w : GameState)
    (hw : w ∈ frame_winners s c n) : w ∈ frame_produced s c n := by
  unfold frame_winners at hw
  unfold frame_produced
  split_ifs at hw ⊢ with hs
  · exact hw
  · exact (List.mem_filter.1 hw).1

theorem group_winners_produced (s : Search) (c : Int) (w : GameState)
    (hw : w ∈ group_winners s c) : w ∈ group_produced s c := by
  unfold group_winners at hw
  unfold group_produced
  rw [List.mem_flatMap] at hw ⊢
  obtain ⟨n, hn, hwn⟩ := hw
  exact ⟨n, hn, frame_winners_produced s c n w hwn⟩

theorem winners_from_produced (gs : List Int) (s : Search) (w : GameState)
    (hw : w ∈ winners_from s gs) :
    w ∈ produced_from s gs ∧ w.distance ≥ MIN_WINNING_DISTANCE := by
  induction gs generalizing s with
  | nil => simp [winners_from] at hw
  | cons c cs ih =>
    simp only [winners_from, produced_from, List.mem_append] at hw ⊢
    rcases hw with h | h
    · exact ⟨Or.inl (group_winners_produced s c w h), group_winners_distance s c w h⟩
    · exact ⟨Or.inr (ih _ h).1, (ih _ h).2⟩

theorem run_groups_fail_iff (gs : List Int) :
    (run_groups gs).best_state.distance = 0
      ↔ ∀ w ∈ winners_from initial_search gs, ¬ w.timer ≤ MAX_FRAMES := by
  rw [run_groups_eq, (run_from_champion gs initial_search sentinel_ok).2]
  constructor
  · intro h w hw
    have := h.2 w hw
    omega
  · intro h
    refine ⟨rfl, fun w hw => ?_⟩
    have := h w hw
    omega

/-- C1. For every group `c` of the sweep and every seed of it (tachometer
among `seed_tachometers`, any clutch and shift), if a run of `k ≥ 1` inputs with
`k + 1 ≤ MAX_FRAMES` keeps the tachometer below 32 after every step and ends
with distance at least `MIN_WINNING_DISTANCE`, then the champion held after the
group has been processed (whatever the search record `s0` before the group) is
at least as good as the end state of that run: its timer is at most `k + 1`, and
if its timer is `k + 1` its distance is at least that of the end state. The same
holds for the champion at the end of `main`. No minimality of `k` is needed. -/
theorem search_optimal (s0 : Search) (c t : Int) (c0 sh0 : Bool) (ins : List (Bool × Bool))
    (hc : c ∈ group_frame_counters) (ht : t ∈ seed_tachometers)
    (_hk : 1 ≤ ins.length) (hlen : (ins.length : Int) + 1 ≤ MAX_FRAMES)
    (hkeep : keeps_tachometer (init_state t c c0 sh0) ins)
    (hwin : (run_inputs (init_state t c c0 sh0) ins).distance ≥ MIN_WINNING_DISTANCE) :
    ((run_group s0 c).best_state.timer ≤ (ins.length : Int) + 1 ∧
      ((run_group s0 c).best_state.timer = (ins.length : Int) + 1 →
        (run_group s0 c).best_state.distance
          ≥ (run_inputs (init_state t c c0 sh0) ins).distance)) ∧
    (main_search.best_state.timer ≤ (ins.length : Int) + 1 ∧
      (main_search.best_state.timer = (ins.length : Int) + 1 →
        main_search.best_state.distance
          ≥ (run_inputs (init_state t c c0 sh0) ins).distance)) :=
  ⟨group_champion_bound s0 c t c0 sh0 ins ht hlen hkeep hwin,
    main_champion_bound c t c0 sh0 ins hc ht hlen hkeep hwin⟩

/-- Witness for C1: the run `winning_inputs` from the seed with tachometer 27,
clutch and shift set, of the group with initial frame counter 0. -/
theorem search_optimal_witness :
    (0 : Int) ∈ group_frame_counters ∧ (27 : Int) ∈ seed_tachometers ∧
    1 ≤ winning_inputs.length ∧ (winning_inputs.length : Int) + 1 ≤ MAX_FRAMES ∧
    keeps_tachometer (init_state 27 0 true true) winning_inputs ∧
    (run_inputs (init_state 27 0 true true) winning_inputs).distance
      ≥ MIN_WINNING_DISTANCE ∧
    (run_group initial_search 0).best_state.timer ≤ (winning_inputs.length : Int) + 1 :=
  ⟨by decide, by decide, by rw [winning_inputs_length]; decide,
    by rw [winning_inputs_length]; decide, winning_inputs_win.1,
    by rw [winning_inputs_win.2.1]; decide,
    (search_optimal initial_search 0 27 true true winning_inputs (by decide) (by decide)
      (by rw [winning_inputs_length]; decide) (by rw [winning_inputs_length]; decide)
      winning_inputs_win.1 (by rw [winning_inputs_win.2.1]; decide)).1.1⟩

/-- C8. The champion is, at every point of the run, either at the sentinel
values (timer `MAX_FRAMES`, distance 0) or a state with distance at least
`MIN_WINNING_DISTANCE` and timer at most `MAX_FRAMES`: this holds for the
sentinel, is kept by every candidate the sweep processes (`offer`), and holds
after any number of frames of any group after any groups. Hence, for every list
of groups and for `main`, the test of line 295 succeeds exactly when every
candidate that reached the comparison of line 264 had a timer above
`MAX_FRAMES`; for `main` the same holds with all candidates the sweep produced,
feasible or not. A winner whose timer equals `MAX_FRAMES` replaces the
sentinel. -/
theorem champion_is_sentinel_or_winner :
    ChampionOK initial_search.best_state ∧
    (∀ (frame : Int) (s : Search) (cand : GameState),
      ChampionOK s.best_state → ChampionOK (offer frame s cand).best_state) ∧
    (∀ (gs : List Int) (c : Int) (n : Nat),
      ChampionOK (group_at (run_groups gs) c n).best_state) ∧
    (∀ gs : List Int, (run_groups gs).best_state.distance = 0
      ↔ ∀ w ∈ winners_from initial_search gs, ¬ w.timer ≤ MAX_FRAMES) ∧
    (main_fails
      ↔ ∀ w ∈ winners_from initial_search group_frame_counters, ¬ w.timer ≤ MAX_FRAMES) ∧
    (main_fails
      ↔ ∀ w ∈ produced_from initial_search group_frame_counters,
          ¬ (w.distance ≥ MIN_WINNING_DISTANCE ∧ w.timer ≤ MAX_FRAMES)) ∧
    (∀ (frame : Int) (s : Search) (cand : GameState),
      s.best_state.timer = MAX_FRAMES → s.best_state.distance = 0 →
      feasible frame cand → cand.distance ≥ MIN_WINNING_DISTANCE →
      cand.timer = MAX_FRAMES → (offer frame s cand).best_state = cand) := by
  have hmain : main_fails
      ↔ ∀ w ∈ winners_from initial_search group_frame_counters, ¬ w.timer ≤ MAX_FRAMES := by
    unfold main_fails main_search
    exact run_groups_fail_iff group_frame_counters
  refine ⟨sentinel_ok, offer_champion_ok, ?_, run_groups_fail_iff, hmain, ?_, ?_⟩
  · intro gs c n
    rw [run_groups_eq]
    exact group_at_champion_ok _ c n (run_from_champion gs initial_search sentinel_ok).1
  · constructor
    · intro h
      exact absurd h main_succeeds
    · intro h
      rw [hmain]
      intro w hw hle
      have hp := winners_from_produced _ _ w hw
      exact h w hp.1 ⟨hp.2, hle⟩
  · intro frame s cand ht hd hf hw hc
    rw [offer_best_state, if_pos ⟨hf, hw⟩]
    unfold champion_update beats
    rw [if_pos]
    right
    refine ⟨by rw [hc, ht], ?_⟩
    simp only [MIN_WINNING_DISTANCE] at hw
    rw [hd]
    show cand.distance > 0
    omega

set_option maxRecDepth 1000000 in
/-- The tachometer test of line 262 is needed for the distance bound: the
candidate of `edge_state` in frame 72 has tachometer 32 and speed 257, fails the
distance test, and would still cover `MIN_WINNING_DISTANCE` in the 95 remaining
frames. It is discarded by the tachometer test, and the sweep never holds a
state with speed above 253. -/
theorem distance_test_needs_tachometer_test :
    InRange edge_state ∧
    (game_step edge_state true true).tachometer = 32 ∧
    (game_step edge_state true true).distance + MAX_SPEED * (MAX_FRAMES - 72)
      < MIN_WINNING_DISTANCE ∧
    (edge_inputs.length : Int) ≤ MAX_FRAMES - 72 ∧
    keeps_tachometer (game_step edge_state true true) edge_inputs ∧
    (run_inputs (game_step edge_state true true) edge_inputs).distance
      ≥ MIN_WINNING_DISTANCE := by
  decide

/-! ## The speed update -/

theorem trunc_rat_intCast (n : Int) : trunc_rat (n : ℚ) = n := by
  unfold trunc_rat
  split_ifs <;> simp

theorem trunc_rat_half (t : Int) (ht : 0 ≤ t) : trunc_rat ((t : ℚ) * (2 : ℚ) ^ (-1 : Int)) = t / 2 := by
  unfold trunc_rat
  have h0 : (0 : ℚ) ≤ (t : ℚ) * (2 : ℚ) ^ (-1 : Int) := by
    have : (0 : ℚ) ≤ (t : ℚ) := by exact_mod_cast ht
    positivity
  rw [if_pos h0]
  have e : (t : ℚ) * (2 : ℚ) ^ (-1 : Int) = (t : ℚ) / ((2 : Nat) : ℚ) := by
    rw [zpow_neg_one]; push_cast; ring
  rw [e, Rat.floor_intCast_div_natCast]
  rfl

theorem speed_limit_values (t g : Int) (ht : 0 ≤ t) (h0 : 0 ≤ g) (h1 : g ≤ 4) :
    (g = 0 → speed_limit t g = t / 2) ∧
    (g = 1 → speed_limit t g = t) ∧
    (g = 2 → speed_limit t g = if t ≥ 20 then 2 * t + 1 else 2 * t) ∧
    (g = 3 → speed_limit t g = if t ≥ 20 then 4 * t + 2 else 4 * t) ∧
    (g = 4 → speed_limit t g = if t ≥ 20 then 8 * t + 4 else 8 * t) := by
  have e2 : Int.toNat 2 = 2 := rfl
  have e3 : Int.toNat 3 = 3 := rfl
  rw [speed_limit_cases t g ht h0 h1]
  refine ⟨?_, ?_, ?_, ?_, ?_⟩ <;> rintro rfl
  · simp
  · simp
  · by_cases h : 20 ≤ t <;> simp [h] <;> ring
  · by_cases h : 20 ≤ t <;> simp [h, e2] <;> ring
  · by_cases h : 20 ≤ t <;> simp [h, e2, e3] <;> ring

theorem speed_limit_eq_exact (t g : Int) (ht : 0 ≤ t) (h0 : 0 ≤ g) (h1 : g ≤ 4) :
    speed_limit t g = speed_limit_exact t g := by
  have hv := speed_limit_values t g ht h0 h1
  have e2 : Int.toNat 2 = 2 := rfl
  unfold speed_limit_exact
  have hg : g = 0 ∨ g = 1 ∨ g = 2 ∨ g = 3 ∨ g = 4 := by omega
  rcases hg with rfl | rfl | rfl | rfl | rfl
  · rw [hv.1 rfl]
    have := trunc_rat_half t ht
    simp only [zero_sub, this]
    simp
  · rw [hv.2.1 rfl]
    have := trunc_rat_intCast t
    simp [this]
  · rw [hv.2.2.1 rfl]
    have := trunc_rat_intCast (2 * t)
    push_cast at this
    have e : (t : ℚ) * (2 : ℚ) ^ ((2 : Int) - 1) = 2 * (t : ℚ) := by norm_num; ring
    rw [e, this]
    by_cases h : 20 ≤ t <;> simp [h]
  · rw [hv.2.2.2.1 rfl]
    have := trunc_rat_intCast (4 * t)
    push_cast at this
    have e : (t : ℚ) * (2 : ℚ) ^ ((3 : Int) - 1) = 4 * (t : ℚ) := by norm_num; ring
    rw [e, this]
    by_cases h : 20 ≤ t <;> simp [h]
  · rw [hv.2.2.2.2 rfl]
    have := trunc_rat_intCast (8 * t)
    push_cast at this
    have e : (t : ℚ) * (2 : ℚ) ^ ((4 : Int) - 1) = 8 * (t : ℚ) := by norm_num; ring
    rw [e, this]
    by_cases h : 20 ≤ t <;> simp [h, e2]

/-! ## The shift input acts in the next frame -/

/-- C14. For a state with timer in `[1, MAX_FRAMES]` and a clutch value, the
steps with shift 0 and with shift 1 agree on every field except the input slot
`inputs[timer]`, where each records its own input. Gear, tachometer,
tachometer difference and speed of the step are computed from `last_shift s`,
the shift bit recorded at `inputs[timer - 1]`, which is the bit `hash_state s`
packs; the shift of this step is the bit the next step will consult. -/
theorem shift_acts_one_frame_late (s : GameState) (clutch : Bool)
    (h : 1 ≤ s.timer ∧ s.timer ≤ MAX_FRAMES) :
    ((game_step s clutch false).timer = (game_step s clutch true).timer ∧
      (game_step s clutch false).frame_counter = (game_step s clutch true).frame_counter ∧
      (game_step s clutch false).tachometer = (game_step s clutch true).tachometer ∧
      (game_step s clutch false).tachometer_diff
        = (game_step s clutch true).tachometer_diff ∧
      (game_step s clutch false).distance = (game_step s clutch true).distance ∧
      (game_step s clutch false).speed = (game_step s clutch true).speed ∧
      (game_step s clutch false).gear = (game_step s clutch true).gear ∧
      (game_step s clutch false).initial_tachometer
        = (game_step s clutch true).initial_tachometer ∧
      (game_step s clutch false).initial_frame_counter
        = (game_step s clutch true).initial_frame_counter) ∧
    (∀ j : Int, j ≠ s.timer →
      read_input (game_step s clutch false).inputs j
        = read_input (game_step s clutch true).inputs j) ∧
    (∀ shift : Bool,
      read_input (game_step s clutch shift).inputs s.timer = input_byte clutch shift ∧
      last_shift (game_step s clutch shift) = shift) ∧
    (∀ shift : Bool,
      (game_step s clutch shift).gear = next_gear (last_shift s) s.gear ∧
      (game_step s clutch shift).tachometer
        = next_tachometer (last_shift s) clutch
            (Int.tmod (s.frame_counter + 2) MAX_FRAME_COUNTER)
            (next_gear (last_shift s) s.gear) s.tachometer s.tachometer_diff ∧
      (game_step s clutch shift).tachometer_diff
        = next_tachometer_diff (last_shift s)
            (speed_limit (game_step s clutch shift).tachometer
              (game_step s clutch shift).gear) s.speed ∧
      (game_step s clutch shift).speed
        = next_speed (last_shift s) (game_step s clutch shift).gear
            (speed_limit (game_step s clutch shift).tachometer
              (game_step s clutch shift).gear) s.speed) ∧
    last_shift s = shift_bit (read_input s.inputs (s.timer - 1)) ∧
    hash_state s = (if last_shift s then 1 else 0) + 2 * s.gear + 10 * s.speed
      + 2560 * s.tachometer + 81920 * s.tachometer_diff := by
  have hg : ∀ sh, (game_step s clutch sh).gear = next_gear (last_shift s) s.gear :=
    fun sh => game_step_gear s clutch sh
  have ht := fun sh => game_step_tachometer s clutch sh
  have hd := fun sh => game_step_tachometer_diff s clutch sh
  have hsp := fun sh => game_step_speed s clutch sh
  have hdist := fun sh => game_step_distance s clutch sh
  have hlen : s.timer < INPUTS_LEN := by
    have := h.2
    simp only [MAX_FRAMES] at this
    simp only [INPUTS_LEN]
    omega
  refine ⟨⟨rfl, rfl, ?_, ?_, ?_, ?_, ?_, rfl, rfl⟩, ?_, ?_, ?_, rfl, hash_state_eq s⟩
  · rw [ht, ht]
  · rw [hd, hd, ht, ht, hg, hg]
  · rw [hdist, hdist, hsp, hsp, ht, ht, hg, hg]
  · rw [hsp, hsp, ht, ht, hg, hg]
  · rw [hg, hg]
  · intro j hj
    rw [game_step_inputs, game_step_inputs, read_write_ne _ _ _ _ (Ne.symm hj),
      read_write_ne _ _ _ _ (Ne.symm hj)]
  · intro sh
    refine ⟨?_, game_step_last_shift s clutch sh (by omega) h.2⟩
    rw [game_step_inputs, read_write_same _ _ _ (by omega) hlen]
  · intro sh
    exact ⟨hg sh, ht sh, hd sh, hsp sh⟩

/-- Witness for C14 at `c2_left`: the two steps differ in the recorded input
only. -/
theorem shift_acts_one_frame_late_witness :
    (1 ≤ c2_left.timer ∧ c2_left.timer ≤ MAX_FRAMES) ∧
    (game_step c2_left true false).gear = (game_step c2_left true true).gear ∧
    read_input (game_step c2_left true true).inputs c2_left.timer = 3 ∧
    read_input (game_step c2_left true false).inputs c2_left.timer = 1 :=
  ⟨by decide,
    (shift_acts_one_frame_late c2_left true (by decide)).1.2.2.2.2.2.2.1,
    by decide, by decide⟩

/-! ## Congruence along a run -/

theorem run_congruence (ins : List (Bool × Bool)) (s u : GameState)
    (hs0 : 0 ≤ s.timer) (hs1 : s.timer + ins.length ≤ MAX_FRAMES + 1)
    (hu0 : 0 ≤ u.timer) (hu1 : u.timer + ins.length ≤ MAX_FRAMES + 1)
    (hk : KeyFields s u) (hfc : s.frame_counter = u.frame_counter) :
    KeyFields (run_inputs s ins) (run_inputs u ins) ∧
    (run_inputs s ins).frame_counter = (run_inputs u ins).frame_counter ∧
    (run_inputs s ins).distance - s.distance = (run_inputs u ins).distance - u.distance := by
  induction ins generalizing s u with
  | nil => exact ⟨hk, hfc, by simp [run_inputs_nil]⟩
  | cons x xs ih =>
    simp only [List.length_cons, MAX_FRAMES] at hs1 hu1
    push_cast at hs1 hu1
    have h1 := step_congruence s u x.1 x.2 hs0 (by simp only [MAX_FRAMES]; omega) hu0
      (by simp only [MAX_FRAMES]; omega) hk hfc
    rw [run_inputs_cons, run_inputs_cons]
    have h2 := ih (game_step s x.1 x.2) (game_step u x.1 x.2)
      (by rw [game_step_timer]; omega)
      (by rw [game_step_timer]; simp only [MAX_FRAMES]; omega)
      (by rw [game_step_timer]; omega)
      (by rw [game_step_timer]; simp only [MAX_FRAMES]; omega) h1.1 h1.2.1
    refine ⟨h2.1, h2.2.1, ?_⟩
    have := h1.2.2
    have := h2.2.2
    omega

/-! ## Seeding -/

theorem hash_state_init (t c : Int) (cl sh : Bool) :
    hash_state (init_state t c cl sh) = (if sh then 1 else 0) + 2560 * t := by
  rw [hash_state_eq, init_state_last_shift]
  simp [init_state, zero_state, INITIAL_GEAR, INITIAL_SPEED]

theorem seed_keys_equal_iff (t t' c : Int) (cl cl' sh sh' : Bool) :
    hash_state (init_state t c cl sh) = hash_state (init_state t' c cl' sh')
      ↔ t = t' ∧ sh = sh' := by
  rw [hash_state_init, hash_state_init]
  cases sh <;> cases sh' <;> simp <;> omega

theorem foldl_last_write {α β : Type} (Q : β → Prop) (f : β → α → β) (l1 l2 : List α) (x : α)
    (b : β) (hest : ∀ b, Q (f b x)) (hpres : ∀ b a, a ∈ l2 → Q b → Q (f b a)) :
    Q ((l1 ++ x :: l2).foldl f b) := by
  rw [List.foldl_append, List.foldl_cons]
  exact foldl_invariant Q f l2 _ (hest _) hpres

theorem put_seed_other_key (c : Int) (T : Int → GameState) (t : Int) (cl sh : Bool) (K : Int)
    (h : hash_state (init_state t c cl sh) ≠ K) : put_seed c T t cl sh K = T K := by
  unfold put_seed
  rw [if_neg (fun e => h e.symm)]

theorem put_seed_own_key (c : Int) (T : Int → GameState) (t : Int) (cl sh : Bool) :
    put_seed c T t cl sh (hash_state (init_state t c cl sh)) = init_state t c cl sh := by
  unfold put_seed
  rw [if_pos rfl]

theorem seed_table_at (c t : Int) (cl sh : Bool) (ht : t ∈ seed_tachometers) :
    seed_table c (hash_state (init_state t c cl sh)) = init_state t c true sh := by
  have hkey : hash_state (init_state t c cl sh) = hash_state (init_state t c true sh) :=
    (seed_keys_equal_iff t t c cl true sh sh).2 ⟨rfl, rfl⟩
  rw [hkey]
  obtain ⟨l1, l2, hl⟩ := List.append_of_mem ht
  have hnd : seed_tachometers.Nodup := by decide
  have ht2 : t ∉ l2 := by
    rw [hl] at hnd
    have := (List.nodup_append.1 hnd).2.1
    exact (List.nodup_cons.1 this).1
  unfold seed_table
  rw [hl]
  refine foldl_last_write
    (fun T : Int → GameState => T (hash_state (init_state t c true sh)) = init_state t c true sh)
    _ l1 l2 t _ ?_ ?_
  · intro T
    refine foldl_last_write
      (fun T : Int → GameState =>
        T (hash_state (init_state t c true sh)) = init_state t c true sh)
      _ [false] [] true _ ?_ (fun _ _ h => absurd h (List.not_mem_nil _))
    intro T
    cases sh
    · refine foldl_last_write
        (fun T : Int → GameState =>
          T (hash_state (init_state t c true false)) = init_state t c true false)
        _ [] [true] false _ (fun T => put_seed_own_key c T t true false) ?_
      intro T a ha hT
      rw [List.mem_singleton] at ha
      subst ha
      rw [put_seed_other_key _ _ _ _ _ _ (by rw [Ne, seed_keys_equal_iff]; simp), hT]
    · exact foldl_last_write
        (fun T : Int → GameState =>
          T (hash_state (init_state t c true true)) = init_state t c true true)
        _ [false] [] true _ (fun T => put_seed_own_key c T t true true)
        (fun _ _ h => absurd h (List.not_mem_nil _))
  · intro T t' ht' hT
    have hne : t' ≠ t := fun e => ht2 (e ▸ ht')
    refine foldl_invariant
      (fun T : Int → GameState =>
        T (hash_state (init_state t c true sh)) = init_state t c true sh) _ _ _ hT ?_
    intro T cl' _ hT
    refine foldl_invariant
      (fun T : Int → GameState =>
        T (hash_state (init_state t c true sh)) = init_state t c true sh) _ _ _ hT ?_
    intro T sh' _ hT
    rw [put_seed_other_key _ _ _ _ _ _
      (by rw [Ne, seed_keys_equal_iff]; exact fun h => hne h.1), hT]

theorem seed_table_entries (c : Int) (K : Int) :
    seed_table c K = zero_state ∨
      ∃ t ∈ seed_tachometers, ∃ cl sh, seed_table c K = init_state t c cl sh ∧
        hash_state (init_state t c cl sh) = K := by
  unfold seed_table
  refine foldl_invariant
    (fun T : Int → GameState => T K = zero_state ∨
      ∃ t ∈ seed_tachometers, ∃ cl sh, T K = init_state t c cl sh ∧
        hash_state (init_state t c cl sh) = K) _ _ _ (Or.inl rfl) ?_
  intro T t ht hT
  refine foldl_invariant
    (fun T : Int → GameState => T K = zero_state ∨
      ∃ t ∈ seed_tachometers, ∃ cl sh, T K = init_state t c cl sh ∧
        hash_state (init_state t c cl sh) = K) _ _ _ hT ?_
  intro T cl _ hT
  refine foldl_invariant
    (fun T : Int → GameState => T K = zero_state ∨
      ∃ t ∈ seed_tachometers, ∃ cl sh, T K = init_state t c cl sh ∧
        hash_state (init_state t c cl sh) = K) _ _ _ hT ?_
  intro T sh _ hT
  by_cases hK : hash_state (init_state t c cl sh) = K
  · right
    refine ⟨t, ht, cl, sh, ?_, hK⟩
    rw [← hK, put_seed_own_key]
  · rw [put_seed_other_key _ _ _ _ _ _ hK]
    exact hT

theorem mem_seed_keys (K : Int) :
    K ∈ seed_keys ↔ ∃ t ∈ seed_tachometers, ∃ sh : Bool, K = (if sh then 1 else 0) + 2560 * t := by
  unfold seed_keys
  rw [List.mem_flatMap]
  constructor
  · rintro ⟨t, ht, hK⟩
    simp only [List.mem_cons, List.mem_singleton, List.not_mem_nil, or_false] at hK
    rcases hK with rfl | rfl
    · exact ⟨t, ht, false, by simp⟩
    · exact ⟨t, ht, true, by simp⟩
  · rintro ⟨t, ht, sh, rfl⟩
    refine ⟨t, ht, ?_⟩
    cases sh <;> simp

theorem seed_table_occupied_iff (c K : Int) :
    (seed_table c K).timer ≠ 0 ↔ K ∈ seed_keys := by
  rw [mem_seed_keys]
  constructor
  · intro h
    rcases seed_table_entries c K with h0 | ⟨t, ht, cl, sh, _, hK⟩
    · rw [h0] at h
      exact absurd rfl h
    · exact ⟨t, ht, sh, by rw [← hK, hash_state_init]⟩
  · rintro ⟨t, ht, sh, rfl⟩
    rw [← hash_state_init t c true sh, seed_table_at c t true sh ht, init_state_timer]
    decide

/-! ## Seeds that share a key, and candidates of equal distance -/

theorem init_state_clutch (t c : Int) (cl sh : Bool) :
    clutch_bit (read_input (init_state t c cl sh).inputs 0) = cl := by
  rw [init_state_read_zero, clutch_bit_input_byte]

theorem init_state_clutch_ne (t c : Int) (sh : Bool) :
    init_state t c true sh ≠ init_state t c false sh := by
  intro h
  have := congrArg (fun s => clutch_bit (read_input s.inputs 0)) h
  simp only [init_state_clutch] at this
  exact absurd this (by decide)

/-- C11, refuted as stated. In the group with initial frame counter 0 the seed
tuples `(0, 0, 0)` and `(0, 1, 0)` are distinct and have the same key; after
seeding, the slot of that key holds the seed with clutch 1, and no slot holds
the seed with clutch 0. -/
theorem seeds_with_equal_key :
    ((0 : Int), false, false) ≠ ((0 : Int), true, false) ∧
    hash_state (init_state 0 0 false false) = hash_state (init_state 0 0 true false) ∧
    seed_table 0 (hash_state (init_state 0 0 false false)) = init_state 0 0 true false ∧
    (∀ K, seed_table 0 K ≠ init_state 0 0 false false) := by
  refine ⟨by decide, (seed_keys_equal_iff 0 0 0 false true false false).2 ⟨rfl, rfl⟩,
    seed_table_at 0 0 false false (by decide), ?_⟩
  intro K h
  have hK : hash_state (init_state 0 0 false false) = K := by
    rcases seed_table_ok 0 K with h0 | hl
    · rw [h0] at h
      exact absurd (congrArg GameState.timer h) (by decide)
    · rw [← h]
      exact hl.key_eq
  rw [← hK, seed_table_at 0 0 false false (by decide)] at h
  exact init_state_clutch_ne 0 0 false h

/-- C11, amended. Within one group two seed tuples have the same key exactly
when they agree on tachometer and shift: the clutch bit of `inputs[0]` is not
part of the key. After seeding, the slot of the key of a seed tuple holds the
seed with the same tachometer and shift and clutch 1, which agrees with the
seed of the tuple on the key fields, timer, frame counter and distance; the
occupied slots of generation table 0 are the 22 keys of `seed_keys`. -/
theorem seeding_keys (c t : Int) (clutch shift : Bool) (ht : t ∈ seed_tachometers) :
    (∀ (t' : Int) (clutch' shift' : Bool),
      hash_state (init_state t c clutch shift) = hash_state (init_state t' c clutch' shift')
        ↔ t = t' ∧ shift = shift') ∧
    seed_table c (hash_state (init_state t c clutch shift)) = init_state t c true shift ∧
    (KeyFields (init_state t c true shift) (init_state t c clutch shift) ∧
      (init_state t c true shift).timer = (init_state t c clutch shift).timer ∧
      (init_state t c true shift).frame_counter
        = (init_state t c clutch shift).frame_counter ∧
      (init_state t c true shift).distance = (init_state t c clutch shift).distance) ∧
    (seed_keys.length = 22 ∧ seed_keys.Nodup ∧
      ∀ K, (seed_table c K).timer ≠ 0 ↔ K ∈ seed_keys) := by
  refine ⟨fun t' cl' sh' => seed_keys_equal_iff t t' c clutch cl' shift sh',
    seed_table_at c t clutch shift ht, ⟨⟨?_, rfl, rfl, rfl, rfl⟩, rfl, rfl, rfl⟩,
    by decide, by decide, seed_table_occupied_iff c⟩
  rw [init_state_last_shift, init_state_last_shift]

/-- Witness for the amended C11: the seed tuple `(27, 0, 1)` of the group with
initial frame counter 0 is represented by the seed `(27, 1, 1)`. -/
theorem seeding_keys_witness :
    (27 : Int) ∈ seed_tachometers ∧
    seed_table 0 (hash_state (init_state 27 0 false true)) = init_state 27 0 true true :=
  ⟨by decide, (seeding_keys 0 27 false true (by decide)).2.1⟩

set_option maxRecDepth 100000 in
/-- C15, refuted as stated. In frame 1 of the group with initial frame counter
0, `c15_first` and `c15_second` both pass the feasibility test, neither wins,
and they have the same key and the same distance 0. After `c15_first` has been
stored, offering `c15_second` replaces it. -/
theorem equal_distance_replaces :
    feasible 1 c15_first ∧ feasible 1 c15_second ∧
    ¬ wins 1 c15_first ∧ ¬ wins 1 c15_second ∧
    hash_state c15_first = hash_state c15_second ∧
    c15_first.distance = c15_second.distance ∧
    c15_first ≠ c15_second ∧
    (offer 1 initial_search c15_first).next_states (hash_state c15_second) = c15_first ∧
    (offer 1 (offer 1 initial_search c15_first) c15_second).next_states
        (hash_state c15_second) = c15_second := by
  decide

/-- C15, amended. A candidate that passed the feasibility test, winning or not,
is written into the slot of its key exactly when its distance is at least the
distance stored there (0 in an empty slot); otherwise the slot is unchanged. On
equal distance the candidate replaces the stored state. No other slot changes,
and an infeasible candidate changes no slot. -/
theorem dedup_insertion_rule (frame : Int) (s : Search) (cand : GameState)
    (hf : feasible frame cand) :
    (offer frame s cand).next_states (hash_state cand)
      = (if cand.distance ≥ (s.next_states (hash_state cand)).distance then cand
         else s.next_states (hash_state cand)) ∧
    (cand.distance = (s.next_states (hash_state cand)).distance →
      (offer frame s cand).next_states (hash_state cand) = cand) ∧
    (∀ K, K ≠ hash_state cand → (offer frame s cand).next_states K = s.next_states K) ∧
    (∀ other : GameState, ¬ feasible frame other →
      (offer frame s other).next_states = s.next_states) := by
  have h := offer_next_states frame s cand
  rw [if_pos hf] at h
  refine ⟨?_, ?_, ?_, ?_⟩
  · rw [h, merge_state_apply]
    simp
  · intro he
    rw [h, merge_state_apply, if_pos ⟨rfl, by omega⟩]
  · intro K hK
    rw [h, merge_state_apply, if_neg (fun hc => hK hc.1.symm)]
  · intro other ho
    rw [offer_next_states, if_neg ho]

set_option maxRecDepth 100000 in
/-- Witness for the amended C15: `c15_second` offered after `c15_first`. -/
theorem dedup_insertion_rule_witness :
    feasible 1 c15_second ∧
    c15_second.distance
      = ((offer 1 initial_search c15_first).next_states (hash_state c15_second)).distance ∧
    (offer 1 (offer 1 initial_search c15_first) c15_second).next_states
        (hash_state c15_second) = c15_second :=
  ⟨by decide, by decide,
    (dedup_insertion_rule 1 (offer 1 initial_search c15_first) c15_second (by decide)).2.1
      (by decide)⟩

/-! ## Generations of a group -/

theorem group_frame_counter_closed (c : Int) (n : Nat) (h0 : 0 ≤ c) (h1 : c < 16) :
    group_frame_counter c n = (c + 2 * (n : Int)) % 16 := by
  induction n with
  | zero =>
    simp only [group_frame_counter, Nat.cast_zero, mul_zero, add_zero]
    omega
  | succ n ih =>
    simp only [group_frame_counter, MAX_FRAME_COUNTER]
    rw [ih, Int.tmod_eq_emod (by omega) (by omega)]
    push_cast
    omega

theorem group_frame_counters_range (c : Int) (h : c ∈ group_frame_counters) :
    0 ≤ c ∧ c < 16 := by
  simp only [group_frame_counters, List.mem_cons, List.mem_singleton, List.not_mem_nil,
    or_false] at h
  omega

theorem slot_candidates_due (f : Int) (T : Int → GameState) (i : Int)
    (h : (T i).timer = f) :
    slot_candidates f T i = input_pairs.map fun p => game_step (T i) p.1 p.2 := by
  unfold slot_candidates
  rw [if_pos h]

theorem slot_candidates_not_due (f : Int) (T : Int → GameState) (i : Int)
    (h : (T i).timer ≠ f) : slot_candidates f T i = [] := by
  unfold slot_candidates
  rw [if_neg h]

/-- C20. At the start of sweep frame `f = n + 1` (`1 ≤ f ≤ MAX_FRAMES`, the loop
not stopped) of the group with initial frame counter `c`, every occupied slot
`i` of the current table holds a state with timer `f`, frame counter
`(c + 2 * (f - 1)) mod 16`, initial frame counter `c` and key `i`. Hence the slot
is expanded in frame `f` and in no other frame, and all feasible candidates of
the frame, in particular those that share a key, have the same frame counter. -/
theorem generation_uniform (s0 : Search) (c : Int) (n : Nat) (i : Int)
    (hc : c ∈ group_frame_counters) (_hn : (n : Int) + 1 ≤ MAX_FRAMES)
    (hstop : (group_at s0 c n).stop_configuration = false)
    (hocc : ((group_at s0 c n).states i).timer ≠ 0) :
    ((group_at s0 c n).states i).timer = (n : Int) + 1 ∧
    ((group_at s0 c n).states i).frame_counter = (c + 2 * (((n : Int) + 1) - 1)) % 16 ∧
    ((group_at s0 c n).states i).initial_frame_counter = c ∧
    hash_state ((group_at s0 c n).states i) = i ∧
    slot_candidates ((n : Int) + 1) (group_at s0 c n).states i
      = (input_pairs.map fun p => game_step ((group_at s0 c n).states i) p.1 p.2) ∧
    (∀ f : Int, f ≠ (n : Int) + 1 → slot_candidates f (group_at s0 c n).states i = []) ∧
    (∀ x ∈ feasible_candidates ((n : Int) + 1) (group_at s0 c n).states,
      ∀ y ∈ feasible_candidates ((n : Int) + 1) (group_at s0 c n).states,
        x.frame_counter = y.frame_counter ∧ x.timer = y.timer) := by
  have hT := (group_at_tables s0 c n).2 hstop
  have hr := group_frame_counters_range c hc
  rcases hT i with h0 | hl
  · rw [h0] at hocc
    exact absurd rfl hocc
  · refine ⟨hl.timer_eq, ?_, hl.initial_eq, hl.key_eq,
      slot_candidates_due _ _ _ hl.timer_eq, ?_, ?_⟩
    · rw [hl.frame_counter_eq, group_frame_counter_closed c n hr.1 hr.2]
      congr 2
      ring
    · intro f hf
      exact slot_candidates_not_due _ _ _ (by rw [hl.timer_eq]; exact fun h => hf h.symm)
    · intro x hx y hy
      have hx' := feasible_candidate_live c n _ hT x hx
      have hy' := feasible_candidate_live c n _ hT y hy
      exact ⟨by rw [hx'.frame_counter_eq, hy'.frame_counter_eq],
        by rw [hx'.timer_eq, hy'.timer_eq]⟩

/-- Witness for C20: the slot of the seed with tachometer 27 and shift set at
the start of the first frame of the first group. -/
theorem generation_uniform_witness :
    (0 : Int) ∈ group_frame_counters ∧
    (group_at initial_search 0 0).stop_configuration = false ∧
    ((group_at initial_search 0 0).states 69121).timer ≠ 0 ∧
    hash_state ((group_at initial_search 0 0).states 69121) = 69121 :=
  ⟨by decide, rfl, by decide,
    (generation_uniform initial_search 0 0 69121 (by decide) (by decide) rfl
      (by decide)).2.2.2.1⟩

/-! ## The timers on which `game_step` and `hash_state` are called -/

theorem debug_frame_timer (s : GameState) (frame : Nat) :
    (debug_frame s frame).timer = (frame : Int) + 1 := by
  induction frame with
  | zero => rfl
  | succ k ih =>
    simp only [debug_frame, game_step_timer, ih]
    push_cast
    ring

/-- C17. Every `game_step` call of the sweep is applied to a state whose timer
is the frame number, in `[1, MAX_FRAMES]`: each candidate of frame `n + 1`
(`n < MAX_FRAMES`) comes from a slot in `[0, MAX_STATES)` whose state has timer
`n + 1`, so the write index `timer` and the read index `timer + 1 - 2` are in
`[0, MAX_FRAMES]`. The same holds for the call of `debug_state` in frame `f` of
its loop (`1 ≤ f ≤ MAX_FRAMES`), whose working copy has timer `f`. `hash_state`
is called on seeds, whose timer is 1, and on feasible candidates, whose timer is
`n + 2`; an empty slot has timer 0. -/
theorem inputs_within_capacity (s0 : Search) (c : Int) (n : Nat) (w : GameState)
    (hn : n < MAX_FRAMES.toNat)
    (hw : w ∈ frame_candidates ((n : Int) + 1) (group_at s0 c n).states) :
    (∃ (index : Int) (clutch shift : Bool),
      (0 ≤ index ∧ index < MAX_STATES) ∧
      w = game_step ((group_at s0 c n).states index) clutch shift ∧
      ((group_at s0 c n).states index).timer = (n : Int) + 1 ∧
      (1 ≤ ((group_at s0 c n).states index).timer ∧
        ((group_at s0 c n).states index).timer ≤ MAX_FRAMES) ∧
      (0 ≤ ((group_at s0 c n).states index).timer + 1 - 2 ∧
        ((group_at s0 c n).states index).timer + 1 - 2 ≤ MAX_FRAMES)) ∧
    (∀ (s : GameState) (f : Nat), 1 ≤ f → (f : Int) ≤ MAX_FRAMES →
      debug_frame s f
        = game_step (debug_frame s (f - 1))
            (clutch_bit (read_input s.inputs (Int.ofNat f)))
            (shift_bit (read_input s.inputs (Int.ofNat f))) ∧
      (debug_frame s (f - 1)).timer = (f : Int) ∧
      (1 ≤ (debug_frame s (f - 1)).timer ∧ (debug_frame s (f - 1)).timer ≤ MAX_FRAMES)) ∧
    (∀ (t : Int) (c0 sh0 : Bool), (init_state t c c0 sh0).timer = 1) ∧
    (w.timer = (n : Int) + 2 ∧ 1 ≤ w.timer) ∧
    zero_state.timer = 0 := by
  have hn' : (n : Int) + 1 ≤ 167 := by
    simp only [MAX_FRAMES] at hn
    have : n < 167 := hn
    omega
  have hw' := hw
  rw [mem_frame_candidates] at hw'
  obtain ⟨index, hi, ht, cl, sh, hw'⟩ := hw'
  refine ⟨⟨index, cl, sh, hi, hw', ht, ?_, ?_⟩, ?_, fun _ _ _ => rfl, ?_, rfl⟩
  · rw [ht]; simp only [MAX_FRAMES]; omega
  · rw [ht]; simp only [MAX_FRAMES]; omega
  · intro s f hf1 hf2
    obtain ⟨k, rfl⟩ : ∃ k, f = k + 1 := ⟨f - 1, by omega⟩
    simp only [Nat.add_sub_cancel]
    refine ⟨rfl, ?_, ?_⟩
    · rw [debug_frame_timer]; push_cast; ring
    · rw [debug_frame_timer]
      push_cast at hf2
      omega
  · have := frame_candidate_timer _ _ w hw
    omega

/-- Witness for C17: the first candidate of the first frame of the first group,
from the slot of the seed with tachometer 0 and shift clear. -/
theorem inputs_within_capacity_witness :
    (0 : Nat) < MAX_FRAMES.toNat ∧
    (game_step ((group_at initial_search 0 0).states 0) false false).timer
      = ((0 : Nat) : Int) + 2 :=
  ⟨by decide,
    (inputs_within_capacity initial_search 0 0
      (game_step ((group_at initial_search 0 0).states 0) false false) (by decide)
      ((mem_frame_candidates _ _ _).2
        ⟨0, by decide, by decide, false, false, rfl⟩)).2.2.2.1.1⟩

/-! ## The replay of `debug_state` -/

theorem debug_start_fields (s : GameState) :
    (debug_start s).timer = 1 ∧
    (debug_start s).frame_counter = s.initial_frame_counter ∧
    (debug_start s).tachometer = s.initial_tachometer ∧
    (debug_start s).speed = INITIAL_SPEED ∧
    (debug_start s).gear = INITIAL_GEAR ∧
    (debug_start s).distance = 0 ∧
    (debug_start s).tachometer_diff = s.tachometer_diff :=
  ⟨rfl, rfl, rfl, rfl, rfl, rfl, rfl⟩

/-- C16, the code at the failing input. `debug_state` resets timer, frame
counter, tachometer, speed, gear and distance of its working copy to the values
of `init_state`, but not the tachometer difference, which stays that of the
state passed in. For `c16_state` (timer 3, tachometer 26, tachometer difference
1) the working copy starts with tachometer difference 1 where `init_state` has
0, and after `timer - 1 = 2` steps it holds tachometer 25, not 26. -/
theorem debug_state_keeps_tachometer_diff :
    (∀ s : GameState,
      (debug_start s).timer = 1 ∧
      (debug_start s).frame_counter = s.initial_frame_counter ∧
      (debug_start s).tachometer = s.initial_tachometer ∧
      (debug_start s).speed = INITIAL_SPEED ∧
      (debug_start s).gear = INITIAL_GEAR ∧
      (debug_start s).distance = 0 ∧
      (debug_start s).tachometer_diff = s.tachometer_diff) ∧
    c16_state.timer = 3 ∧ c16_state.tachometer = 26 ∧ c16_state.tachometer_diff = 1 ∧
    (debug_start c16_state).tachometer_diff = 1 ∧
    (init_state c16_state.initial_tachometer c16_state.initial_frame_counter
      (clutch_bit (read_input c16_state.inputs 0))
      (shift_bit (read_input c16_state.inputs 0))).tachometer_diff = 0 ∧
    (debug_frame c16_state 2).tachometer = 25 ∧
    (debug_frame c16_state 2).tachometer ≠ c16_state.tachometer :=
  ⟨debug_start_fields, by decide, by decide, by decide, by decide, by decide, by decide,
    by decide⟩

/-! ## A win does not end the frame -/

theorem expand_frame_champion_member (f : Int) (s : Search) (w : GameState)
    (hw : w ∈ frame_candidates f s.states) (hwin : wins f w) :
    at_least_as_good (expand_frame f s).best_state w := by
  rw [expand_frame_best_state]
  exact foldl_champion_member _ _ w (List.mem_filter.2 ⟨hw, decide_eq_true hwin⟩)

set_option maxRecDepth 100000 in
/-- C12, refuted as stated. In frame 166 over `c12_table` the first winner in
slot order is the candidate of slot 0 under `(0, 0)`, with distance 24900; it
sets the stop flag. Slot 2560 is expanded all the same (four more simulations),
its winner of distance 25000 replaces the champion, and the champion after the
whole frame is not the first winner. -/
theorem win_does_not_end_the_frame :
    hash_state c12_first = 0 ∧ hash_state c12_second = 2560 ∧
    wins 166 (game_step c12_first false false) ∧
    (game_step c12_first false false).distance = 24900 ∧
    (expand_slot 166 c12_search 0).stop_configuration = true ∧
    (expand_slot 166 c12_search 0).best_state.distance = 24900 ∧
    (expand_slot 166 c12_search 0).total_simulations = 4 ∧
    (expand_slot 166 (expand_slot 166 c12_search 0) 2560).total_simulations = 8 ∧
    (expand_slot 166 (expand_slot 166 c12_search 0) 2560).best_state.distance = 25000 ∧
    (expand_frame 166 c12_search).best_state ≠ game_step c12_first false false := by
  refine ⟨by decide, by decide, by decide, by decide, by decide, by decide, by decide,
    by decide, by decide, ?_⟩
  intro h
  have hm := expand_frame_champion_member 166 c12_search (game_step c12_second false false)
    ((mem_frame_candidates _ _ _).2 ⟨2560, by decide, by decide, false, false, rfl⟩)
    (by decide)
  rw [h] at hm
  unfold at_least_as_good at hm
  revert hm
  decide

/-- C12, amended. The stop flag is tested by the frame loop only. Within a
frame every due slot is expanded whether or not a win has been recorded: the
tables and the champion after `expand_frame` do not depend on the flag, every
feasible candidate of the frame is merged, and the champion is at least as good
as every winner of the frame, not only the first. Once the flag is set, no
later frame of the group is processed. -/
theorem frame_is_finished_after_a_win (frame : Int) (s : Search) :
    ((expand_frame frame { s with stop_configuration := true }).next_states
        = (expand_frame frame s).next_states ∧
      (expand_frame frame { s with stop_configuration := true }).best_state
        = (expand_frame frame s).best_state) ∧
    (expand_frame frame s).next_states
      = (feasible_candidates frame s.states).foldl merge_state s.next_states ∧
    (∀ w ∈ frame_candidates frame s.states, wins frame w →
      at_least_as_good (expand_frame frame s).best_state w) ∧
    (∀ (s0 : Search) (c : Int) (n : Nat),
      (group_at s0 c n).stop_configuration = true →
        group_at s0 c (n + 1) = group_at s0 c n) := by
  refine ⟨⟨?_, ?_⟩, expand_frame_next_states frame s,
    fun w hw hwin => expand_frame_champion_member frame s w hw hwin, ?_⟩
  · rw [expand_frame_next_states, expand_frame_next_states]
  · rw [expand_frame_best_state, expand_frame_best_state]
  · intro s0 c n h
    rw [group_at_succ, if_pos h]

/-! ## The replay of `debug_state` from a state with tachometer difference 0 -/

theorem debug_start_last_shift (s : GameState) :
    last_shift (debug_start s) = shift_bit (read_input s.inputs 0) := by
  unfold last_shift
  show shift_bit (read_input (write_input s.inputs 0 (read_input s.inputs 0)) ((1 : Int) - 1))
    = _
  rw [show (1 : Int) - 1 = 0 from rfl, read_write_same _ _ _ (le_refl 0) (by decide)]

theorem debug_frame_follows (t fc : Int) (c0 s0 : Bool) (ins : List (Bool × Bool))
    (hlen : ins.length + 1 ≤ 168)
    (hd : (run_inputs (init_state t fc c0 s0) ins).tachometer_diff = 0)
    (k : Nat) (hk : k ≤ ins.length) :
    KeyFields (debug_frame (run_inputs (init_state t fc c0 s0) ins) k)
      (run_inputs (init_state t fc c0 s0) (ins.take k)) ∧
    (debug_frame (run_inputs (init_state t fc c0 s0) ins) k).frame_counter
      = (run_inputs (init_state t fc c0 s0) (ins.take k)).frame_counter ∧
    (debug_frame (run_inputs (init_state t fc c0 s0) ins) k).distance
      = (run_inputs (init_state t fc c0 s0) (ins.take k)).distance := by
  have hi := run_inputs_initial (init_state t fc c0 s0) ins
  induction k with
  | zero =>
    have h0 : read_input (run_inputs (init_state t fc c0 s0) ins).inputs 0
        = input_byte c0 s0 := by
      rw [run_inputs_read_below _ _ _ (by rw [init_state_timer]; omega), init_state_read_zero]
    refine ⟨⟨?_, rfl, rfl, ?_, ?_⟩, ?_, rfl⟩
    · show last_shift (debug_start _) = last_shift (init_state t fc c0 s0)
      rw [debug_start_last_shift, h0, shift_bit_input_byte, init_state_last_shift]
    · exact hi.1
    · exact hd
    · exact hi.2
  | succ k ih =>
    have hlt : k < ins.length := by omega
    obtain ⟨hkf, hfc, hdist⟩ := ih (by omega)
    have hr := run_inputs_read_written (init_state t fc c0 s0) ins
      (by rw [init_state_timer]; omega) (by rw [init_state_timer]; omega) k hlt
    have e : (init_state t fc c0 s0).timer + (k : Int) = Int.ofNat (k + 1) := by
      rw [init_state_timer]; simp; omega
    rw [e] at hr
    rw [run_inputs_take_succ _ _ _ hlt]
    simp only [debug_frame, hr, clutch_bit_input_byte, shift_bit_input_byte]
    have ht1 := debug_frame_timer (run_inputs (init_state t fc c0 s0) ins) k
    have ht2 : (run_inputs (init_state t fc c0 s0) (ins.take k)).timer = (k : Int) + 1 := by
      rw [run_inputs_timer, init_state_timer, List.length_take, min_eq_left (by omega)]
      ring
    have hc := step_congruence _ _ (ins.get ⟨k, hlt⟩).1 (ins.get ⟨k, hlt⟩).2
      (by rw [ht1]; omega) (by rw [ht1]; simp only [MAX_FRAMES]; omega)
      (by rw [ht2]; omega) (by rw [ht2]; simp only [MAX_FRAMES]; omega) hkf hfc
    refine ⟨hc.1, hc.2.1, ?_⟩
    have := hc.2.2
    omega

/-- When the state passed to `debug_state` has tachometer difference 0, the
replay is faithful: for a state reached from a seed by `n` steps the working
copy after `n` steps has the same gear, speed, tachometer, tachometer
difference and distance. The missing reset is the only defect. -/
theorem debug_replay_when_diff_zero (t fc : Int) (c0 s0 : Bool) (ins : List (Bool × Bool))
    (hlen : (ins.length : Int) + 1 ≤ MAX_FRAMES + 1)
    (hd : (run_inputs (init_state t fc c0 s0) ins).tachometer_diff = 0) :
    (debug_frame (run_inputs (init_state t fc c0 s0) ins) ins.length).gear
      = (run_inputs (init_state t fc c0 s0) ins).gear ∧
    (debug_frame (run_inputs (init_state t fc c0 s0) ins) ins.length).speed
      = (run_inputs (init_state t fc c0 s0) ins).speed ∧
    (debug_frame (run_inputs (init_state t fc c0 s0) ins) ins.length).tachometer
      = (run_inputs (init_state t fc c0 s0) ins).tachometer ∧
    (debug_frame (run_inputs (init_state t fc c0 s0) ins) ins.length).tachometer_diff
      = (run_inputs (init_state t fc c0 s0) ins).tachometer_diff ∧
    (debug_frame (run_inputs (init_state t fc c0 s0) ins) ins.length).distance
      = (run_inputs (init_state t fc c0 s0) ins).distance := by
  have h := debug_frame_follows t fc c0 s0 ins
    (by simp only [MAX_FRAMES] at hlen; omega) hd ins.length (le_refl _)
  rw [List.take_length] at h
  exact ⟨h.1.2.1, h.1.2.2.1, h.1.2.2.2.1, h.1.2.2.2.2, h.2.2⟩

/-! ## Machine arithmetic: `int` and `double` -/

theorem wrap_int_eq (x : Int) (h0 : INT_MIN ≤ x) (h1 : x ≤ INT_MAX) : wrap_int x = x := by
  simp only [INT_MIN, INT_MAX] at h0 h1
  unfold wrap_int
  omega

theorem wrap_int_range (x : Int) : INT_MIN ≤ wrap_int x ∧ wrap_int x ≤ INT_MAX := by
  simp only [INT_MIN, INT_MAX]
  unfold wrap_int
  omega

theorem wrap_int_growth (d sp : Int) : wrap_int (wrap_int (d + sp) - d) = wrap_int sp := by
  unfold wrap_int
  omega

theorem bit_length_aux_le (fuel n k : Nat) (h : n < 2 ^ k) : bit_length_aux fuel n ≤ k := by
  induction fuel generalizing n k with
  | zero => simp [bit_length_aux]
  | succ f ih =>
    unfold bit_length_aux
    split_ifs with h0
    · omega
    · cases k with
      | zero => simp at h; omega
      | succ k =>
        have h2 : n / 2 < 2 ^ k := by
          rw [Nat.div_lt_iff_lt_mul (by decide)]
          rw [pow_succ] at h
          exact h
        have := ih (n / 2) k h2
        omega

theorem bit_length_le (n k : Nat) (h : n < 2 ^ k) : bit_length n ≤ k :=
  bit_length_aux_le n n k h

theorem div_round_even_mul (a b : Int) (hb : 0 < b) : div_round_even (a * b) b = a := by
  unfold div_round_even
  rw [Int.mul_emod_left, Int.mul_ediv_cancel _ (ne_of_gt hb)]
  simp [hb]

theorem natAbs_mul_pow_lt (n : Int) (d : Nat) (hn : n.natAbs < 2 ^ 53) :
    (n * 2 ^ d).natAbs < 2 ^ (53 + d) := by
  rw [Int.natAbs_mul, Int.natAbs_pow, pow_add]
  have : (2 : Int).natAbs = 2 := rfl
  rw [this]
  exact Nat.mul_lt_mul_of_pos_right hn (by positivity)

theorem double_is_round (n : Int) (d : Nat) (e : Int) (hn : n.natAbs < 2 ^ 53)
    (he : -1074 ≤ e + d) (ho : e + d ≤ 971) : double_is (round_double (n * 2 ^ d) e) n (e + d) := by
  have hbl : bit_length (n * 2 ^ d).natAbs ≤ 53 + d := bit_length_le _ _ (natAbs_mul_pow_lt n d hn)
  obtain ⟨u, hu⟩ : ∃ u, u = max (-1074) ((bit_length (n * 2 ^ d).natAbs : Int) + e - 53) := ⟨_, rfl⟩
  have hu1 : -1074 ≤ u := by rw [hu]; exact le_max_left _ _
  have hu2 : u ≤ e + d := by rw [hu]; exact max_le he (by omega)
  refine ⟨u, hu1, hu2, ?_⟩
  unfold round_double
  simp only [← hu]
  have hr : (if u ≤ e then n * 2 ^ d * 2 ^ (e - u).toNat
      else div_round_even (n * 2 ^ d) (2 ^ (u - e).toNat)) = n * 2 ^ (e + d - u).toNat := by
    split_ifs with h
    · rw [mul_assoc, ← pow_add]
      congr 2
      omega
    · have hd : d = (e + d - u).toNat + (u - e).toNat := by omega
      have h2 : n * 2 ^ d = n * 2 ^ (e + d - u).toNat * 2 ^ (u - e).toNat := by
        rw [mul_assoc, ← pow_add, ← hd]
      rw [h2]
      exact div_round_even_mul _ _ (by positivity)
  rw [hr]
  have hb2 := bit_length_le _ _ (natAbs_mul_pow_lt n (e + d - u).toNat hn)
  rw [if_pos]
  omega

theorem int_to_double_is (t : Int) (ht : t.natAbs < 2 ^ 53) : double_is (int_to_double t) t 0 := by
  have h := double_is_round t 0 0 ht (by norm_num) (by norm_num)
  simpa [int_to_double] using h

theorem pow_double_is (e : Int) (h0 : -1074 ≤ e) (h1 : e ≤ 971) : double_is (pow_double e) 1 e := by
  have h := double_is_round 1 0 e (by decide) (by simpa using h0) (by simpa using h1)
  simpa [pow_double] using h

theorem double_mul_is (x y : Option (Int × Int)) (n1 E1 n2 E2 : Int)
    (hx : double_is x n1 E1) (hy : double_is y n2 E2) (hn : (n1 * n2).natAbs < 2 ^ 53)
    (h0 : -1074 ≤ E1 + E2) (h1 : E1 + E2 ≤ 971) :
    double_is (double_mul x y) (n1 * n2) (E1 + E2) := by
  obtain ⟨u1, _, hu1, rfl⟩ := hx
  obtain ⟨u2, _, hu2, rfl⟩ := hy
  have h := double_is_round (n1 * n2) ((E1 - u1).toNat + (E2 - u2).toNat) (u1 + u2) hn
    (by push_cast; omega) (by push_cast; omega)
  have e1 : u1 + u2 + (((E1 - u1).toNat + (E2 - u2).toNat : Nat) : Int) = E1 + E2 := by
    push_cast; omega
  rw [e1] at h
  have e2 : n1 * 2 ^ (E1 - u1).toNat * (n2 * 2 ^ (E2 - u2).toNat)
      = n1 * n2 * 2 ^ ((E1 - u1).toNat + (E2 - u2).toNat) := by
    rw [pow_add]; ring
  simp only [double_mul, e2]
  exact h

theorem double_add_is (x y : Option (Int × Int)) (n1 E1 n2 E2 : Int)
    (hx : double_is x n1 E1) (hy : double_is y n2 E2) (hE : E2 ≤ E1)
    (hn : (n1 * 2 ^ (E1 - E2).toNat + n2).natAbs < 2 ^ 53) (h1 : E2 ≤ 971) :
    double_is (double_add x y) (n1 * 2 ^ (E1 - E2).toNat + n2) E2 := by
  obtain ⟨u1, hu1, hu1', rfl⟩ := hx
  obtain ⟨u2, hu2, hu2', rfl⟩ := hy
  have hm0 : -1074 ≤ min u1 u2 := le_min hu1 hu2
  have hm1 : min u1 u2 ≤ u1 := min_le_left _ _
  have hm2 : min u1 u2 ≤ u2 := min_le_right _ _
  have h := double_is_round (n1 * 2 ^ (E1 - E2).toNat + n2) (E2 - min u1 u2).toNat (min u1 u2) hn
    (by omega) (by omega)
  have e1 : min u1 u2 + ((E2 - min u1 u2).toNat : Int) = E2 := by omega
  rw [e1] at h
  have e2 : n1 * 2 ^ (E1 - u1).toNat * 2 ^ (u1 - min u1 u2).toNat
      + n2 * 2 ^ (E2 - u2).toNat * 2 ^ (u2 - min u1 u2).toNat
      = (n1 * 2 ^ (E1 - E2).toNat + n2) * 2 ^ (E2 - min u1 u2).toNat := by
    have a1 : (E1 - u1).toNat + (u1 - min u1 u2).toNat
        = (E1 - E2).toNat + (E2 - min u1 u2).toNat := by omega
    have a2 : (E2 - u2).toNat + (u2 - min u1 u2).toNat = (E2 - min u1 u2).toNat := by omega
    rw [mul_assoc, ← pow_add, mul_assoc, ← pow_add, a1, a2, pow_add]
    ring
  simp only [double_add, e2]
  exact h

theorem mul_tdiv_mul_pos (c n b : Int) (hc : 0 < c) (hb : 0 ≤ b) :
    Int.tdiv (c * n) (c * b) = Int.tdiv n b := by
  rcases le_or_lt 0 n with h | h
  · rw [Int.tdiv_eq_ediv (Int.mul_nonneg hc.le h) (Int.mul_nonneg hc.le hb),
      Int.tdiv_eq_ediv h hb, Int.mul_ediv_mul_of_pos _ _ hc]
  · have hn : n = -(-n) := by omega
    rw [hn, mul_neg, Int.neg_tdiv, Int.neg_tdiv,
      Int.tdiv_eq_ediv (Int.mul_nonneg hc.le (by omega)) (Int.mul_nonneg hc.le hb),
      Int.tdiv_eq_ediv (by omega) hb, Int.mul_ediv_mul_of_pos _ _ hc]

theorem trunc_double_is (n E u : Int) (hu : u ≤ E) :
    trunc_double (n * 2 ^ (E - u).toNat, u) = scale_pow2 n E := by
  unfold trunc_double scale_pow2
  simp only
  by_cases h0 : 0 ≤ u
  · rw [if_pos h0, if_pos (by omega), mul_assoc, ← pow_add]
    congr 2
    omega
  · rw [if_neg h0]
    by_cases hE : 0 ≤ E
    · rw [if_pos hE]
      have : (E - u).toNat = E.toNat + (-u).toNat := by omega
      rw [this, pow_add, ← mul_assoc]
      exact Int.mul_tdiv_cancel _ (by positivity)
    · rw [if_neg hE]
      have : (-u).toNat = (E - u).toNat + (-E).toNat := by omega
      rw [this, pow_add, mul_comm n]
      exact mul_tdiv_mul_pos _ _ _ (by positivity) (by positivity)

theorem double_to_int_is (x : Option (Int × Int)) (n E : Int) (hx : double_is x n E) :
    double_to_int x
      = if INT_MIN ≤ scale_pow2 n E ∧ scale_pow2 n E ≤ INT_MAX then scale_pow2 n E
        else INT_MIN := by
  obtain ⟨u, _, hu, rfl⟩ := hx
  simp only [double_to_int, trunc_double_is n E u hu]

theorem speed_limit_double_eq (t g : Int) (ht : t.natAbs < 2 ^ 51) (h0 : 0 ≤ g) (h1 : g ≤ 900) :
    speed_limit_double t g
      = if INT_MIN ≤ speed_limit t g ∧ speed_limit t g ≤ INT_MAX then speed_limit t g
        else INT_MIN := by
  have hw1 : wrap_int (g - 1) = g - 1 :=
    wrap_int_eq _ (by simp only [INT_MIN]; omega) (by simp only [INT_MAX]; omega)
  have hw2 : wrap_int (g - 2) = g - 2 :=
    wrap_int_eq _ (by simp only [INT_MIN]; omega) (by simp only [INT_MAX]; omega)
  have ht53 : t.natAbs < 2 ^ 53 := lt_trans ht (by norm_num)
  have hmul : double_is (double_mul (int_to_double t) (pow_double (g - 1))) t (g - 1) := by
    have h := double_mul_is _ _ t 0 1 (g - 1) (int_to_double_is t ht53)
      (pow_double_is (g - 1) (by omega) (by omega)) (by simpa using ht53) (by omega) (by omega)
    simpa using h
  unfold speed_limit_double speed_limit
  rw [hw1, hw2]
  by_cases hb : t ≥ 20 ∧ g > 1
  · rw [if_pos hb, if_pos hb]
    have hadd := double_add_is _ _ t (g - 1) 1 (g - 2) hmul
      (pow_double_is (g - 2) (by omega) (by omega)) (by omega)
      (by
        have e : (g - 1 - (g - 2)).toNat = 1 := by omega
        rw [e]
        omega) (by omega)
    have e : (g - 1 - (g - 2)).toNat = 1 := by omega
    rw [e] at hadd
    rw [double_to_int_is _ _ _ hadd]
    have e2 : scale_pow2 (t * 2 ^ 1 + 1) (g - 2) = scale_pow2 t (g - 1) + pow2 (g - 2) := by
      unfold scale_pow2 pow2
      rw [if_pos (by omega), if_pos (by omega), if_pos (by omega)]
      have e3 : (g - 1).toNat = (g - 2).toNat + 1 := by omega
      rw [e3, pow_succ]
      ring
    rw [e2]
  · rw [if_neg hb, if_neg hb, double_to_int_is _ _ _ hmul]

theorem pow_double_to_int (g : Int) (h0 : -1074 ≤ g) (h1 : g ≤ 30) :
    double_to_int (pow_double g) = pow2 g := by
  rw [double_to_int_is _ _ _ (pow_double_is g h0 (by omega))]
  have e : scale_pow2 1 g = pow2 g := by
    unfold scale_pow2 pow2
    split_ifs with h
    · simp
    · have h2 : (1 : Int) < 2 ^ (-g).toNat := by
        have : (-g).toNat = ((-g).toNat - 1) + 1 := by omega
        rw [this, pow_succ]
        have : (0 : Int) < 2 ^ ((-g).toNat - 1) := by positivity
        omega
      exact Int.tdiv_eq_zero_of_lt (by norm_num) h2
  rw [e]
  have hp : 0 ≤ pow2 g ∧ pow2 g ≤ 2 ^ 30 := by
    unfold pow2
    split_ifs with h
    · constructor
      · positivity
      · exact pow_le_pow_right₀ (by norm_num) (by omega)
    · norm_num
  rw [if_pos]
  simp only [INT_MIN, INT_MAX]
  constructor
  · omega
  · have := hp.2
    norm_num at this
    omega

theorem tmod_bounds (a : Int) : -16 < Int.tmod a 16 ∧ Int.tmod a 16 < 16 := by
  rcases le_or_lt 0 a with h | h
  · have h1 := Int.tmod_nonneg 16 h
    have h2 := Int.tmod_lt_of_pos a (b := 16) (by norm_num)
    omega
  · have hd : Int.tdiv a 16 = -((-a) / 16) := by
      have hn : a = -(-a) := by omega
      rw [hn, Int.neg_tdiv, Int.tdiv_eq_ediv (by omega) (by norm_num)]
      simp
    rw [Int.tmod_def, hd]
    omega

/-! ## The parts of the machine step -/

theorem next_gear_int32_eq (p : Bool) (g : Int) (h0 : INT_MIN ≤ g) (h1 : g ≤ INT_MAX) :
    next_gear_int32 p g = next_gear p g := by
  unfold next_gear_int32 next_gear
  simp only [MAX_GEAR, INT_MIN, INT_MAX] at *
  split_ifs with h2 h3
  · rfl
  · exact wrap_int_eq _ (by simp only [INT_MIN]; omega) (by simp only [INT_MAX]; omega)
  · rfl

theorem next_tachometer_int32_eq (p c : Bool) (fc g t d : Int) (hg0 : 0 ≤ g) (hg1 : g ≤ 30)
    (ht0 : -536870912 ≤ t) (ht1 : t ≤ 536870912) (hd0 : -536870912 ≤ d)
    (hd1 : d ≤ 536870912) :
    next_tachometer_int32 p c fc g t d = next_tachometer p c fc g t d := by
  unfold next_tachometer_int32 next_tachometer
  rw [pow_double_to_int g (by omega) hg1]
  have w : ∀ k : Int, -3 ≤ k → k ≤ 3 → wrap_int (t - wrap_int (d + k)) = t - (d + k) := by
    intro k hk0 hk1
    rw [wrap_int_eq (d + k) (by simp only [INT_MIN]; omega) (by simp only [INT_MAX]; omega)]
    exact wrap_int_eq _ (by simp only [INT_MIN]; omega) (by simp only [INT_MAX]; omega)
  have w0 : wrap_int (t - d) = t - d :=
    wrap_int_eq _ (by simp only [INT_MIN]; omega) (by simp only [INT_MAX]; omega)
  have a1 := w (-3) (by omega) (by omega)
  have a2 := w 3 (by omega) (by omega)
  have a3 := w (-1) (by omega) (by omega)
  have a4 := w 1 (by omega) (by omega)
  have b1 : d + -3 = d - 3 := by omega
  have b3 : d + -1 = d - 1 := by omega
  rw [b1] at a1
  rw [b3] at a3
  simp only [a1, a2, a3, a4, w0]

theorem next_tachometer_int32_nonneg (p c : Bool) (fc g t d : Int) :
    0 ≤ next_tachometer_int32 p c fc g t d := by
  unfold next_tachometer_int32
  dsimp only
  split_ifs <;> omega

theorem next_tachometer_diff_int32_eq (p : Bool) (l s : Int) (hl0 : -536870912 ≤ l)
    (hl1 : l ≤ 536870912) (hs0 : -536870912 ≤ s) (hs1 : s ≤ 536870912) :
    next_tachometer_diff_int32 p l s = next_tachometer_diff p l s := by
  unfold next_tachometer_diff_int32 next_tachometer_diff
  rw [wrap_int_eq (l - s) (by simp only [INT_MIN]; omega) (by simp only [INT_MAX]; omega)]

theorem next_speed_int32_eq (p : Bool) (g l s : Int) (hs0 : -536870912 ≤ s)
    (hs1 : s ≤ 536870912) :
    next_speed_int32 p g l s = next_speed p g l s := by
  unfold next_speed_int32 next_speed
  have w1 : wrap_int (s - 1) = s - 1 :=
    wrap_int_eq _ (by simp only [INT_MIN]; omega) (by simp only [INT_MAX]; omega)
  have w2 : wrap_int (s + 2) = s + 2 :=
    wrap_int_eq _ (by simp only [INT_MIN]; omega) (by simp only [INT_MAX]; omega)
  have w3 : wrap_int (s - 1 + 2) = s - 1 + 2 :=
    wrap_int_eq _ (by simp only [INT_MIN]; omega) (by simp only [INT_MAX]; omega)
  simp only [w1]
  split_ifs <;> first | rfl | exact w2 | exact w3

theorem next_speed_le_add (p : Bool) (g l s : Int) : next_speed p g l s ≤ s + 2 := by
  unfold next_speed
  simp only
  split_ifs <;> omega

/-! ## The fields of `game_step_int32` -/

theorem game_step_int32_gear (s : GameState) (c sh : Bool) :
    (game_step_int32 s c sh).gear = next_gear_int32 (prev_shift_int32 s c sh) s.gear := rfl

theorem game_step_int32_frame_counter (s : GameState) (c sh : Bool) :
    (game_step_int32 s c sh).frame_counter
      = Int.tmod (wrap_int (s.frame_counter + 2)) MAX_FRAME_COUNTER := rfl

theorem game_step_int32_timer (s : GameState) (c sh : Bool) :
    (game_step_int32 s c sh).timer = wrap_int (s.timer + 1) := rfl

theorem game_step_int32_inputs (s : GameState) (c sh : Bool) :
    (game_step_int32 s c sh).inputs = write_input s.inputs s.timer (input_byte c sh) := rfl

theorem game_step_int32_tachometer (s : GameState) (c sh : Bool) :
    (game_step_int32 s c sh).tachometer
      = next_tachometer_int32 (prev_shift_int32 s c sh) c
          (Int.tmod (wrap_int (s.frame_counter + 2)) MAX_FRAME_COUNTER)
          (game_step_int32 s c sh).gear s.tachometer s.tachometer_diff := rfl

theorem game_step_int32_tachometer_diff (s : GameState) (c sh : Bool) :
    (game_step_int32 s c sh).tachometer_diff
      = next_tachometer_diff_int32 (prev_shift_int32 s c sh)
          (speed_limit_double (game_step_int32 s c sh).tachometer (game_step_int32 s c sh).gear)
          s.speed := rfl

theorem game_step_int32_speed (s : GameState) (c sh : Bool) :
    (game_step_int32 s c sh).speed
      = next_speed_int32 (prev_shift_int32 s c sh) (game_step_int32 s c sh).gear
          (speed_limit_double (game_step_int32 s c sh).tachometer (game_step_int32 s c sh).gear)
          s.speed := rfl

theorem game_step_int32_distance (s : GameState) (c sh : Bool) :
    (game_step_int32 s c sh).distance
      = wrap_int (s.distance + (game_step_int32 s c sh).speed) := rfl

theorem prev_shift_int32_eq (s : GameState) (c sh : Bool) (h0 : INT_MIN < s.timer)
    (h1 : s.timer < INT_MAX) : prev_shift_int32 s c sh = last_shift s := by
  unfold prev_shift_int32
  simp only [INT_MIN, INT_MAX] at h0 h1
  rw [wrap_int_eq (s.timer + 1) (by simp only [INT_MIN]; omega) (by simp only [INT_MAX]; omega),
    wrap_int_eq (s.timer + 1 - 2) (by simp only [INT_MIN]; omega) (by simp only [INT_MAX]; omega)]
  exact prev_shift_eq s _

theorem game_step_int32_last_shift (s : GameState) (c sh : Bool) (h0 : 0 ≤ s.timer)
    (h1 : s.timer ≤ MAX_FRAMES) : last_shift (game_step_int32 s c sh) = sh := by
  unfold last_shift
  simp only [MAX_FRAMES] at h1
  rw [game_step_int32_timer, game_step_int32_inputs,
    wrap_int_eq (s.timer + 1) (by simp only [INT_MIN]; omega) (by simp only [INT_MAX]; omega)]
  have h : s.timer + 1 - 1 = s.timer := by omega
  rw [h, read_write_same _ _ _ h0 (by simp only [INPUTS_LEN]; omega), shift_bit_input_byte]

theorem run_inputs_int32_nil (s : GameState) : run_inputs_int32 s [] = s := rfl

theorem run_inputs_int32_cons (s : GameState) (x : Bool × Bool) (xs : List (Bool × Bool)) :
    run_inputs_int32 s (x :: xs) = run_inputs_int32 (game_step_int32 s x.1 x.2) xs := rfl

/-! ## One machine step on states within the ranges -/

theorem game_step_int32_parts_wide (s : GameState) (c sh : Bool)
    (hg : 0 ≤ s.gear ∧ s.gear ≤ 4) (hs : 0 ≤ s.speed ∧ s.speed ≤ 100000)
    (ht : 0 ≤ s.tachometer ∧ s.tachometer ≤ 100000)
    (hd : 0 ≤ s.tachometer_diff ∧ s.tachometer_diff ≤ 1) :
    (game_step_int32 s c sh).gear = next_gear (prev_shift_int32 s c sh) s.gear ∧
    (game_step_int32 s c sh).tachometer
      = next_tachometer (prev_shift_int32 s c sh) c
          (Int.tmod (wrap_int (s.frame_counter + 2)) MAX_FRAME_COUNTER)
          (next_gear (prev_shift_int32 s c sh) s.gear) s.tachometer s.tachometer_diff ∧
    speed_limit_double (game_step_int32 s c sh).tachometer (game_step_int32 s c sh).gear
      = speed_limit (game_step_int32 s c sh).tachometer (game_step_int32 s c sh).gear ∧
    (game_step_int32 s c sh).tachometer_diff
      = next_tachometer_diff (prev_shift_int32 s c sh)
          (speed_limit (game_step_int32 s c sh).tachometer (game_step_int32 s c sh).gear)
          s.speed ∧
    (game_step_int32 s c sh).speed
      = next_speed (prev_shift_int32 s c sh) (game_step_int32 s c sh).gear
          (speed_limit (game_step_int32 s c sh).tachometer (game_step_int32 s c sh).gear)
          s.speed := by
  obtain ⟨hg0, hg1⟩ := hg
  obtain ⟨hs0, hs1⟩ := hs
  obtain ⟨ht0, ht1⟩ := ht
  obtain ⟨hd0, hd1⟩ := hd
  have hgear : (game_step_int32 s c sh).gear = next_gear (prev_shift_int32 s c sh) s.gear := by
    rw [game_step_int32_gear]
    exact next_gear_int32_eq _ _ (by simp only [INT_MIN]; omega) (by simp only [INT_MAX]; omega)
  have hgb := next_gear_bounds (prev_shift_int32 s c sh) s.gear hg0 hg1
  have htach : (game_step_int32 s c sh).tachometer
      = next_tachometer (prev_shift_int32 s c sh) c
          (Int.tmod (wrap_int (s.frame_counter + 2)) MAX_FRAME_COUNTER)
          (next_gear (prev_shift_int32 s c sh) s.gear) s.tachometer s.tachometer_diff := by
    rw [game_step_int32_tachometer, hgear]
    exact next_tachometer_int32_eq _ _ _ _ _ _ (by omega) (by omega) (by omega) (by omega)
      (by omega) (by omega)
  have htb0 := next_tachometer_nonneg (prev_shift_int32 s c sh) c
    (Int.tmod (wrap_int (s.frame_counter + 2)) MAX_FRAME_COUNTER)
    (next_gear (prev_shift_int32 s c sh) s.gear) s.tachometer s.tachometer_diff
  have htb1 := next_tachometer_le (prev_shift_int32 s c sh) c
    (Int.tmod (wrap_int (s.frame_counter + 2)) MAX_FRAME_COUNTER)
    (next_gear (prev_shift_int32 s c sh) s.gear) s.tachometer s.tachometer_diff ht0 hd0
  rw [← htach] at htb0 htb1
  rw [← hgear] at hgb
  have hl0 := speed_limit_nonneg _ _ htb0 (by omega) hgb.2
  have hl1 : speed_limit (game_step_int32 s c sh).tachometer (game_step_int32 s c sh).gear
      ≤ 1000000 := by
    rw [speed_limit_cases _ _ htb0 (by omega) hgb.2]
    have hg : (game_step_int32 s c sh).gear = 0 ∨ (game_step_int32 s c sh).gear = 1 ∨
        (game_step_int32 s c sh).gear = 2 ∨ (game_step_int32 s c sh).gear = 3 ∨
        (game_step_int32 s c sh).gear = 4 := by omega
    rcases hg with e | e | e | e | e <;> rw [e] <;> simp <;> (try split_ifs) <;> omega
  have hlim : speed_limit_double (game_step_int32 s c sh).tachometer (game_step_int32 s c sh).gear
      = speed_limit (game_step_int32 s c sh).tachometer (game_step_int32 s c sh).gear := by
    rw [speed_limit_double_eq _ _ (by omega) (by omega) (by omega), if_pos]
    simp only [INT_MIN, INT_MAX]
    omega
  refine ⟨hgear, htach, hlim, ?_, ?_⟩
  · rw [game_step_int32_tachometer_diff, hlim]
    exact next_tachometer_diff_int32_eq _ _ _ (by omega) (by omega) (by omega) (by omega)
  · rw [game_step_int32_speed, hlim]
    exact next_speed_int32_eq _ _ _ _ (by omega) (by omega)

theorem game_step_int32_bounds_wide (s : GameState) (c sh : Bool)
    (hg : 0 ≤ s.gear ∧ s.gear ≤ 4) (hs : 0 ≤ s.speed ∧ s.speed ≤ 100000)
    (ht : 0 ≤ s.tachometer ∧ s.tachometer ≤ 100000)
    (hd : 0 ≤ s.tachometer_diff ∧ s.tachometer_diff ≤ 1) :
    s.gear ≤ (game_step_int32 s c sh).gear ∧ (game_step_int32 s c sh).gear ≤ 4 ∧
    0 ≤ (game_step_int32 s c sh).tachometer ∧
    (game_step_int32 s c sh).tachometer ≤ s.tachometer + 3 ∧
    0 ≤ (game_step_int32 s c sh).tachometer_diff ∧ (game_step_int32 s c sh).tachometer_diff ≤ 1 ∧
    0 ≤ (game_step_int32 s c sh).speed ∧ (game_step_int32 s c sh).speed ≤ s.speed + 2 := by
  have hp := game_step_int32_parts_wide s c sh hg hs ht hd
  have hgb := next_gear_bounds (prev_shift_int32 s c sh) s.gear hg.1 hg.2
  have htb0 := next_tachometer_nonneg (prev_shift_int32 s c sh) c
    (Int.tmod (wrap_int (s.frame_counter + 2)) MAX_FRAME_COUNTER)
    (next_gear (prev_shift_int32 s c sh) s.gear) s.tachometer s.tachometer_diff
  have htb1 := next_tachometer_le (prev_shift_int32 s c sh) c
    (Int.tmod (wrap_int (s.frame_counter + 2)) MAX_FRAME_COUNTER)
    (next_gear (prev_shift_int32 s c sh) s.gear) s.tachometer s.tachometer_diff ht.1 hd.1
  rw [← hp.2.1] at htb0 htb1
  rw [← hp.1] at hgb
  have hl0 := speed_limit_nonneg _ _ htb0 (by omega) hgb.2
  have hdb := next_tachometer_diff_bounds (prev_shift_int32 s c sh)
    (speed_limit (game_step_int32 s c sh).tachometer (game_step_int32 s c sh).gear) s.speed
  rw [← hp.2.2.2.1] at hdb
  have hsp := next_speed_nonneg (prev_shift_int32 s c sh) (game_step_int32 s c sh).gear _
    s.speed hl0 hs.1
  have hsp' := next_speed_le_add (prev_shift_int32 s c sh) (game_step_int32 s c sh).gear
    (speed_limit (game_step_int32 s c sh).tachometer (game_step_int32 s c sh).gear) s.speed
  rw [← hp.2.2.2.2] at hsp hsp'
  exact ⟨hgb.1, hgb.2, htb0, htb1, hdb.1, hdb.2, hsp, hsp'⟩

theorem in_range_wide (s : GameState) (h : InRange s) :
    (0 ≤ s.gear ∧ s.gear ≤ 4) ∧ (0 ≤ s.speed ∧ s.speed ≤ 255) ∧
    (0 ≤ s.tachometer ∧ s.tachometer ≤ 31) ∧
    (0 ≤ s.tachometer_diff ∧ s.tachometer_diff ≤ 1) := by
  obtain ⟨hg0, hg1, hs0, hs1, ht0, ht1, hd0, hd1⟩ := h
  simp only [MAX_GEAR, MAX_SPEED, MAX_TACHOMETER] at hg1 hs1 ht1
  exact ⟨⟨hg0, hg1⟩, ⟨hs0, by omega⟩, ⟨ht0, by omega⟩, hd0, hd1⟩

theorem game_step_int32_parts (s : GameState) (c sh : Bool) (h : InRange s) :
    (game_step_int32 s c sh).gear = next_gear (prev_shift_int32 s c sh) s.gear ∧
    (game_step_int32 s c sh).tachometer
      = next_tachometer (prev_shift_int32 s c sh) c
          (Int.tmod (wrap_int (s.frame_counter + 2)) MAX_FRAME_COUNTER)
          (next_gear (prev_shift_int32 s c sh) s.gear) s.tachometer s.tachometer_diff ∧
    speed_limit_double (game_step_int32 s c sh).tachometer (game_step_int32 s c sh).gear
      = speed_limit (game_step_int32 s c sh).tachometer (game_step_int32 s c sh).gear ∧
    (game_step_int32 s c sh).tachometer_diff
      = next_tachometer_diff (prev_shift_int32 s c sh)
          (speed_limit (game_step_int32 s c sh).tachometer (game_step_int32 s c sh).gear)
          s.speed ∧
    (game_step_int32 s c sh).speed
      = next_speed (prev_shift_int32 s c sh) (game_step_int32 s c sh).gear
          (speed_limit (game_step_int32 s c sh).tachometer (game_step_int32 s c sh).gear)
          s.speed := by
  have w := in_range_wide s h
  exact game_step_int32_parts_wide s c sh w.1 ⟨w.2.1.1, by omega⟩ ⟨w.2.2.1.1, by omega⟩ w.2.2.2

theorem game_step_int32_bounds (s : GameState) (c sh : Bool) (h : InRange s) :
    s.gear ≤ (game_step_int32 s c sh).gear ∧ (game_step_int32 s c sh).gear ≤ 4 ∧
    0 ≤ (game_step_int32 s c sh).tachometer ∧
    (game_step_int32 s c sh).tachometer ≤ s.tachometer + 3 ∧
    0 ≤ (game_step_int32 s c sh).tachometer_diff ∧ (game_step_int32 s c sh).tachometer_diff ≤ 1 ∧
    0 ≤ (game_step_int32 s c sh).speed ∧ (game_step_int32 s c sh).speed ≤ s.speed + 2 := by
  have w := in_range_wide s h
  exact game_step_int32_bounds_wide s c sh w.1 ⟨w.2.1.1, by omega⟩ ⟨w.2.2.1.1, by omega⟩ w.2.2.2

/-! ## The machine step and the step over the integers -/

theorem GameState_ext (a b : GameState) (h1 : a.timer = b.timer)
    (h2 : a.frame_counter = b.frame_counter) (h3 : a.tachometer = b.tachometer)
    (h4 : a.tachometer_diff = b.tachometer_diff) (h5 : a.distance = b.distance)
    (h6 : a.speed = b.speed) (h7 : a.gear = b.gear)
    (h8 : a.initial_tachometer = b.initial_tachometer)
    (h9 : a.initial_frame_counter = b.initial_frame_counter) (h10 : a.inputs = b.inputs) :
    a = b := by
  cases a
  cases b
  simp only [GameState.mk.injEq]
  exact ⟨h1, h2, h3, h4, h5, h6, h7, h8, h9, h10⟩

theorem game_step_int32_eq_wide (s : GameState) (c sh : Bool)
    (hg : 0 ≤ s.gear ∧ s.gear ≤ 4) (hs : 0 ≤ s.speed ∧ s.speed ≤ 100000)
    (ht : 0 ≤ s.tachometer ∧ s.tachometer ≤ 100000)
    (hd : 0 ≤ s.tachometer_diff ∧ s.tachometer_diff ≤ 1)
    (htimer : INT_MIN < s.timer ∧ s.timer < INT_MAX)
    (hfc : INT_MIN ≤ s.frame_counter ∧ s.frame_counter ≤ INT_MAX - 2)
    (hdist : INT_MIN ≤ s.distance ∧ s.distance + s.speed + 2 ≤ INT_MAX) :
    game_step_int32 s c sh = game_step s c sh := by
  have hp := game_step_int32_parts_wide s c sh hg hs ht hd
  have hb := game_step_int32_bounds_wide s c sh hg hs ht hd
  have hps := prev_shift_int32_eq s c sh htimer.1 htimer.2
  rw [hps] at hp
  simp only [INT_MIN, INT_MAX] at htimer hfc hdist
  have e3 : wrap_int (s.frame_counter + 2) = s.frame_counter + 2 :=
    wrap_int_eq _ (by simp only [INT_MIN]; omega) (by simp only [INT_MAX]; omega)
  rw [e3] at hp
  have hgear : (game_step_int32 s c sh).gear = (game_step s c sh).gear := by
    rw [hp.1, game_step_gear]
  have htach : (game_step_int32 s c sh).tachometer = (game_step s c sh).tachometer := by
    rw [hp.2.1, game_step_tachometer]
  have hdiff : (game_step_int32 s c sh).tachometer_diff = (game_step s c sh).tachometer_diff := by
    rw [hp.2.2.2.1, game_step_tachometer_diff, hgear, htach]
  have hspeed : (game_step_int32 s c sh).speed = (game_step s c sh).speed := by
    rw [hp.2.2.2.2, game_step_speed, hgear, htach]
  refine GameState_ext _ _ ?_ ?_ htach hdiff ?_ hspeed hgear rfl rfl rfl
  · rw [game_step_int32_timer, game_step_timer]
    exact wrap_int_eq _ (by simp only [INT_MIN]; omega) (by simp only [INT_MAX]; omega)
  · rw [game_step_int32_frame_counter, game_step_frame_counter, e3]
  · rw [game_step_int32_distance, game_step_distance, ← hspeed]
    have := hb.2.2.2.2.2.2
    exact wrap_int_eq _ (by simp only [INT_MIN]; omega) (by simp only [INT_MAX]; omega)

/-- The machine step and the step over the integers agree on a state within
the ranges of the data model whose timer, frame counter and distance leave room
for one step. -/
theorem game_step_int32_eq (s : GameState) (c sh : Bool) (h : InRange s)
    (ht : INT_MIN < s.timer ∧ s.timer < INT_MAX)
    (hfc : INT_MIN ≤ s.frame_counter ∧ s.frame_counter ≤ INT_MAX - 2)
    (hd : INT_MIN ≤ s.distance ∧ s.distance ≤ INT_MAX - 257) :
    game_step_int32 s c sh = game_step s c sh := by
  have w := in_range_wide s h
  simp only [INT_MAX] at hd
  exact game_step_int32_eq_wide s c sh w.1 ⟨w.2.1.1, by omega⟩ ⟨w.2.2.1.1, by omega⟩ w.2.2.2 ht
    hfc ⟨hd.1, by simp only [INT_MAX]; omega⟩

theorem run_inputs_int32_eq_within (ins : List (Bool × Bool)) (s : GameState) (k : Nat)
    (hk : k + ins.length ≤ 168)
    (hg : 0 ≤ s.gear ∧ s.gear ≤ 4) (hsp : 0 ≤ s.speed ∧ s.speed ≤ 255 + 2 * (k : Int))
    (ht : 0 ≤ s.tachometer ∧ s.tachometer ≤ 31 + 3 * (k : Int))
    (hd : 0 ≤ s.tachometer_diff ∧ s.tachometer_diff ≤ 1)
    (htimer : INT_MIN < s.timer ∧ s.timer + ins.length ≤ INT_MAX)
    (hfc : INT_MIN ≤ s.frame_counter ∧ s.frame_counter ≤ INT_MAX - 2)
    (hdist : INT_MIN ≤ s.distance ∧ s.distance + 600 * (168 - (k : Int)) ≤ INT_MAX) :
    run_inputs_int32 s ins = run_inputs s ins := by
  induction ins generalizing s k with
  | nil => rfl
  | cons x xs ih =>
    simp only [List.length_cons] at hk htimer
    push_cast at htimer
    simp only [INT_MIN, INT_MAX] at htimer hfc hdist
    have hb := game_step_int32_bounds_wide s x.1 x.2 hg ⟨hsp.1, by omega⟩ ⟨ht.1, by omega⟩ hd
    have he := game_step_int32_eq_wide s x.1 x.2 hg ⟨hsp.1, by omega⟩ ⟨ht.1, by omega⟩ hd
      ⟨by simp only [INT_MIN]; omega, by simp only [INT_MAX]; omega⟩
      ⟨by simp only [INT_MIN]; omega, by simp only [INT_MAX]; omega⟩
      ⟨by simp only [INT_MIN]; omega, by simp only [INT_MAX]; omega⟩
    rw [run_inputs_int32_cons, run_inputs_cons, he]
    rw [he] at hb
    have hfc' := tmod_bounds (s.frame_counter + 2)
    refine ih _ (k + 1) (by omega) ⟨by omega, hb.2.1⟩ ⟨hb.2.2.2.2.2.2.1, ?_⟩
      ⟨hb.2.2.1, ?_⟩ ⟨hb.2.2.2.2.1, hb.2.2.2.2.2.1⟩ ⟨?_, ?_⟩ ⟨?_, ?_⟩ ⟨?_, ?_⟩
    · push_cast; omega
    · push_cast; omega
    · rw [game_step_timer]; simp only [INT_MIN]; omega
    · rw [game_step_timer]; simp only [INT_MAX]; omega
    · rw [game_step_frame_counter]; simp only [INT_MIN, MAX_FRAME_COUNTER]; omega
    · rw [game_step_frame_counter]; simp only [INT_MAX, MAX_FRAME_COUNTER]; omega
    · rw [game_step_distance]; simp only [INT_MIN]; omega
    · rw [game_step_distance]; simp only [INT_MAX]; push_cast; omega

/-- Along every run of at most 168 steps from a state within the ranges of the
data model, with timer and frame counter as the program sets them and a
distance that leaves room, the machine steps and the steps over the integers
produce the same state. Every state that the program reaches is such a run from
a seed. -/
theorem run_inputs_int32_eq (s : GameState) (ins : List (Bool × Bool)) (h : InRange s)
    (hlen : ins.length ≤ 168) (htimer : 0 ≤ s.timer ∧ s.timer ≤ MAX_FRAMES + 1)
    (hfc : 0 ≤ s.frame_counter ∧ s.frame_counter < MAX_FRAME_COUNTER)
    (hd : INT_MIN ≤ s.distance ∧ s.distance ≤ INT_MAX - 100800) :
    run_inputs_int32 s ins = run_inputs s ins := by
  have w := in_range_wide s h
  simp only [INT_MIN, INT_MAX, MAX_FRAMES, MAX_FRAME_COUNTER] at hd htimer hfc
  exact run_inputs_int32_eq_within ins s 0 (by omega) w.1 (by simpa using w.2.1)
    (by simpa using w.2.2.1) w.2.2.2
    ⟨by simp only [INT_MIN]; omega, by simp only [INT_MAX]; omega⟩
    ⟨by simp only [INT_MIN]; omega, by simp only [INT_MAX]; omega⟩
    ⟨by simp only [INT_MIN]; omega, by simp only [INT_MAX]; push_cast; omega⟩

/-! ## One machine step does not lower gear or distance -/

set_option maxRecDepth 8000 in
/-- C10, refuted as stated. The state `c10_state` lies within the ranges of the
data model (gear 1, speed 10, tachometer 20, tachometer difference 0, timer 1)
and its distance is `INT_MAX`. One step without clutch or shift raises the
speed to 12, and the addition `distance += speed` wraps around: the distance
after the step is -2147483637, below the old one. -/
theorem distance_wraps_at_int_max :
    InRange c10_state ∧ 1 ≤ c10_state.timer ∧ c10_state.distance = INT_MAX ∧
    (game_step_int32 c10_state false false).speed = 12 ∧
    (game_step_int32 c10_state false false).distance = -2147483637 ∧
    ¬ (game_step_int32 c10_state false false).distance ≥ c10_state.distance := by
  decide

/-- C10, amended. On a state within the ranges of the data model, one step
does not lower the gear, keeps it at most `MAX_GEAR`, and leaves speed and
tachometer non-negative; the speed grows by at most 2. When the distance is an
`int` that is at most `INT_MAX - 257`, the addition of the speed does not wrap
and the distance is not lowered. -/
theorem game_step_int32_monotone (s : GameState) (clutch shift : Bool) (h : InRange s)
    (_htimer : 1 ≤ s.timer) :
    (game_step_int32 s clutch shift).gear ≥ s.gear ∧
    (game_step_int32 s clutch shift).gear ≤ MAX_GEAR ∧
    (game_step_int32 s clutch shift).speed ≥ 0 ∧
    (game_step_int32 s clutch shift).tachometer ≥ 0 ∧
    (game_step_int32 s clutch shift).speed ≤ s.speed + 2 ∧
    (INT_MIN ≤ s.distance ∧ s.distance ≤ INT_MAX - 257 →
      (game_step_int32 s clutch shift).distance
        = s.distance + (game_step_int32 s clutch shift).speed ∧
      (game_step_int32 s clutch shift).distance ≥ s.distance) := by
  have hb := game_step_int32_bounds s clutch shift h
  refine ⟨hb.1, hb.2.1, hb.2.2.2.2.2.2.1, hb.2.2.1, hb.2.2.2.2.2.2.2, ?_⟩
  intro hd
  have hsr := h.2.2.2.1
  simp only [INT_MIN, INT_MAX, MAX_SPEED] at hd hsr
  have := hb.2.2.2.2.2.2.1
  have := hb.2.2.2.2.2.2.2
  have e : (game_step_int32 s clutch shift).distance
      = s.distance + (game_step_int32 s clutch shift).speed := by
    rw [game_step_int32_distance]
    exact wrap_int_eq _ (by simp only [INT_MIN]; omega) (by simp only [INT_MAX]; omega)
  exact ⟨e, by omega⟩

set_option maxRecDepth 8000 in
/-- Witness for the amended C10 at `c2_left`, whose distance leaves room. -/
theorem game_step_int32_monotone_witness :
    InRange c2_left ∧ 1 ≤ c2_left.timer ∧
    (INT_MIN ≤ c2_left.distance ∧ c2_left.distance ≤ INT_MAX - 257) ∧
    (game_step_int32 c2_left true true).gear ≥ c2_left.gear ∧
    (game_step_int32 c2_left true true).distance ≥ c2_left.distance :=
  have h := game_step_int32_monotone c2_left true true (by decide) (by decide)
  ⟨by decide, by decide, by decide, h.1, (h.2.2.2.2.2 (by decide)).2⟩

/-! ## The speed limit in `double` -/

set_option maxRecDepth 8000 in
/-- C18, refuted as stated. The tachometer `2^28 = 268435456` is non-negative
and the gear 4 lies in `[0,4]`, but the exact value `t * 2^3 + 2^2` is
2147483652, above `INT_MAX`: no `int` holds it, and the speed limit that the
step computes differs from it. -/
theorem speed_limit_beyond_int :
    (0 : Int) ≤ 268435456 ∧ ((0 : Int) ≤ 4 ∧ (4 : Int) ≤ 4) ∧
    speed_limit_exact 268435456 4 = 2147483652 ∧
    INT_MAX < speed_limit_exact 268435456 4 ∧
    speed_limit_double 268435456 4 ≤ INT_MAX ∧
    speed_limit_double 268435456 4 ≠ speed_limit_exact 268435456 4 := by
  have e : speed_limit_exact 268435456 4 = 2147483652 := by
    rw [← speed_limit_eq_exact 268435456 4 (by decide) (by decide) (by decide)]
    decide
  rw [e]
  decide

/-- C18, amended. For a tachometer `t` with `0 ≤ t < 2^28` (as it is after the
clamp of line 122) and a gear in `[0,4]`, the speed limit that the step computes
in `double` and converts to `int` is the exact product `t * 2^(gear-1)`
truncated to an integer, plus `2^(gear-2)` exactly when `t ≥ 20` and `gear > 1`:
`t / 2` rounded down in gear 0, `t` in gear 1, and `2t`, `4t`, `8t` in gears 2,
3, 4, with 1, 2, 4 added when `t ≥ 20`. It is the limit of the integer model.
The tachometer of a step is never negative, and its limit enters the new
tachometer difference and speed. -/
theorem speed_limit_double_exact (t g : Int) (ht : 0 ≤ t ∧ t < 268435456)
    (hg : 0 ≤ g ∧ g ≤ 4) :
    speed_limit_double t g = speed_limit_exact t g ∧
    (g = 0 → speed_limit_double t g = t / 2) ∧
    (g = 1 → speed_limit_double t g = t) ∧
    (g = 2 → speed_limit_double t g = if t ≥ 20 then 2 * t + 1 else 2 * t) ∧
    (g = 3 → speed_limit_double t g = if t ≥ 20 then 4 * t + 2 else 4 * t) ∧
    (g = 4 → speed_limit_double t g = if t ≥ 20 then 8 * t + 4 else 8 * t) ∧
    speed_limit_double t g = speed_limit t g ∧
    (∀ (s : GameState) (clutch shift : Bool),
      0 ≤ (game_step_int32 s clutch shift).tachometer ∧
      (game_step_int32 s clutch shift).tachometer_diff
        = next_tachometer_diff_int32 (prev_shift_int32 s clutch shift)
            (speed_limit_double (game_step_int32 s clutch shift).tachometer
              (game_step_int32 s clutch shift).gear) s.speed ∧
      (game_step_int32 s clutch shift).speed
        = next_speed_int32 (prev_shift_int32 s clutch shift)
            (game_step_int32 s clutch shift).gear
            (speed_limit_double (game_step_int32 s clutch shift).tachometer
              (game_step_int32 s clutch shift).gear) s.speed) := by
  have hv := speed_limit_values t g ht.1 hg.1 hg.2
  have hfit : INT_MIN ≤ speed_limit t g ∧ speed_limit t g ≤ INT_MAX := by
    simp only [INT_MIN, INT_MAX]
    have hc : g = 0 ∨ g = 1 ∨ g = 2 ∨ g = 3 ∨ g = 4 := by omega
    rcases hc with rfl | rfl | rfl | rfl | rfl
    · rw [hv.1 rfl]; omega
    · rw [hv.2.1 rfl]; omega
    · rw [hv.2.2.1 rfl]; split_ifs <;> omega
    · rw [hv.2.2.2.1 rfl]; split_ifs <;> omega
    · rw [hv.2.2.2.2 rfl]; split_ifs <;> omega
  have he : speed_limit_double t g = speed_limit t g := by
    rw [speed_limit_double_eq t g (by omega) hg.1 (by omega), if_pos hfit]
  refine ⟨he.trans (speed_limit_eq_exact t g ht.1 hg.1 hg.2), ?_, ?_, ?_, ?_, ?_, he, ?_⟩
  · intro h; rw [he]; exact hv.1 h
  · intro h; rw [he]; exact hv.2.1 h
  · intro h; rw [he]; exact hv.2.2.1 h
  · intro h; rw [he]; exact hv.2.2.2.1 h
  · intro h; rw [he]; exact hv.2.2.2.2 h
  · intro s clutch shift
    refine ⟨?_, game_step_int32_tachometer_diff s clutch shift,
      game_step_int32_speed s clutch shift⟩
    rw [game_step_int32_tachometer]
    exact next_tachometer_int32_nonneg _ _ _ _ _ _

set_option maxRecDepth 8000 in
/-- Witness for the amended C18: tachometer 21 in gear 3 has limit
4 * 21 + 2 = 86. -/
theorem speed_limit_double_exact_witness :
    ((0 : Int) ≤ 21 ∧ (21 : Int) < 268435456) ∧ ((0 : Int) ≤ 3 ∧ (3 : Int) ≤ 4) ∧
    speed_limit_double 21 3 = 86 ∧ speed_limit_exact 21 3 = 86 :=
  ⟨by decide, by decide, by decide,
    (speed_limit_double_exact 21 3 (by decide) (by decide)).1.symm.trans (by decide)⟩

/-! ## Congruence of the machine step -/

theorem key_step_int32 (s u : GameState) (c sh : Bool)
    (hs0 : 0 ≤ s.timer) (hs1 : s.timer ≤ MAX_FRAMES)
    (hu0 : 0 ≤ u.timer) (hu1 : u.timer ≤ MAX_FRAMES)
    (hk : KeyFields s u) (hfc : s.frame_counter = u.frame_counter) :
    KeyFields (game_step_int32 s c sh) (game_step_int32 u c sh) ∧
    (game_step_int32 s c sh).frame_counter = (game_step_int32 u c sh).frame_counter := by
  obtain ⟨h1, h2, h3, h4, h5⟩ := hk
  have hps : prev_shift_int32 s c sh = last_shift s :=
    prev_shift_int32_eq s c sh (by simp only [INT_MIN]; omega)
      (by simp only [INT_MAX, MAX_FRAMES] at *; omega)
  have hpu : prev_shift_int32 u c sh = last_shift u :=
    prev_shift_int32_eq u c sh (by simp only [INT_MIN]; omega)
      (by simp only [INT_MAX, MAX_FRAMES] at *; omega)
  have hp : prev_shift_int32 s c sh = prev_shift_int32 u c sh := by rw [hps, hpu, h1]
  have hg : (game_step_int32 s c sh).gear = (game_step_int32 u c sh).gear := by
    rw [game_step_int32_gear, game_step_int32_gear, hp, h2]
  have ht : (game_step_int32 s c sh).tachometer = (game_step_int32 u c sh).tachometer := by
    rw [game_step_int32_tachometer, game_step_int32_tachometer, hp, hg, h4, h5, hfc]
  have hd : (game_step_int32 s c sh).tachometer_diff
      = (game_step_int32 u c sh).tachometer_diff := by
    rw [game_step_int32_tachometer_diff, game_step_int32_tachometer_diff, hp, h3, hg, ht]
  have hsp : (game_step_int32 s c sh).speed = (game_step_int32 u c sh).speed := by
    rw [game_step_int32_speed, game_step_int32_speed, hp, h3, hg, ht]
  refine ⟨⟨?_, hg, hsp, ht, hd⟩, ?_⟩
  · rw [game_step_int32_last_shift s c sh hs0 hs1, game_step_int32_last_shift u c sh hu0 hu1]
  · rw [game_step_int32_frame_counter, game_step_int32_frame_counter, hfc]

theorem distance_fits_step (s : GameState) (c sh : Bool) (h : distance_fits s c sh) :
    (game_step_int32 s c sh).distance = s.distance + (game_step_int32 s c sh).speed := by
  rw [game_step_int32_distance]
  exact wrap_int_eq _ h.1 h.2

theorem key_run_int32 (ins : List (Bool × Bool)) (s u : GameState)
    (hs0 : 0 ≤ s.timer) (hs1 : s.timer + ins.length ≤ MAX_FRAMES + 1)
    (hu0 : 0 ≤ u.timer) (hu1 : u.timer + ins.length ≤ MAX_FRAMES + 1)
    (hk : KeyFields s u) (hfc : s.frame_counter = u.frame_counter) :
    KeyFields (run_inputs_int32 s ins) (run_inputs_int32 u ins) ∧
    (run_inputs_int32 s ins).frame_counter = (run_inputs_int32 u ins).frame_counter ∧
    (run_fits s ins → run_fits u ins →
      (run_inputs_int32 s ins).distance - s.distance
        = (run_inputs_int32 u ins).distance - u.distance) := by
  induction ins generalizing s u with
  | nil => exact ⟨hk, hfc, fun _ _ => by simp [run_inputs_int32_nil]⟩
  | cons x xs ih =>
    simp only [List.length_cons, MAX_FRAMES] at hs1 hu1
    push_cast at hs1 hu1
    have h1 := key_step_int32 s u x.1 x.2 hs0 (by simp only [MAX_FRAMES]; omega) hu0
      (by simp only [MAX_FRAMES]; omega) hk hfc
    have ts : (game_step_int32 s x.1 x.2).timer = s.timer + 1 := by
      rw [game_step_int32_timer]
      exact wrap_int_eq _ (by simp only [INT_MIN]; omega) (by simp only [INT_MAX]; omega)
    have tu : (game_step_int32 u x.1 x.2).timer = u.timer + 1 := by
      rw [game_step_int32_timer]
      exact wrap_int_eq _ (by simp only [INT_MIN]; omega) (by simp only [INT_MAX]; omega)
    rw [run_inputs_int32_cons, run_inputs_int32_cons]
    have h2 := ih (game_step_int32 s x.1 x.2) (game_step_int32 u x.1 x.2)
      (by rw [ts]; omega) (by rw [ts]; simp only [MAX_FRAMES]; omega)
      (by rw [tu]; omega) (by rw [tu]; simp only [MAX_FRAMES]; omega) h1.1 h1.2
    refine ⟨h2.1, h2.2.1, ?_⟩
    intro fs fu
    have a := h2.2.2 fs.2 fu.2
    have b := distance_fits_step s x.1 x.2 fs.1
    have c := distance_fits_step u x.1 x.2 fu.1
    have d := h1.1.2.2.1
    omega

theorem run_fits_within (ins : List (Bool × Bool)) (s : GameState) (k : Nat)
    (hk : k + ins.length ≤ 168)
    (hg : 0 ≤ s.gear ∧ s.gear ≤ 4) (hsp : 0 ≤ s.speed ∧ s.speed ≤ 255 + 2 * (k : Int))
    (ht : 0 ≤ s.tachometer ∧ s.tachometer ≤ 31 + 3 * (k : Int))
    (hd : 0 ≤ s.tachometer_diff ∧ s.tachometer_diff ≤ 1)
    (hdist : INT_MIN ≤ s.distance ∧ s.distance + 600 * (168 - (k : Int)) ≤ INT_MAX) :
    run_fits s ins := by
  induction ins generalizing s k with
  | nil => trivial
  | cons x xs ih =>
    simp only [List.length_cons] at hk
    have hb := game_step_int32_bounds_wide s x.1 x.2 hg ⟨hsp.1, by omega⟩ ⟨ht.1, by omega⟩ hd
    simp only [INT_MIN, INT_MAX] at hdist
    have hfit : distance_fits s x.1 x.2 := by
      constructor
      · simp only [INT_MIN]; omega
      · simp only [INT_MAX]; omega
    have hdist' := distance_fits_step s x.1 x.2 hfit
    refine ⟨hfit, ih _ (k + 1) (by omega) ⟨by omega, hb.2.1⟩ ⟨hb.2.2.2.2.2.2.1, ?_⟩
      ⟨hb.2.2.1, ?_⟩ ⟨hb.2.2.2.2.1, hb.2.2.2.2.2.1⟩ ⟨?_, ?_⟩⟩
    · push_cast; omega
    · push_cast; omega
    · simp only [INT_MIN]; omega
    · simp only [INT_MAX]; push_cast; omega

theorem run_fits_of_range (s : GameState) (ins : List (Bool × Bool)) (h : InRange s)
    (hlen : ins.length ≤ 168)
    (hd : INT_MIN ≤ s.distance ∧ s.distance ≤ INT_MAX - 100800) : run_fits s ins := by
  have w := in_range_wide s h
  simp only [INT_MAX] at hd
  exact run_fits_within ins s 0 (by omega) w.1 (by simpa using w.2.1) (by simpa using w.2.2.1)
    w.2.2.2 ⟨hd.1, by simp only [INT_MAX]; push_cast; omega⟩

set_option maxRecDepth 8000 in
/-- C19, refuted as stated. The states `c19_ahead` and `c19_behind` agree on
gear, speed, tachometer, tachometer difference, frame counter and the shift bit
of their last recorded slot; `c19_ahead` has the greater distance, `INT_MAX`
against 1000. One step with clutch set raises both speeds to 42. The distance
of `c19_behind` grows by 42 to 1042; the addition wraps around for `c19_ahead`,
whose distance becomes -2147483607 and is now the smaller one. -/
theorem distance_order_lost_by_overflow :
    c19_ahead.gear = c19_behind.gear ∧ c19_ahead.speed = c19_behind.speed ∧
    c19_ahead.tachometer = c19_behind.tachometer ∧
    c19_ahead.tachometer_diff = c19_behind.tachometer_diff ∧
    c19_ahead.frame_counter = c19_behind.frame_counter ∧
    last_shift c19_ahead = last_shift c19_behind ∧
    c19_behind.distance ≤ c19_ahead.distance ∧
    (game_step_int32 c19_behind true false).distance = 1042 ∧
    (game_step_int32 c19_ahead true false).distance = -2147483607 ∧
    ¬ (run_inputs_int32 c19_behind [(true, false)]).distance
        ≤ (run_inputs_int32 c19_ahead [(true, false)]).distance := by
  decide

/-- C19, amended. Two states with timer in `[1, MAX_FRAMES]` that agree on
gear, speed, tachometer, tachometer difference, frame counter and the shift bit
of their last recorded input slot are sent by the step, under every
`(clutch, shift)`, to states that agree on the same six items, and both
distances change by the same amount modulo `2^32`; when neither addition
`distance += speed` leaves the range of `int`, both distances grow by the same
amount. By induction the six items agree along every common run of inputs that
stays within the `inputs` array; when no addition of the two runs leaves the
range of `int`, both distances grow by the same amount along the run and the
state with the greater distance keeps a distance at least as great. No
addition leaves the range of `int` when the two states lie within the ranges of
the data model and their distances are `int`s of at most `INT_MAX - 100800`. -/
theorem step_congruence_no_overflow (s u : GameState) (clutch shift : Bool)
    (ins : List (Bool × Bool))
    (hs : 1 ≤ s.timer ∧ s.timer ≤ MAX_FRAMES) (hu : 1 ≤ u.timer ∧ u.timer ≤ MAX_FRAMES)
    (hins : s.timer + ins.length ≤ MAX_FRAMES + 1 ∧ u.timer + ins.length ≤ MAX_FRAMES + 1)
    (hgear : s.gear = u.gear) (hspeed : s.speed = u.speed)
    (htach : s.tachometer = u.tachometer) (hdiff : s.tachometer_diff = u.tachometer_diff)
    (hfc : s.frame_counter = u.frame_counter) (hshift : last_shift s = last_shift u) :
    ((game_step_int32 s clutch shift).gear = (game_step_int32 u clutch shift).gear ∧
      (game_step_int32 s clutch shift).speed = (game_step_int32 u clutch shift).speed ∧
      (game_step_int32 s clutch shift).tachometer
        = (game_step_int32 u clutch shift).tachometer ∧
      (game_step_int32 s clutch shift).tachometer_diff
        = (game_step_int32 u clutch shift).tachometer_diff ∧
      (game_step_int32 s clutch shift).frame_counter
        = (game_step_int32 u clutch shift).frame_counter ∧
      last_shift (game_step_int32 s clutch shift)
        = last_shift (game_step_int32 u clutch shift) ∧
      wrap_int ((game_step_int32 s clutch shift).distance - s.distance)
        = wrap_int ((game_step_int32 u clutch shift).distance - u.distance) ∧
      (distance_fits s clutch shift → distance_fits u clutch shift →
        (game_step_int32 s clutch shift).distance - s.distance
          = (game_step_int32 u clutch shift).distance - u.distance)) ∧
    ((run_inputs_int32 s ins).gear = (run_inputs_int32 u ins).gear ∧
      (run_inputs_int32 s ins).speed = (run_inputs_int32 u ins).speed ∧
      (run_inputs_int32 s ins).tachometer = (run_inputs_int32 u ins).tachometer ∧
      (run_inputs_int32 s ins).tachometer_diff = (run_inputs_int32 u ins).tachometer_diff ∧
      (run_inputs_int32 s ins).frame_counter = (run_inputs_int32 u ins).frame_counter ∧
      last_shift (run_inputs_int32 s ins) = last_shift (run_inputs_int32 u ins)) ∧
    (run_fits s ins → run_fits u ins →
      (run_inputs_int32 s ins).distance - s.distance
        = (run_inputs_int32 u ins).distance - u.distance ∧
      (u.distance ≤ s.distance →
        (run_inputs_int32 u ins).distance ≤ (run_inputs_int32 s ins).distance)) ∧
    (InRange s → InRange u →
      INT_MIN ≤ s.distance ∧ s.distance ≤ INT_MAX - 100800 →
      INT_MIN ≤ u.distance ∧ u.distance ≤ INT_MAX - 100800 →
      distance_fits s clutch shift ∧ distance_fits u clutch shift ∧
        run_fits s ins ∧ run_fits u ins) := by
  have hk : KeyFields s u := ⟨hshift, hgear, hspeed, htach, hdiff⟩
  have h1 := key_step_int32 s u clutch shift (by omega) hs.2 (by omega) hu.2 hk hfc
  have h2 := key_run_int32 ins s u (by omega) hins.1 (by omega) hins.2 hk hfc
  refine ⟨⟨h1.1.2.1, h1.1.2.2.1, h1.1.2.2.2.1, h1.1.2.2.2.2, h1.2, h1.1.1, ?_, ?_⟩,
    ⟨h2.1.2.1, h2.1.2.2.1, h2.1.2.2.2.1, h2.1.2.2.2.2, h2.2.1, h2.1.1⟩, ?_, ?_⟩
  · rw [game_step_int32_distance, game_step_int32_distance, wrap_int_growth, wrap_int_growth,
      h1.1.2.2.1]
  · intro fs fu
    rw [distance_fits_step s clutch shift fs, distance_fits_step u clutch shift fu, h1.1.2.2.1]
    omega
  · intro fs fu
    have h := h2.2.2 fs fu
    exact ⟨h, fun hle => by omega⟩
  · intro rs ru ds du
    have hlen : ins.length ≤ 168 := by
      have := hins.1
      simp only [MAX_FRAMES] at this
      omega
    exact ⟨(run_fits_of_range s [(clutch, shift)] rs (by simp) ds).1,
      (run_fits_of_range u [(clutch, shift)] ru (by simp) du).1,
      run_fits_of_range s ins rs hlen ds, run_fits_of_range u ins ru hlen du⟩

set_option maxRecDepth 8000 in
/-- Witness for the amended C19: `c2_left` and a copy that has covered 100 more,
along three common inputs; no addition leaves the range of `int`. -/
theorem step_congruence_no_overflow_witness :
    (1 ≤ c2_left.timer ∧ c2_left.timer ≤ MAX_FRAMES) ∧
    run_fits c2_left [(true, false), (true, true), (false, false)] ∧
    run_fits { c2_left with distance := c2_left.distance + 100 }
      [(true, false), (true, true), (false, false)] ∧
    c2_left.distance ≤ c2_left.distance + 100 ∧
    (run_inputs_int32 c2_left [(true, false), (true, true), (false, false)]).distance
      ≤ (run_inputs_int32 { c2_left with distance := c2_left.distance + 100 }
          [(true, false), (true, true), (false, false)]).distance :=
  ⟨by decide, by decide, by decide, by decide,
    ((step_congruence_no_overflow { c2_left with distance := c2_left.distance + 100 }
      c2_left true false [(true, false), (true, true), (false, false)]
      (by decide) (by decide) (by decide) (by decide) (by decide) (by decide) (by decide)
      (by decide) (by decide)).2.2.1 (by decide) (by decide)).2 (by decide)⟩

end Dragster
